import Mathlib

/-! CppVue, the reactive dependency-tracking engine.

A shallow embedding of `src/core/reactive.hpp` and `src/core/reactive.cpp`.

* `Dependency` and `Effect` objects are identified by natural numbers (the
  C++ code identifies them by `shared_ptr` address).
* The two `std::unordered_set`s (`Dependency::subscribers_`,
  `Effect::dependencies_`) are lists used as sets: inserting a member that is
  already there changes nothing, erasing removes the member. `notify`
  iterates its copy in list order (the C++ order is unspecified).
* The process-wide `DependencyTracker::activeEffect_` is the field
  `activeEffect` of the state.
* A `std::function<void()>` wrapped by an `Effect` is a command `Cmd`: the
  reads, writes, nested runs, conditionals and errors such a function can
  perform on the reactive graph.
* `trace` is a ghost log of what happened, in chronological order; it is
  written and never read by the engine.
-/

namespace CppVue

abbrev DepId := Nat
abbrev EffId := Nat

/-- Ghost events recorded in the trace of a reactive graph. -/
inductive Event where
  /-- Event `track e d`: `DependencyTracker::track(d)` subscribed the active effect `e`. -/
  | track (e : EffId) (d : DepId)
  /-- Event `cleanup e`: `Effect::cleanup` of `e` finished. -/
  | cleanup (e : EffId)
  /-- Event `notify d`: `Dependency::notify` of `d` was entered. -/
  | notify (d : DepId)
  /-- Event `enter e`: `Effect::run` of `e` is about to call the wrapped function `fn_`. -/
  | enter (e : EffId)
  /-- Event `exit e`: `Effect::run` of `e` restored the previous active effect. -/
  | exit (e : EffId)
  deriving DecidableEq, Repr

/-- The reactive graph: every `Dependency`, every `Effect`, the values held by
the `Reactive<T>` containers (with `T = Int`) and the tracker singleton. -/
structure Graph where
  /-- Field `Dependency::subscribers_` of every dependency. -/
  subscribers : DepId → List EffId
  /-- Field `Effect::dependencies_` of every effect. -/
  dependencies : EffId → List DepId
  /-- Field `Reactive<T>::value_` of every reactive container. -/
  value : DepId → Int
  /-- Field `DependencyTracker::activeEffect_` (`none` is `nullptr`). -/
  activeEffect : Option EffId
  /-- Ghost log, oldest event first. -/
  trace : List Event

/-- The graph with no subscription at all, no active effect and an empty log. -/
def Graph.empty (value : DepId → Int) : Graph :=
  { subscribers := fun _ => []
    dependencies := fun _ => []
    value := value
    activeEffect := none
    trace := [] }

/-- Set insertion, `std::unordered_set::insert`: a member already present is not added again. -/
def setInsert (x : Nat) (l : List Nat) : List Nat :=
  if x ∈ l then l else l ++ [x]

/-- Set removal, `std::unordered_set::erase(key)`. -/
def setErase (x : Nat) (l : List Nat) : List Nat :=
  l.filter (fun y => y != x)

/-- Source `Dependency::addSubscriber`: `subscribers_.insert(effect)`. -/
def Dependency.addSubscriber (d : DepId) (e : EffId) (g : Graph) : Graph :=
  { g with subscribers := Function.update g.subscribers d (setInsert e (g.subscribers d)) }

/-- Source `Dependency::removeSubscriber`: `subscribers_.erase(effect)`. -/
def Dependency.removeSubscriber (d : DepId) (e : EffId) (g : Graph) : Graph :=
  { g with subscribers := Function.update g.subscribers d (setErase e (g.subscribers d)) }

/-- Source `DependencyTracker::track`: when an effect is active, it becomes a
subscriber of `dep` and `dep` joins its dependency set; otherwise nothing happens. -/
def DependencyTracker.track (d : DepId) (g : Graph) : Graph :=
  match g.activeEffect with
  | some e =>
    let g1 := Dependency.addSubscriber d e g
    { g1 with
      dependencies := Function.update g1.dependencies e (setInsert d (g1.dependencies e))
      trace := g1.trace ++ [Event.track e d] }
  | none => g

/-- Source `DependencyTracker::untrack`: `activeEffect_ = nullptr`. -/
def DependencyTracker.untrack (g : Graph) : Graph :=
  { g with activeEffect := none }

/-- Source `Effect::cleanup`: the loop removes the effect from each of its
dependencies, then `dependencies_.clear()`. -/
def Effect.cleanup (e : EffId) (g : Graph) : Graph :=
  let g1 := (g.dependencies e).foldl (fun acc d => Dependency.removeSubscriber d e acc) g
  { g1 with
    dependencies := Function.update g1.dependencies e []
    trace := g1.trace ++ [Event.cleanup e] }

/-- How a call ends: normal return, a C++ exception in flight (`raised`), or
the nesting budget of the model being exhausted (`timeout`). Each carries the
graph at that moment. -/
inductive Outcome where
  | ok (g : Graph)
  | raised (err : Nat) (g : Graph)
  | timeout (g : Graph)

/-- The graph an outcome carries. -/
def Outcome.graph : Outcome → Graph
  | .ok g => g
  | .raised _ g => g
  | .timeout g => g

/-- Source `Effect::run`, the statement `tracker.activeEffect_ = shared_from_this()`,
after which `fn_` is called. -/
def Effect.install (e : EffId) (g : Graph) : Graph :=
  { g with activeEffect := some e, trace := g.trace ++ [Event.enter e] }

/-- Source `Effect::run`, with the call of `fn_` given as `body`: cleanup, save
the active effect, install `this`, call `fn_`, restore on both the `catch (...)`
path (then rethrow) and the normal path. -/
def Effect.run (body : Graph → Outcome) (e : EffId) (g : Graph) : Outcome :=
  let g1 := Effect.cleanup e g
  let previousEffect := g1.activeEffect
  let g2 := Effect.install e g1
  match body g2 with
  | .ok g3 =>
    .ok { g3 with activeEffect := previousEffect, trace := g3.trace ++ [Event.exit e] }
  | .raised err g3 =>
    .raised err { g3 with activeEffect := previousEffect, trace := g3.trace ++ [Event.exit e] }
  | .timeout g3 => .timeout g3

/-- The `for` loop of `Dependency::notify` over the copied subscriber set:
`effect->run()` for each; an exception leaves the loop. -/
def forEachRun (runE : EffId → Graph → Outcome) : List EffId → Graph → Outcome
  | [], g => .ok g
  | e :: es, g =>
    match runE e g with
    | .ok g1 => forEachRun runE es g1
    | o => o

/-- Source `Dependency::notify`: `subscribersCopy = subscribers_`, then the loop. -/
def Dependency.notify (runE : EffId → Graph → Outcome) (d : DepId) (g : Graph) : Outcome :=
  let subscribersCopy := g.subscribers d
  forEachRun runE subscribersCopy { g with trace := g.trace ++ [Event.notify d] }

/-- Source `Reactive::operator*`: track, then yield `value_`. -/
def Reactive.deref (r : DepId) (g : Graph) : Int × Graph :=
  (g.value r, DependencyTracker.track r g)

/-- Source `Reactive::operator=`: store and notify only when `value_ != newValue`. -/
def Reactive.assign (runE : EffId → Graph → Outcome) (r : DepId) (newValue : Int)
    (g : Graph) : Outcome :=
  if g.value r ≠ newValue then
    Dependency.notify runE r { g with value := Function.update g.value r newValue }
  else
    .ok g

/-- Expressions a wrapped function evaluates: they read reactive containers. -/
inductive Expr where
  | lit (v : Int)
  /-- Expression `*r`. -/
  | deref (r : DepId)
  | binop (f : Int → Int → Int) (a b : Expr)
  /-- Read `*r`, then go on with an expression chosen from the value read: what
  is read next may depend on the state, as in `*flag ? *a : *b`. Every
  computation that only reads reactive containers has this form. -/
  | bind (r : DepId) (k : Int → Expr)

/-- Evaluation of an expression, left operand first; every `*r` tracks. -/
def Expr.eval : Expr → Graph → Int × Graph
  | .lit v, g => (v, g)
  | .deref r, g => Reactive.deref r g
  | .binop f a b, g =>
    let ra := Expr.eval a g
    let rb := Expr.eval b ra.2
    (f ra.1 rb.1, rb.2)
  | .bind r k, g => Expr.eval (k (Reactive.deref r g).1) (Reactive.deref r g).2

/-- What a wrapped function (or any client code) does to the reactive graph. -/
inductive Cmd where
  | skip
  /-- Evaluate an expression for its reads. -/
  | eval (x : Expr)
  /-- Statement `r = x`. -/
  | assign (r : DepId) (x : Expr)
  /-- Call `DependencyTracker::instance().track(d)`. -/
  | track (d : DepId)
  /-- Call `DependencyTracker::instance().untrack()`. -/
  | untrack
  /-- Call `d->notify()`. -/
  | notify (d : DepId)
  /-- Call `e->run()`. -/
  | run (e : EffId)
  /-- Call `e->cleanup()`. -/
  | cleanup (e : EffId)
  /-- Statement `throw err`. -/
  | raise (err : Nat)
  | seq (a b : Cmd)
  /-- Statement `if (c != 0) t else f`. -/
  | ite (c : Expr) (t f : Cmd)
  /-- Statement `try a catch (...) b`. -/
  | tryCatch (a b : Cmd)

/-- Execution of a command; `runE` is `Effect::run` for the effects it may call. -/
def Cmd.exec (runE : EffId → Graph → Outcome) : Cmd → Graph → Outcome
  | .skip, g => .ok g
  | .eval x, g => .ok (Expr.eval x g).2
  | .assign r x, g =>
    let rx := Expr.eval x g
    Reactive.assign runE r rx.1 rx.2
  | .track d, g => .ok (DependencyTracker.track d g)
  | .untrack, g => .ok (DependencyTracker.untrack g)
  | .notify d, g => Dependency.notify runE d g
  | .run e, g => runE e g
  | .cleanup e, g => .ok (Effect.cleanup e g)
  | .raise err, g => .raised err g
  | .seq a b, g =>
    match Cmd.exec runE a g with
    | .ok g1 => Cmd.exec runE b g1
    | o => o
  | .ite c t f, g =>
    let rc := Expr.eval c g
    if rc.1 ≠ 0 then Cmd.exec runE t rc.2 else Cmd.exec runE f rc.2
  | .tryCatch a b, g =>
    match Cmd.exec runE a g with
    | .raised _ g1 => Cmd.exec runE b g1
    | o => o

/-- Method `Effect::run` of effect `e`, whose wrapped function is `fns e`. The
first argument bounds the nesting depth of `run` calls; running out of it is
`timeout`. -/
def runEffect (fns : EffId → Cmd) : Nat → EffId → Graph → Outcome
  | 0, _, g => .timeout g
  | n + 1, e, g => Effect.run (Cmd.exec (runEffect fns n) (fns e)) e g

/-- Number of times the wrapped function of `e` has been invoked. -/
def runCount (e : EffId) (g : Graph) : Nat :=
  g.trace.count (Event.enter e)

/-- Subscription symmetry: `e ∈ d.subscribers ⇔ d ∈ e.dependencies`. -/
def Symmetric (g : Graph) : Prop :=
  ∀ d e, e ∈ g.subscribers d ↔ d ∈ g.dependencies e

/-- Whether an outcome is a normal return. -/
def Outcome.isOk : Outcome → Bool
  | .ok _ => true
  | _ => false

/-- Whether an outcome is an exception in flight with the given error. -/
def Outcome.isRaised (err : Nat) : Outcome → Bool
  | .raised err1 _ => err1 == err
  | _ => false

/-- Every subscriber set is duplicate free, as an `unordered_set` is. -/
def SubscribersNodup (g : Graph) : Prop :=
  ∀ d, (g.subscribers d).Nodup

/-- A relation between graphs that holds across every primitive step of the engine. -/
structure StepClosed (R : Graph → Graph → Prop) : Prop where
  refl : ∀ g, R g g
  trans : ∀ a b c, R a b → R b c → R a c
  track : ∀ d g, R g (DependencyTracker.track d g)
  cleanup : ∀ e g, R g (Effect.cleanup e g)
  setActive : ∀ p (g : Graph), R g { g with activeEffect := p }
  store : ∀ r v (g : Graph), R g { g with value := Function.update g.value r v }
  logNotify : ∀ d (g : Graph), R g { g with trace := g.trace ++ [Event.notify d] }
  logEnter : ∀ e (g : Graph), R g { g with trace := g.trace ++ [Event.enter e] }
  logExit : ∀ e (g : Graph), R g { g with trace := g.trace ++ [Event.exit e] }

/-- The dependency set of `e` obtained by replaying a stretch of the log on `acc`. -/
def replayDeps (e : EffId) : List Event → List DepId → List DepId
  | [], acc => acc
  | Event.track e1 d :: t, acc => replayDeps e t (if e1 = e then setInsert d acc else acc)
  | Event.cleanup e1 :: t, acc => replayDeps e t (if e1 = e then [] else acc)
  | _ :: t, acc => replayDeps e t acc

/-- Effects whose wrapped function is entered at nesting depth `0` of a stretch
of the log read at nesting depth `k`. -/
def scanRuns : Nat → List Event → List EffId
  | _, [] => []
  | k, Event.enter e :: t => if k = 0 then e :: scanRuns 1 t else scanRuns (k + 1) t
  | k, Event.exit _ :: t => scanRuns (k - 1) t
  | k, _ :: t => scanRuns k t

/-- The `run` calls made directly by the code that logged `seg` (not by a
wrapped function it called). -/
def directRuns (seg : List Event) : List EffId :=
  scanRuns 0 seg

/-- A stretch of the log in which every `enter` is closed by a later `exit`. -/
inductive Balanced : List Event → Prop where
  | nil : Balanced []
  | track (e : EffId) (d : DepId) (t : List Event) : Balanced t → Balanced (Event.track e d :: t)
  | cleanup (e : EffId) (t : List Event) : Balanced t → Balanced (Event.cleanup e :: t)
  | notify (d : DepId) (t : List Event) : Balanced t → Balanced (Event.notify d :: t)
  | nest (e1 e2 : EffId) (s t : List Event) :
      Balanced s → Balanced t → Balanced (Event.enter e1 :: (s ++ Event.exit e2 :: t))

/-- Commands that only read reactive values: no write, no `run`, no `notify`,
no `cleanup`, no `untrack`, no `throw`. -/
def Cmd.readOnly : Cmd → Bool
  | .skip => true
  | .eval _ => true
  | .track _ => true
  | .seq a b => a.readOnly && b.readOnly
  | .ite _ t f => t.readOnly && f.readOnly
  | _ => false

/-- Wrapped functions of a small graph: effect `0` reads `0` and runs effect `1`;
effect `1` reads `1`; effect `2` reads `0` and throws `42`. -/
def nestedFns : EffId → Cmd
  | 0 => .seq (.eval (.deref 0)) (.run 1)
  | 1 => .eval (.deref 1)
  | 2 => .seq (.eval (.deref 0)) (.raise 42)
  | _ => .skip

/-- The empty graph in which effect `5` is the active one. -/
def activeFive : Graph :=
  { Graph.empty (fun _ => 0) with activeEffect := some 5 }

/-- Whether a call ended, by a normal return or by an exception. -/
def Outcome.finished : Outcome → Bool
  | .timeout _ => false
  | _ => true

/-- Relation of a graph to a later one: the log grew by some stretch, and every
dependency set is the old one with that stretch replayed on it. -/
def Replays (g g1 : Graph) : Prop :=
  ∃ seg, g1.trace = g.trace ++ seg ∧
    ∀ e, g1.dependencies e = replayDeps e seg (g.dependencies e)

/-- Wrapped function `if (*a == 0) { *b; a = 1; }` of effect `0`, with `a` the
container `0` and `b` the container `1`. -/
def selfWriteFns : EffId → Cmd
  | 0 => .ite (.binop (fun x _ => if x = 0 then 1 else 0) (.deref 0) (.lit 0))
      (.seq (.eval (.deref 1)) (.assign 0 (.lit 1))) .skip
  | _ => .skip

/-- Wrapped functions: effect `0` is `if (*flag != 0) *b; else *a;`, effect `1`
is the derived value `a = *b`, effect `2` is `*b`; `a`, `b`, `flag` are the
containers `0`, `1`, `2`. -/
def condFns : EffId → Cmd
  | 0 => .ite (.deref 2) (.eval (.deref 1)) (.eval (.deref 0))
  | 1 => .assign 0 (.deref 1)
  | 2 => .eval (.deref 1)
  | _ => .skip

/-- All containers hold `1`; effect `0` runs (reading `flag` and `b`), effect `k`
runs, then `flag = 0` makes effect `0` run again, reading `flag` and `a` only. -/
def condSetup (k : EffId) : Graph :=
  (Cmd.exec (runEffect condFns 2)
    (.seq (.run 0) (.seq (.run k) (.assign 2 (.lit 0)))) (Graph.empty (fun _ => 1))).graph

/-- The setup in which the derived value `a = *b` (effect `1`) is subscribed to `b`. -/
def condStart : Graph := condSetup 1

/-- Wrapped functions of a diamond: effect `0` reads `r` and `q`, effect `1` is
the derived value `q = *r`; `r`, `q` are the containers `0`, `1`. -/
def diamondFns : EffId → Cmd
  | 0 => .eval (.binop (fun x y => x + y) (.deref 0) (.deref 1))
  | 1 => .assign 1 (.deref 0)
  | _ => .skip

/-- Both effects of the diamond have run once from the empty graph. -/
def diamondStart : Graph :=
  (Cmd.exec (runEffect diamondFns 1) (.seq (.run 0) (.run 1)) (Graph.empty (fun _ => 0))).graph

/-- Relation of a graph to a later one: no value changed, the active-effect
slot is the same and no wrapped function was entered. -/
def Quiet (g g1 : Graph) : Prop :=
  g1.value = g.value ∧ g1.activeEffect = g.activeEffect ∧ ∀ e, runCount e g1 = runCount e g

/-- A call that ended logged a balanced stretch. -/
def BalancedCall (g : Graph) (o : Outcome) : Prop :=
  o.finished = true → ∃ seg, o.graph.trace = g.trace ++ seg ∧ Balanced seg

/-- Two wrapped functions `if (*r != 0) throw 7;` (effects `0` and `1`), `r` the
container `0`. -/
def throwFns : EffId → Cmd
  | 0 => .ite (.deref 0) (.raise 7) .skip
  | 1 => .ite (.deref 0) (.raise 7) .skip
  | _ => .skip

/-- Effects `first` and `second` ran in that order from the empty graph, `r` holding `0`. -/
def throwStart (first second : EffId) : Graph :=
  (Cmd.exec (runEffect throwFns 1) (.seq (.run first) (.run second))
    (Graph.empty (fun _ => 0))).graph

/-- The state of `throwStart` once `5` has been stored in `r`: the state in
which `operator=` calls `notify`. -/
def throwNotify (first second : EffId) : Graph :=
  { throwStart first second with value := fun _ => 5 }

/-- Wrapped functions that change the subscriber set of `d` (container `0`) while
it is being notified: effect `0` is `if (*d != 0) { e1->cleanup(); e2->run(); }`,
effects `1` and `2` read `d`. -/
def churnFns : EffId → Cmd
  | 0 => .ite (.deref 0) (.seq (.cleanup 1) (.run 2)) .skip
  | 1 => .eval (.deref 0)
  | 2 => .eval (.deref 0)
  | _ => .skip

/-- Effects `0` and `1` ran while `d` held `0`, and `5` has just been stored in `d`. -/
def churnStart : Graph :=
  { (Cmd.exec (runEffect churnFns 1) (.seq (.run 0) (.run 1))
      (Graph.empty (fun _ => 0))).graph with value := fun _ => 5 }

/-! ## The virtual tree and the platform (`component.hpp`, `renderer.hpp`) -/

/-- A platform handle, `void*` in the source; `0` is `nullptr`. -/
abbrev Handle := Nat

/-- Modelled from the spec: the member `key`, read by `isSameVNode` and not
declared in `component.hpp`; it is the optional identity key used for diff
matching. The rest is class `VNode`: `addr` is the address of the object (nodes
are handled through `shared_ptr` and the renderer's cache is keyed by pointer);
the members `directives` and `component` are not read by the renderer and are
left out. -/
inductive VNode where
  | mk (addr : Nat) (tag : String) (key : Option Nat) (props : List (String × String))
      (children : List VNode) (textContent : String)

def VNode.addr : VNode → Nat
  | .mk a _ _ _ _ _ => a

def VNode.tag : VNode → String
  | .mk _ t _ _ _ _ => t

def VNode.key : VNode → Option Nat
  | .mk _ _ k _ _ _ => k

def VNode.props : VNode → List (String × String)
  | .mk _ _ _ p _ _ => p

def VNode.children : VNode → List VNode
  | .mk _ _ _ _ c _ => c

def VNode.textContent : VNode → String
  | .mk _ _ _ _ _ t => t

/-- Enumeration `LifecycleHook` of `lifecycle.hpp`. -/
inductive LifecycleHook where
  | beforeCreate
  | created
  | beforeMount
  | mounted
  | beforeUpdate
  | updated
  | beforeUnmount
  | unmounted
  | errorCaptured
  deriving DecidableEq, Repr

/-- What the renderer did, in order: the calls it made on the
`PlatformRenderer` interface (with the handle a creation returned), and, for
the component entry points, the lifecycle hooks and `render` calls. -/
inductive Call where
  | createElement (tag : String) (result : Handle)
  | createTextNode (text : String) (result : Handle)
  | setAttribute (element : Handle) (name value : String)
  | removeAttribute (element : Handle) (name : String)
  | insertBefore (parent newNode referenceNode : Handle)
  | removeChild (parent child : Handle)
  | appendChild (parent child : Handle)
  | getParentNode (element result : Handle)
  | hook (h : LifecycleHook)
  | render
  deriving DecidableEq, Repr

/-- One element or text node of the platform tree. -/
structure DomNode where
  /-- The tag; empty for a text node. -/
  tag : String
  text : String
  attrs : List (String × String)
  children : List Handle

/-- Modelled from the spec: the platform rendering interface of section 6. The
source has the abstract class `PlatformRenderer` and a `WebRenderer` whose
methods are empty stubs; this is a reference platform with document-tree
semantics: creation returns a fresh handle, a node has at most one parent,
`insertBefore` with a reference that is not a child appends. `calls` is the log. -/
structure Platform where
  /-- The next handle a creation returns. -/
  next : Handle
  nodes : Handle → DomNode
  calls : List Call

def Platform.createElement (tag : String) (p : Platform) : Handle × Platform :=
  (p.next,
    { next := p.next + 1
      nodes := Function.update p.nodes p.next { tag := tag, text := "", attrs := [], children := [] }
      calls := p.calls ++ [Call.createElement tag p.next] })

def Platform.createTextNode (text : String) (p : Platform) : Handle × Platform :=
  (p.next,
    { next := p.next + 1
      nodes := Function.update p.nodes p.next { tag := "", text := text, attrs := [], children := [] }
      calls := p.calls ++ [Call.createTextNode text p.next] })

def Platform.setAttribute (element : Handle) (name value : String) (p : Platform) : Platform :=
  { p with
    nodes := Function.update p.nodes element
      { p.nodes element with
        attrs := (p.nodes element).attrs.filter (fun kv => kv.1 != name) ++ [(name, value)] }
    calls := p.calls ++ [Call.setAttribute element name value] }

def Platform.removeAttribute (element : Handle) (name : String) (p : Platform) : Platform :=
  { p with
    nodes := Function.update p.nodes element
      { p.nodes element with attrs := (p.nodes element).attrs.filter (fun kv => kv.1 != name) }
    calls := p.calls ++ [Call.removeAttribute element name] }

/-- The node map with `child` taken out of every child list. -/
def detach (child : Handle) (nodes : Handle → DomNode) : Handle → DomNode :=
  fun h => { nodes h with children := (nodes h).children.filter (fun c => c != child) }

/-- The child list `l` with `newNode` put before `referenceNode`, or at the end
when `referenceNode` is not in `l`. -/
def insertBeforeIn (newNode referenceNode : Handle) : List Handle → List Handle
  | [] => [newNode]
  | c :: cs =>
    if c = referenceNode then newNode :: c :: cs
    else c :: insertBeforeIn newNode referenceNode cs

def Platform.appendChild (parent child : Handle) (p : Platform) : Platform :=
  { p with
    nodes := Function.update (detach child p.nodes) parent
      { detach child p.nodes parent with
        children := (detach child p.nodes parent).children ++ [child] }
    calls := p.calls ++ [Call.appendChild parent child] }

def Platform.insertBefore (parent newNode referenceNode : Handle) (p : Platform) : Platform :=
  { p with
    nodes := Function.update (detach newNode p.nodes) parent
      { detach newNode p.nodes parent with
        children := insertBeforeIn newNode referenceNode (detach newNode p.nodes parent).children }
    calls := p.calls ++ [Call.insertBefore parent newNode referenceNode] }

def Platform.removeChild (parent child : Handle) (p : Platform) : Platform :=
  { p with
    nodes := Function.update p.nodes parent
      { p.nodes parent with children := (p.nodes parent).children.filter (fun c => c != child) }
    calls := p.calls ++ [Call.removeChild parent child] }

/-- Modelled from the spec: `getParentNode`, called by `Renderer::unmount`, is not
declared in `PlatformRenderer`; it yields the handle whose child list holds
`element`, or `nullptr`. -/
def Platform.getParentNode (element : Handle) (p : Platform) : Handle × Platform :=
  let parent := ((List.range p.next).find? (fun h => (p.nodes h).children.contains element)).getD 0
  (parent, { p with calls := p.calls ++ [Call.getParentNode element parent] })

/-- A platform with the elements `1 .. n` already created (bare `div`s that can
serve as containers) and an empty log. -/
def Platform.init (n : Nat) : Platform :=
  { next := n + 1
    nodes := fun _ => { tag := "div", text := "", attrs := [], children := [] }
    calls := [] }

/-- The platform tree under a handle, written out in document order: tag or
text, attributes, then the children between brackets. The first argument bounds
the depth. -/
def Platform.outline (p : Platform) : Nat → Handle → List String
  | 0, _ => ["..."]
  | n + 1, h =>
    (if (p.nodes h).tag = "" then "#text " ++ (p.nodes h).text else "<" ++ (p.nodes h).tag ++ ">")
      :: (p.nodes h).attrs.map (fun kv => "@" ++ kv.1 ++ "=" ++ kv.2)
      ++ "[" :: (p.nodes h).children.foldr (fun c acc => Platform.outline p n c ++ acc) ["]"]

/-! ## The renderer (`renderer.cpp`) -/

/-- Class `Renderer`: the two caches and the platform. An entry of
`elementToNode_` holds a `shared_ptr<VNode>`, which may be null. -/
structure Renderer where
  /-- Member `nodeToElement_`, keyed by node address. -/
  nodeToElement : Nat → Option Handle
  /-- Member `elementToNode_`; `some none` is an entry holding a null pointer. -/
  elementToNode : Handle → Option (Option VNode)
  platform : Platform

/-- A renderer with empty caches on the given platform. -/
def Renderer.init (p : Platform) : Renderer :=
  { nodeToElement := fun _ => none, elementToNode := fun _ => none, platform := p }

/-- Source `Renderer::isSameVNode`: `n1->tag == n2->tag && n1->key == n2->key`. -/
def Renderer.isSameVNode (n1 n2 : VNode) : Bool :=
  n1.tag == n2.tag && n1.key == n2.key

/-- Lookup `props.find(name)` in an `unordered_map` of attributes. -/
def findProp (name : String) (props : List (String × String)) : Option String :=
  (props.find? (fun kv => kv.1 == name)).map (fun kv => kv.2)

mutual
/-- Source `Renderer::createDOMElement`: a text node when the tag is empty;
otherwise the element, its attributes, then each child built and appended. -/
def Renderer.createDOMElement : VNode → Platform → Handle × Platform
  | .mk _ tag _ props children textContent, p =>
    if tag = "" then
      Platform.createTextNode textContent p
    else
      let created := Platform.createElement tag p
      let p1 := props.foldl (fun acc kv => Platform.setAttribute created.1 kv.1 kv.2 acc) created.2
      (created.1, Renderer.createChildren created.1 children p1)
/-- The loop `for (child : vnode->children)` of `createDOMElement`. -/
def Renderer.createChildren (element : Handle) : List VNode → Platform → Platform
  | [], p => p
  | child :: rest, p =>
    let built := Renderer.createDOMElement child p
    Renderer.createChildren element rest (Platform.appendChild element built.1 built.2)
end

/-- Source `Renderer::updateDOMElement`: remove the old attributes that are gone,
then set the new attributes that are new or changed. -/
def Renderer.updateDOMElement (element : Handle) (oldProps newProps : List (String × String))
    (p : Platform) : Platform :=
  let p1 := oldProps.foldl
    (fun acc kv =>
      if findProp kv.1 newProps = none then Platform.removeAttribute element kv.1 acc else acc) p
  newProps.foldl
    (fun acc kv =>
      match findProp kv.1 oldProps with
      | none => Platform.setAttribute element kv.1 kv.2 acc
      | some oldValue =>
        if oldValue ≠ kv.2 then Platform.setAttribute element kv.1 kv.2 acc else acc) p1

/-- Expression `nodeToElement_[node]`: `operator[]` inserts a null handle when
the node has no entry. -/
def Renderer.elementOf (node : VNode) (r : Renderer) : Handle × Renderer :=
  match r.nodeToElement node.addr with
  | some h => (h, r)
  | none => (0, { r with nodeToElement := Function.update r.nodeToElement node.addr (some 0) })

/-- How a call of the renderer ends: it returns, the model's iteration budget
ran out (`timeout`), or a child vector was indexed out of range. -/
inductive PatchOutcome where
  | ok (r : Renderer)
  | timeout (r : Renderer)
  | outOfRange (r : Renderer)

def PatchOutcome.renderer : PatchOutcome → Renderer
  | .ok r => r
  | .timeout r => r
  | .outOfRange r => r

def PatchOutcome.isOk : PatchOutcome → Bool
  | .ok _ => true
  | _ => false

def PatchOutcome.isTimeout : PatchOutcome → Bool
  | .timeout _ => true
  | _ => false

/-- The four cursors of `patchChildren`; they are `int`s, and an end cursor
starts at `size() - 1`, which is `-1` for an empty vector. -/
structure Cursors where
  oldStartIdx : Int
  oldEndIdx : Int
  newStartIdx : Int
  newEndIdx : Int
  deriving DecidableEq, Repr

/-- Expression `children[idx]`; `none` when the index is out of range. -/
def childAt (children : List VNode) (idx : Int) : Option VNode :=
  if 0 ≤ idx then children.get? idx.toNat else none

/-- How the main loop of `patchChildren` ends. -/
inductive LoopOutcome where
  | ok (c : Cursors) (r : Renderer)
  | timeout (c : Cursors) (r : Renderer)
  | outOfRange (r : Renderer)

/-- The main `while` loop of `Renderer::patchChildren`, with `patch` given as
`patchRec`. The first `Nat` bounds the number of iterations. In the third
branch (the `TODO` of the source) nothing changes, the cursors included. -/
def Renderer.patchChildrenLoop (patchRec : VNode → VNode → Handle → Renderer → PatchOutcome)
    (oldChildren newChildren : List VNode) (container : Handle) :
    Nat → Cursors → Renderer → LoopOutcome
  | 0, c, r =>
    if c.oldStartIdx ≤ c.oldEndIdx ∧ c.newStartIdx ≤ c.newEndIdx then .timeout c r else .ok c r
  | n + 1, c, r =>
    if c.oldStartIdx ≤ c.oldEndIdx ∧ c.newStartIdx ≤ c.newEndIdx then
      match childAt oldChildren c.oldStartIdx, childAt oldChildren c.oldEndIdx,
        childAt newChildren c.newStartIdx, childAt newChildren c.newEndIdx with
      | some oldStartChild, some oldEndChild, some newStartChild, some newEndChild =>
        if Renderer.isSameVNode oldStartChild newStartChild then
          match patchRec oldStartChild newStartChild container r with
          | .ok r1 =>
            Renderer.patchChildrenLoop patchRec oldChildren newChildren container n
              { c with oldStartIdx := c.oldStartIdx + 1, newStartIdx := c.newStartIdx + 1 } r1
          | .timeout r1 => .timeout c r1
          | .outOfRange r1 => .outOfRange r1
        else if Renderer.isSameVNode oldEndChild newEndChild then
          match patchRec oldEndChild newEndChild container r with
          | .ok r1 =>
            Renderer.patchChildrenLoop patchRec oldChildren newChildren container n
              { c with oldEndIdx := c.oldEndIdx - 1, newEndIdx := c.newEndIdx - 1 } r1
          | .timeout r1 => .timeout c r1
          | .outOfRange r1 => .outOfRange r1
        else
          Renderer.patchChildrenLoop patchRec oldChildren newChildren container n c r
      | _, _, _, _ => .outOfRange r
    else .ok c r

/-- The second loop of `patchChildren`, `while (newStartIdx <= newEndIdx)`: build
the child, append it to the container, advance. The first argument is the
number of iterations left, `newEndIdx - newStartIdx + 1`. -/
def Renderer.appendRemaining (newChildren : List VNode) (container : Handle) :
    Nat → Int → Renderer → PatchOutcome
  | 0, _, r => .ok r
  | n + 1, newStartIdx, r =>
    match childAt newChildren newStartIdx with
    | some newChild =>
      let built := Renderer.createDOMElement newChild r.platform
      Renderer.appendRemaining newChildren container n (newStartIdx + 1)
        { r with platform := Platform.appendChild container built.1 built.2 }
    | none => .outOfRange r

/-- The third loop of `patchChildren`, `while (oldStartIdx <= oldEndIdx)`: look
the child up in `nodeToElement_`, remove that handle from the container,
advance. The first argument is the number of iterations left. -/
def Renderer.removeRemaining (oldChildren : List VNode) (container : Handle) :
    Nat → Int → Renderer → PatchOutcome
  | 0, _, r => .ok r
  | n + 1, oldStartIdx, r =>
    match childAt oldChildren oldStartIdx with
    | some oldChild =>
      let found := Renderer.elementOf oldChild r
      Renderer.removeRemaining oldChildren container n (oldStartIdx + 1)
        { found.2 with platform := Platform.removeChild container found.1 found.2.platform }
    | none => .outOfRange r

/-- Source `Renderer::patchChildren`, with `patch` given as `patchRec`. -/
def Renderer.patchChildren (patchRec : VNode → VNode → Handle → Renderer → PatchOutcome)
    (fuel : Nat) (oldNode newNode : VNode) (container : Handle) (r : Renderer) : PatchOutcome :=
  let oldChildren := oldNode.children
  let newChildren := newNode.children
  let start : Cursors :=
    { oldStartIdx := 0, oldEndIdx := (oldChildren.length : Int) - 1,
      newStartIdx := 0, newEndIdx := (newChildren.length : Int) - 1 }
  match Renderer.patchChildrenLoop patchRec oldChildren newChildren container fuel start r with
  | .ok c r1 =>
    match Renderer.appendRemaining newChildren container
        (c.newEndIdx - c.newStartIdx + 1).toNat c.newStartIdx r1 with
    | .ok r2 =>
      Renderer.removeRemaining oldChildren container
        (c.oldEndIdx - c.oldStartIdx + 1).toNat c.oldStartIdx r2
    | o => o
  | .timeout _ r1 => .timeout r1
  | .outOfRange r1 => .outOfRange r1

/-- Source `Renderer::patch`. The first argument bounds the nesting depth and the
iterations of each `patchChildren` loop. -/
def Renderer.patch : Nat → VNode → VNode → Handle → Renderer → PatchOutcome
  | 0, _, _, _, r => .timeout r
  | n + 1, oldNode, newNode, container, r =>
    if Renderer.isSameVNode oldNode newNode = false then
      let found := Renderer.elementOf oldNode r
      let oldElement := found.1
      let built := Renderer.createDOMElement newNode found.2.platform
      let newElement := built.1
      let p1 := Platform.insertBefore container newElement oldElement built.2
      let p2 := Platform.removeChild container oldElement p1
      let n2e := Function.update found.2.nodeToElement oldNode.addr none
      let e2n := Function.update found.2.elementToNode oldElement none
      .ok { nodeToElement := Function.update n2e newNode.addr (some newElement)
            elementToNode := Function.update e2n newElement (some (some newNode))
            platform := p2 }
    else
      let found := Renderer.elementOf oldNode r
      let element := found.1
      let r1 := { found.2 with
        platform := Renderer.updateDOMElement element oldNode.props newNode.props
          found.2.platform }
      match Renderer.patchChildren (Renderer.patch n) n oldNode newNode element r1 with
      | .ok r2 =>
        .ok { r2 with
          nodeToElement := Function.update r2.nodeToElement newNode.addr (some element)
          elementToNode := Function.update r2.elementToNode element (some (some newNode)) }
      | o => o

/-- Source `Renderer::mount`, the part between the two hooks once `render` has
returned `vnode`: build the element, append it to the container, fill both caches. -/
def Renderer.mountNode (vnode : VNode) (container : Handle) (r : Renderer) : Renderer :=
  let built := Renderer.createDOMElement vnode r.platform
  let element := built.1
  { nodeToElement := Function.update r.nodeToElement vnode.addr (some element)
    elementToNode := Function.update r.elementToNode element (some (some vnode))
    platform := Platform.appendChild container element built.2 }

/-- Node construction `VNode::create(tag, props, children, text)` at address
`addr`, with the key given as well. -/
def vnode (addr : Nat) (tag : String) (key : Option Nat) (props : List (String × String))
    (children : List VNode) (text : String) : VNode :=
  VNode.mk addr tag key props children text

/-- The renderer on a platform whose only element is the container, handle `1`. -/
def freshRenderer : Renderer :=
  Renderer.init (Platform.init 1)

/-- Tree `<div><span id="a"/></div>`, nodes at addresses `1` and `2`. -/
def spanA : VNode :=
  vnode 1 "div" none [] [vnode 2 "span" none [("id", "a")] [] ""] ""

/-- Tree `<div><span id="b"/></div>`, nodes at addresses `3` and `4`. -/
def spanB : VNode :=
  vnode 3 "div" none [] [vnode 4 "span" none [("id", "b")] [] ""] ""

/-- Tree `<p x="y">hello</p>`, nodes at addresses `9` and `10`. -/
def paragraph : VNode :=
  vnode 9 "p" (some 1) [("x", "y")] [vnode 10 "" none [] [] "hello"] ""

/-- Tree `<ul>` with the children `A(key=1)`, `B(key=2)`, `C(key=3)`. -/
def rotationOld : VNode :=
  vnode 1 "ul" none []
    [vnode 2 "li" (some 1) [] [] "", vnode 3 "li" (some 2) [] [] "",
      vnode 4 "li" (some 3) [] [] ""] ""

/-- Tree `<ul>` with the children `C(key=3)`, `A(key=1)`, `B(key=2)`. -/
def rotationNew : VNode :=
  vnode 5 "ul" none []
    [vnode 6 "li" (some 3) [] [] "", vnode 7 "li" (some 1) [] [] "",
      vnode 8 "li" (some 2) [] [] ""] ""

/-- Tree `<div><span/></div>`. -/
def divSpan : VNode :=
  vnode 1 "div" none [] [vnode 2 "span" none [] [] ""] ""

/-- Tree `<div><p/></div>`. -/
def divP : VNode :=
  vnode 3 "div" none [] [vnode 4 "p" none [] [] ""] ""

mutual
/-- Number of nodes of a tree. -/
def VNode.size : VNode → Nat
  | .mk _ _ _ _ children _ => 1 + VNode.sizeList children
/-- Number of nodes of a list of trees. -/
def VNode.sizeList : List VNode → Nat
  | [] => 0
  | c :: cs => VNode.size c + VNode.sizeList cs
end

mutual
/-- The content of a tree without the addresses of its nodes: two trees are
structurally equal when their shapes are equal. -/
def VNode.shape : VNode → VNode
  | .mk _ tag key props children text => .mk 0 tag key props (VNode.shapeList children) text
/-- The shapes of a list of trees. -/
def VNode.shapeList : List VNode → List VNode
  | [] => []
  | c :: cs => VNode.shape c :: VNode.shapeList cs
end

mutual
/-- Every attribute map of the tree has each name once, as an `unordered_map` has. -/
def VNode.uniqueProps : VNode → Prop
  | .mk _ _ _ props children _ =>
    (props.map (fun kv => kv.1)).Nodup ∧ VNode.uniquePropsList children
/-- Every tree of the list has unique attribute names. -/
def VNode.uniquePropsList : List VNode → Prop
  | [] => True
  | c :: cs => VNode.uniqueProps c ∧ VNode.uniquePropsList cs
end

/-! ## Components and the renderer's entry points -/

/-- Class `Component`, as the renderer and the reactive engine see it. -/
structure Component where
  /-- The reactive containers `render()` dereferences, in order. -/
  renderReads : List DepId
  /-- The tree `render()` returns, from the values read and the address at which
  the next node is allocated. -/
  view : List Int → Nat → VNode
  /-- The callbacks registered in `lifecycle_`, per hook, in registration order. -/
  hooks : LifecycleHook → List Cmd
  /-- Member `effects_`: the effects created by `watchEffect` and `watch`. -/
  effects : List EffId

/-- The whole program state: the reactive graph, the renderer and the address
of the next `VNode` allocation. -/
structure World where
  graph : Graph
  renderer : Renderer
  nextAddr : Nat

/-- How an entry point of the renderer ends. -/
inductive WorldOutcome where
  | ok (w : World)
  | raised (err : Nat) (w : World)
  | timeout (w : World)
  /-- Undefined behaviour: a null `shared_ptr<VNode>` was dereferenced or a child
  vector was indexed out of range. -/
  | undefined (w : World)

def WorldOutcome.world : WorldOutcome → World
  | .ok w => w
  | .raised _ w => w
  | .timeout w => w
  | .undefined w => w

def WorldOutcome.isOk : WorldOutcome → Bool
  | .ok _ => true
  | _ => false

/-- Source `createEffect`: make the effect around its function, run it once. -/
def createEffect (fns : EffId → Cmd) (fuel : Nat) (e : EffId) (g : Graph) : Outcome :=
  runEffect fns fuel e g

/-- Source `Component::watchEffect`: `effects_.push_back(createEffect(fn))`. -/
def Component.watchEffect (fns : EffId → Cmd) (fuel : Nat) (e : EffId) (comp : Component)
    (g : Graph) : Component × Outcome :=
  ({ comp with effects := comp.effects ++ [e] }, createEffect fns fuel e g)

/-- Modelled from the spec: `LifecycleManager::callHook` is declared in
`lifecycle.hpp` and defined nowhere in the source. It invokes every callback
registered for the hook, in registration order; a failing callback propagates
to the caller. -/
def LifecycleManager.callHook (fns : EffId → Cmd) (fuel : Nat) : List Cmd → Graph → Outcome
  | [], g => .ok g
  | callback :: rest, g =>
    match Cmd.exec (runEffect fns fuel) callback g with
    | .ok g1 => LifecycleManager.callHook fns fuel rest g1
    | o => o

/-- The renderer with one more entry in its log. -/
def Renderer.logged (c : Call) (r : Renderer) : Renderer :=
  { r with platform := { r.platform with calls := r.platform.calls ++ [c] } }

/-- A call `component->render()`: each read tracks, the tree is built at fresh
addresses from the values read. -/
def Component.render (comp : Component) (w : World) : VNode × World :=
  let tree := comp.view (comp.renderReads.map w.graph.value) w.nextAddr
  (tree,
    { graph := comp.renderReads.foldl (fun g r => DependencyTracker.track r g) w.graph
      renderer := Renderer.logged Call.render w.renderer
      nextAddr := w.nextAddr + tree.size })

/-- Source `Renderer::mount`: hook `BEFORE_MOUNT`, `render`, build, append to the
container, fill the caches, hook `MOUNTED`. -/
def Renderer.mount (fns : EffId → Cmd) (fuel : Nat) (comp : Component) (container : Handle)
    (w : World) : WorldOutcome :=
  let w0 := { w with renderer := Renderer.logged (Call.hook .beforeMount) w.renderer }
  match LifecycleManager.callHook fns fuel (comp.hooks .beforeMount) w0.graph with
  | .ok g1 =>
    let rendered := comp.render { w0 with graph := g1 }
    let w2 := rendered.2
    let r3 := Renderer.logged (Call.hook .mounted)
      (Renderer.mountNode rendered.1 container w2.renderer)
    match LifecycleManager.callHook fns fuel (comp.hooks .mounted) w2.graph with
    | .ok g4 => .ok { w2 with graph := g4, renderer := r3 }
    | .raised err g4 => .raised err { w2 with graph := g4, renderer := r3 }
    | .timeout g4 => .timeout { w2 with graph := g4, renderer := r3 }
  | .raised err g1 => .raised err { w0 with graph := g1 }
  | .timeout g1 => .timeout { w0 with graph := g1 }

/-- Source `Renderer::unmount`: hook `BEFORE_UNMOUNT`, `render`, look the element
up, remove it from its parent, erase both cache entries, hook `UNMOUNTED`.
Nothing here touches `effects_`. -/
def Renderer.unmount (fns : EffId → Cmd) (fuel : Nat) (comp : Component) (w : World) :
    WorldOutcome :=
  let w0 := { w with renderer := Renderer.logged (Call.hook .beforeUnmount) w.renderer }
  match LifecycleManager.callHook fns fuel (comp.hooks .beforeUnmount) w0.graph with
  | .ok g1 =>
    let rendered := comp.render { w0 with graph := g1 }
    let vnode := rendered.1
    let w2 := rendered.2
    let found := Renderer.elementOf vnode w2.renderer
    let element := found.1
    let parent := Platform.getParentNode element found.2.platform
    let p1 := Platform.removeChild parent.1 element parent.2
    let r3 : Renderer := Renderer.logged (Call.hook .unmounted)
      { nodeToElement := Function.update found.2.nodeToElement vnode.addr none
        elementToNode := Function.update found.2.elementToNode element none
        platform := p1 }
    match LifecycleManager.callHook fns fuel (comp.hooks .unmounted) w2.graph with
    | .ok g4 => .ok { w2 with graph := g4, renderer := r3 }
    | .raised err g4 => .raised err { w2 with graph := g4, renderer := r3 }
    | .timeout g4 => .timeout { w2 with graph := g4, renderer := r3 }
  | .raised err g1 => .raised err { w0 with graph := g1 }
  | .timeout g1 => .timeout { w0 with graph := g1 }

/-- A world with the empty graph (every container holding `0`), the fresh
renderer and nodes allocated from address `1`. -/
def World.init : World :=
  { graph := Graph.empty (fun _ => 0), renderer := freshRenderer, nextAddr := 1 }

/-- Wrapped function of a watcher: effect `0` reads the container `0`. -/
def watcherFns : EffId → Cmd
  | 0 => .eval (.deref 0)
  | _ => .skip

/-- A component whose `render` reads the container `0` and shows in a `<p>`
whether it holds zero; it has no lifecycle callback and owns the watcher, effect `0`. -/
def counterComponent : Component :=
  { renderReads := [0]
    view := fun values addr =>
      vnode addr "p" none []
        [vnode (addr + 1) "" none [] [] (if values.headD 0 = 0 then "zero" else "other")] ""
    hooks := fun _ => []
    effects := [0] }

/-- The world after `watchEffect` created the watcher of `counterComponent`. -/
def watchedWorld : World :=
  { World.init with graph := (createEffect watcherFns 1 0 World.init.graph).graph }

/-- Relation of a graph to a later one: no subscriber was removed. -/
def Grows (g g1 : Graph) : Prop :=
  ∀ d e, e ∈ g.subscribers d → e ∈ g1.subscribers d

/-! ## Computed values (`composable.hpp`) -/

/-- The value of an expression under given container values. -/
def Expr.value : Expr → (DepId → Int) → Int
  | .lit v, _ => v
  | .deref r, values => values r
  | .binop f a b, values => f (Expr.value a values) (Expr.value b values)
  | .bind r k, values => Expr.value (k (values r)) values

/-- The containers an expression dereferences when it is evaluated under given
container values: after a `bind`, what is read next depends on the value read. -/
def Expr.reads : Expr → (DepId → Int) → List DepId
  | .lit _, _ => []
  | .deref r, _ => [r]
  | .binop _ a b, values => Expr.reads a values ++ Expr.reads b values
  | .bind r k, values => r :: Expr.reads (k (values r)) values

/-- Modelled from the spec: `Reactive::set`, which `Computed` calls and
`reactive.hpp` does not define, taken to be the write of the container,
`operator=` (store, and notify when the value changed). With it, this is the
function wrapped by the effect of a `Computed` whose container is `c` and whose
getter is `getter`: `this->set(this->getter_())`. The getter, a
`std::function<T()>`, is an expression: with `Expr.bind` it may choose what it
reads, and what it returns, from the values it has read so far. -/
def Computed.body (c : DepId) (getter : Expr) : Cmd :=
  Cmd.assign c getter

/-- Commands that leave a computed value alone: they do not assign to its
container `c`, do not call `cleanup` on its effect `ec`, and catch no exception. -/
def Cmd.leavesAlone (c : DepId) (ec : EffId) : Cmd → Bool
  | .assign r _ => r != c
  | .cleanup e => e != ec
  | .tryCatch _ _ => false
  | .seq a b => Cmd.leavesAlone c ec a && Cmd.leavesAlone c ec b
  | .ite _ t f => Cmd.leavesAlone c ec t && Cmd.leavesAlone c ec f
  | _ => true

/-- The effect `ec` is a subscriber of every container the getter reads when it
is evaluated on the current state. -/
def ComputedSubscribed (ec : EffId) (getter : Expr) (g : Graph) : Prop :=
  ∀ r, r ∈ getter.reads g.value → ec ∈ g.subscribers r

/-- The computed value is up to date: its effect is subscribed to what the
getter reads and its container holds the getter's value on the current state. -/
def ComputedFresh (c : DepId) (ec : EffId) (getter : Expr) (g : Graph) : Prop :=
  ComputedSubscribed ec getter g ∧ g.value c = getter.value g.value

/-- A way of running effects that keeps a computed value up to date, and leaves
it up to date whenever it runs the computed's own effect. -/
def KeepsComputed (c : DepId) (ec : EffId) (getter : Expr)
    (runE : EffId → Graph → Outcome) : Prop :=
  ∀ e g g1, runE e g = Outcome.ok g1 →
    (e = ec → ComputedFresh c ec getter g1) ∧
    (ComputedFresh c ec getter g → ComputedFresh c ec getter g1)

/-- Two computed values over the container `0`: effect `0` is `c1 = *r`
(container `1`), effect `1` is `c2 = *r` (container `2`); effects `2` and `3` are
watchers of `c1` and `c2` that throw `7` when the value they read is not zero. -/
def computedFns : EffId → Cmd
  | 0 => Computed.body 1 (.deref 0)
  | 1 => Computed.body 2 (.deref 0)
  | 2 => .ite (.deref 1) (.raise 7) .skip
  | 3 => .ite (.deref 2) (.raise 7) .skip
  | _ => .skip

/-- The two computed values were constructed in the order `first`, `second`, then
the two watchers were created, every container holding `0`. -/
def computedStart (first second : EffId) : Graph :=
  (Cmd.exec (runEffect computedFns 2)
    (.seq (.run first) (.seq (.run second) (.seq (.run 2) (.run 3))))
    (Graph.empty (fun _ => 0))).graph

/-- A getter whose reads depend on the state, `*flag != 0 ? *a : *b`, with the
containers `a = 0`, `b = 1`, `flag = 2`: it reads `flag`, and then `a` or `b`. -/
def switchGetter : Expr :=
  .bind 2 (fun flag => if flag = 0 then .deref 1 else .deref 0)

/-- Wrapped functions with one computed value: effect `0` belongs to the
computed value with container `3` and getter `switchGetter`; effect `1` reads
the computed value. -/
def switchFns : EffId → Cmd
  | 0 => Computed.body 3 switchGetter
  | 1 => .eval (.deref 3)
  | _ => .skip

/-- Before the computed value is constructed: `a = 10`, `b = 20`, `flag = 1`. -/
def switchStart : Graph :=
  Graph.empty (fun r => if r = 0 then 10 else if r = 1 then 20 else if r = 2 then 1 else 0)

/-- Effect `1` was created, then the computed value was constructed: the getter
read `flag` and `a`. -/
def switchBuilt : Graph :=
  (createEffect switchFns 3 0 (createEffect switchFns 3 1 switchStart).graph).graph

/-- Then `flag = 0` was assigned: the getter ran again and read `flag` and `b`. -/
def switchFlipped : Graph :=
  (Reactive.assign (runEffect switchFns 3) 2 0 switchBuilt).graph

/-! ## `Renderer::update`, and measures of a tree -/

def WorldOutcome.isUndefined : WorldOutcome → Bool
  | .undefined _ => true
  | _ => false

/-- Expression `elementToNode_[element]`: `operator[]` inserts a null pointer when
the handle has no entry. -/
def Renderer.nodeOf (element : Handle) (r : Renderer) : Option VNode × Renderer :=
  match r.elementToNode element with
  | some node => (node, r)
  | none => (none, { r with elementToNode := Function.update r.elementToNode element (some none) })

/-- Source `Renderer::update`: hook `BEFORE_UPDATE`; the old node is
`elementToNode_[nodeToElement_[component->render()]]`; the new node is a second
`component->render()`; `patch(oldVNode, newVNode, nullptr)`; hook `UPDATED`.
When the old node is null, `patch` dereferences it in `isSameVNode`. -/
def Renderer.update (fns : EffId → Cmd) (fuel : Nat) (comp : Component) (w : World) :
    WorldOutcome :=
  let w0 := { w with renderer := Renderer.logged (Call.hook .beforeUpdate) w.renderer }
  match LifecycleManager.callHook fns fuel (comp.hooks .beforeUpdate) w0.graph with
  | .ok g1 =>
    let first := comp.render { w0 with graph := g1 }
    let found := Renderer.elementOf first.1 first.2.renderer
    let old := Renderer.nodeOf found.1 found.2
    let second := comp.render { first.2 with renderer := old.2 }
    let w2 := second.2
    match old.1 with
    | none => .undefined w2
    | some oldVNode =>
      match Renderer.patch fuel oldVNode second.1 0 w2.renderer with
      | .ok r3 =>
        let r4 := Renderer.logged (Call.hook .updated) r3
        match LifecycleManager.callHook fns fuel (comp.hooks .updated) w2.graph with
        | .ok g4 => .ok { w2 with graph := g4, renderer := r4 }
        | .raised err g4 => .raised err { w2 with graph := g4, renderer := r4 }
        | .timeout g4 => .timeout { w2 with graph := g4, renderer := r4 }
      | .timeout r3 => .timeout { w2 with renderer := r3 }
      | .outOfRange r3 => .undefined { w2 with renderer := r3 }
  | .raised err g1 => .raised err { w0 with graph := g1 }
  | .timeout g1 => .timeout { w0 with graph := g1 }

mutual
/-- Number of platform nodes `createDOMElement` creates for a tree: one for a
node with an empty tag, one plus those of the children otherwise. -/
def VNode.builtCount : VNode → Nat
  | .mk _ tag _ _ children _ => if tag = "" then 1 else 1 + VNode.builtCountList children
/-- Number of platform nodes created for a list of trees. -/
def VNode.builtCountList : List VNode → Nat
  | [] => 0
  | c :: cs => VNode.builtCount c + VNode.builtCountList cs
end

mutual
/-- The depth-first construction the spec describes, as a list of platform calls
for a tree whose root gets the handle `h` and whose other nodes get the
following handles in creation order: a text node is one `createTextNode`; an
element node is `createElement`, one `setAttribute` per attribute on `h`, then
for each child in order its own construction followed by `appendChild(h, child)`. -/
def VNode.depthFirstCalls : VNode → Handle → List Call
  | .mk _ tag _ props children text, h =>
    if tag = "" then [Call.createTextNode text h]
    else
      Call.createElement tag h ::
        (props.map (fun kv => Call.setAttribute h kv.1 kv.2) ++
          VNode.depthFirstChildren h children (h + 1))
/-- The construction of the children of the node with handle `parent`, the first
child getting the handle `next`. -/
def VNode.depthFirstChildren (parent : Handle) : List VNode → Handle → List Call
  | [], _ => []
  | c :: cs, next =>
    VNode.depthFirstCalls c next ++
      Call.appendChild parent next ::
        VNode.depthFirstChildren parent cs (next + VNode.builtCount c)
end

mutual
/-- The nodes with an empty tag (the text nodes) have no children. -/
def VNode.textLeaves : VNode → Prop
  | .mk _ tag _ _ children _ => (tag = "" → children = []) ∧ VNode.textLeavesList children
/-- Every tree of the list has childless text nodes. -/
def VNode.textLeavesList : List VNode → Prop
  | [] => True
  | c :: cs => VNode.textLeaves c ∧ VNode.textLeavesList cs
end

mutual
/-- Number of element nodes (non-empty tag) of a tree. -/
def VNode.elementCount : VNode → Nat
  | .mk _ tag _ _ children _ =>
    (if tag = "" then 0 else 1) + VNode.elementCountList children
/-- Number of element nodes of a list of trees. -/
def VNode.elementCountList : List VNode → Nat
  | [] => 0
  | c :: cs => VNode.elementCount c + VNode.elementCountList cs
end

mutual
/-- Number of text nodes (empty tag) of a tree. -/
def VNode.textCount : VNode → Nat
  | .mk _ tag _ _ children _ =>
    (if tag = "" then 1 else 0) + VNode.textCountList children
/-- Number of text nodes of a list of trees. -/
def VNode.textCountList : List VNode → Nat
  | [] => 0
  | c :: cs => VNode.textCount c + VNode.textCountList cs
end

mutual
/-- Number of attribute entries of the element nodes of a tree. -/
def VNode.attributeCount : VNode → Nat
  | .mk _ tag _ props children _ =>
    (if tag = "" then 0 else props.length) + VNode.attributeCountList children
/-- Number of attribute entries of the element nodes of a list of trees. -/
def VNode.attributeCountList : List VNode → Nat
  | [] => 0
  | c :: cs => VNode.attributeCount c + VNode.attributeCountList cs
end

def Call.isCreateElement : Call → Bool
  | .createElement _ _ => true
  | _ => false

def Call.isCreateTextNode : Call → Bool
  | .createTextNode _ _ => true
  | _ => false

def Call.isSetAttribute : Call → Bool
  | .setAttribute _ _ _ => true
  | _ => false

def Call.isAppendChild : Call → Bool
  | .appendChild _ _ => true
  | _ => false

def Call.isHook : Call → Bool
  | .hook _ => true
  | _ => false

/-- The calls on the `PlatformRenderer` interface that `createDOMElement`,
`updateDOMElement`, `patch` and `patchChildren` make. -/
def Call.isPlatformOp : Call → Bool
  | .createElement _ _ => true
  | .createTextNode _ _ => true
  | .setAttribute _ _ _ => true
  | .removeAttribute _ _ => true
  | .insertBefore _ _ _ => true
  | .removeChild _ _ => true
  | .appendChild _ _ => true
  | _ => false

/-- The handles a call mentions. -/
def Call.handles : Call → List Handle
  | .createElement _ h => [h]
  | .createTextNode _ h => [h]
  | .setAttribute h _ _ => [h]
  | .removeAttribute h _ => [h]
  | .insertBefore p n r => [p, n, r]
  | .removeChild p c => [p, c]
  | .appendChild p c => [p, c]
  | .getParentNode e r => [e, r]
  | .hook _ => []
  | .render => []

/-- Tree `<ul>` with the children `li(key=1)`, `li(key=2)`, at addresses `1..3`. -/
def listTwo : VNode :=
  vnode 1 "ul" none [] [vnode 2 "li" (some 1) [] [] "", vnode 3 "li" (some 2) [] [] ""] ""

/-- Tree `<ul>` with the only child `li(key=1)`, at addresses `4` and `5`. -/
def listOne : VNode :=
  vnode 4 "ul" none [] [vnode 5 "li" (some 1) [] [] ""] ""

/-- Tree `<ul>` with the children `li(key=1)`, `li(key=2)`, `li(key=3)`, at
addresses `6..9`. -/
def listThree : VNode :=
  vnode 6 "ul" none []
    [vnode 7 "li" (some 1) [] [] "", vnode 8 "li" (some 2) [] [] "",
      vnode 9 "li" (some 3) [] [] ""] ""

/-- The renderer after `listTwo` was mounted into the container `1`: the `<ul>`
has the handle `2`, its items the handles `3` and `4`. -/
def listTwoMounted : Renderer :=
  Renderer.mountNode listTwo 1 freshRenderer

/-- Tree `<div><ul>..</ul></div>` whose `<ul>` has the children `li(key=1)`,
`li(key=2)`, at addresses `1..4`. -/
def nestedTwo : VNode :=
  vnode 1 "div" none []
    [vnode 2 "ul" none [] [vnode 3 "li" (some 1) [] [] "", vnode 4 "li" (some 2) [] [] ""] ""] ""

/-- Tree `<div><ul>..</ul></div>` whose `<ul>` has the children `li(key=1)`,
`li(key=2)`, `li(key=3)`, at addresses `5..9`. -/
def nestedThree : VNode :=
  vnode 5 "div" none []
    [vnode 6 "ul" none []
      [vnode 7 "li" (some 1) [] [] "", vnode 8 "li" (some 2) [] [] "",
        vnode 9 "li" (some 3) [] [] ""] ""] ""

/-- The renderer after `nestedTwo` was mounted into the container `1`: the
`<div>` has the handle `2`, the `<ul>` the handle `3`, its items the handles
`4` and `5`. -/
def nestedTwoMounted : Renderer :=
  Renderer.mountNode nestedTwo 1 freshRenderer

mutual
/-- The addresses of the nodes of a tree. -/
def VNode.addrs : VNode → List Nat
  | .mk addr _ _ _ children _ => addr :: VNode.addrsList children
/-- The addresses of the nodes of a list of trees. -/
def VNode.addrsList : List VNode → List Nat
  | [] => []
  | c :: cs => VNode.addrs c ++ VNode.addrsList cs
end

def LoopOutcome.renderer : LoopOutcome → Renderer
  | .ok _ r => r
  | .timeout _ r => r
  | .outOfRange r => r

/-- A set `Q` of calls that holds every call the reconciliation can make when
the handles it finds in the cache are in `K` and the handles it creates are at
least `N`: `K` holds the null handle (what `operator[]` yields for a missing
entry) and the handles from `N` on. -/
structure CallRules (Q : Call → Prop) (K : Handle → Prop) (N : Nat) : Prop where
  null : K 0
  fresh : ∀ x, N ≤ x → K x
  createElement : ∀ tag x, N ≤ x → Q (Call.createElement tag x)
  createTextNode : ∀ text x, N ≤ x → Q (Call.createTextNode text x)
  setAttribute : ∀ x k v, Q (Call.setAttribute x k v)
  removeAttribute : ∀ x k, Q (Call.removeAttribute x k)
  appendChild : ∀ p c, N ≤ c → Q (Call.appendChild p c)
  insertBefore : ∀ p n ref, N ≤ n → K ref → Q (Call.insertBefore p n ref)
  removeChild : ∀ p c, K c → Q (Call.removeChild p c)

/-- The handles the cache holds for the addresses in `A` are in `K`, and the
next fresh handle is at least `N`. -/
def Renderer.Keeps (A : Nat → Prop) (K : Handle → Prop) (N : Nat) (r : Renderer) : Prop :=
  N ≤ r.platform.next ∧ ∀ a x, A a → r.nodeToElement a = some x → K x

/-- The log of `p1` is the log of `p` followed by calls that are all in `Q`. -/
def Platform.Adds (Q : Call → Prop) (p p1 : Platform) : Prop :=
  ∃ added, p1.calls = p.calls ++ added ∧ ∀ c, c ∈ added → Q c

/-- The call creates the handle `h`, inserts it or inserts before it, or removes
it from its parent. -/
def Call.replaces (h : Handle) : Call → Bool
  | .createElement _ x => x == h
  | .createTextNode _ x => x == h
  | .insertBefore _ n ref => n == h || ref == h
  | .removeChild _ c => c == h
  | _ => false

/-- Source `Renderer::unmount`, the part between the two hooks once `render` has
returned `vnode`: look the element up, remove it from its parent, erase both
cache entries. -/
def Renderer.unmountNode (vnode : VNode) (r : Renderer) : Renderer :=
  let found := Renderer.elementOf vnode r
  let element := found.1
  let parent := Platform.getParentNode element found.2.platform
  { nodeToElement := Function.update found.2.nodeToElement vnode.addr none
    elementToNode := Function.update found.2.elementToNode element none
    platform := Platform.removeChild parent.1 element parent.2 }

/-- A component whose `render` returns the same node on every call: the tree
`<div><span id="a"/></div>` at the addresses `1` and `2`. -/
def staticComponent : Component :=
  { renderReads := []
    view := fun _ _ => spanA
    hooks := fun _ => []
    effects := [] }

/-- The renderer `r1` comes from `r` by an operation bracketed by the hooks
`before` and `after`: the log of `r1` is the log of `r`, the hook `before`,
calls `mid` none of which is a hook, then the hook `after`; the caches of `r1`
are those the renderer had when the hook `after` was called. -/
def Bracketed (before after : LifecycleHook) (r r1 : Renderer) : Prop :=
  ∃ mid rmid, r1 = Renderer.logged (Call.hook after) rmid ∧
    rmid.platform.calls = r.platform.calls ++ Call.hook before :: mid ∧
    ∀ c, c ∈ mid → c.isHook = false

/-- The world after `counterComponent` was mounted into the container `1` from
the initial world: the root node, at address `1`, has the handle `2`; the next
node will be allocated at address `3`. -/
def counterMounted : World :=
  (Renderer.mount watcherFns 1 counterComponent 1 World.init).world

/-- The world after `staticComponent` was mounted into the container `1` from
the initial world: the root node, at address `1`, has the handle `2`. -/
def staticMounted : World :=
  (Renderer.mount watcherFns 1 staticComponent 1 World.init).world

/-- Wrapped function `r = *r + 1` of effect `0`, with `r` the container `0`:
it reads `r` and writes to it a value different from the one read. -/
def selfTriggerFns : EffId → Cmd
  | 0 => .assign 0 (.binop (fun x y => x + y) (.deref 0) (.lit 1))
  | _ => .skip

/-- Whether a call of the renderer ended by indexing a child vector out of range. -/
def PatchOutcome.isOutOfRange : PatchOutcome → Bool
  | .outOfRange _ => true
  | _ => false

/-- The cursors of `patchChildren` stay inside the two child vectors: the start
cursors are not negative and the end cursors are below the sizes. -/
def Cursors.InRange (oldChildren newChildren : List VNode) (c : Cursors) : Prop :=
  0 ≤ c.oldStartIdx ∧ c.oldEndIdx < oldChildren.length ∧
    0 ≤ c.newStartIdx ∧ c.newEndIdx < newChildren.length

/-- The main loop of `patchChildren` did not index out of range, and when it
ended its cursors were inside the two child vectors. -/
def LoopOutcome.InRange (oldChildren newChildren : List VNode) : LoopOutcome → Prop
  | .ok c _ => Cursors.InRange oldChildren newChildren c
  | .timeout _ _ => True
  | .outOfRange _ => False

/-- Source `Component::h(tag, text)`, the overload with a text:
`VNode::create(tag, {}, {}, text)`, the node being allocated at `addr`. -/
def Component.h (addr : Nat) (tag text : String) : VNode :=
  vnode addr tag none [] [] text

/-! ## The expression tokenizer (`expression.cpp`)

Characters are classified as `<cctype>` does in the "C" locale. -/

/-- Enumeration `ExpressionParser::Token::Type`. -/
inductive TokenType where
  | identifier
  | number
  | string
  | operator
  | punctuation
  deriving DecidableEq, Repr

/-- Structure `ExpressionParser::Token`. -/
structure Token where
  type : TokenType
  value : String
  deriving DecidableEq, Repr

/-- Function `std::isspace`: space, `\t`, `\n`, `\v`, `\f`, `\r`. -/
def isspace (c : Char) : Bool :=
  c.toNat == 32 || (9 ≤ c.toNat && c.toNat ≤ 13)

/-- Function `std::isdigit`. -/
def isdigit (c : Char) : Bool :=
  48 ≤ c.toNat && c.toNat ≤ 57

/-- Function `std::isalpha`. -/
def isalpha (c : Char) : Bool :=
  (65 ≤ c.toNat && c.toNat ≤ 90) || (97 ≤ c.toNat && c.toNat ≤ 122)

/-- Source `ExpressionParser::isOperator`. -/
def ExpressionParser.isOperator (c : Char) : Bool :=
  c == '+' || c == '-' || c == '*' || c == '/' || c == '=' || c == '!' || c == '<' ||
    c == '>' || c == '&' || c == '|' || c == '^'

/-- Source `ExpressionParser::isPunctuation`: one of `( ) [ ] { } . , ;`. -/
def ExpressionParser.isPunctuation (c : Char) : Bool :=
  c == '(' || c == ')' || c == '[' || c == ']' || c.toNat == 123 || c.toNat == 125 ||
    c == '.' || c == ',' || c == ';'

/-- Source `ExpressionParser::isIdentifierStart`. -/
def ExpressionParser.isIdentifierStart (c : Char) : Bool :=
  isalpha c || c == '_' || c == '$'

/-- Source `ExpressionParser::isIdentifierPart`. -/
def ExpressionParser.isIdentifierPart (c : Char) : Bool :=
  ExpressionParser.isIdentifierStart c || isdigit c

/-- The test `*it == '"' || *it == '\''` of `tokenize`. -/
def ExpressionParser.isQuote (c : Char) : Bool :=
  c.toNat == 34 || c.toNat == 39

/-- The number loop of `tokenize`: digits, and one `.` as long as none was
seen. Yields the text read and the input left. -/
def ExpressionParser.scanNumber : Bool → List Char → List Char × List Char
  | _, [] => ([], [])
  | hasDecimal, c :: cs =>
    if isdigit c || (!hasDecimal && c == '.') then
      let r := ExpressionParser.scanNumber (hasDecimal || c == '.') cs
      (c :: r.1, r.2)
    else ([], c :: cs)

/-- The identifier loop and the operator loop of `tokenize`: the characters are
read as long as they pass the test `p`. -/
def ExpressionParser.scanWhile (p : Char → Bool) : List Char → List Char × List Char
  | [] => ([], [])
  | c :: cs =>
    if p c then
      let r := ExpressionParser.scanWhile p cs
      (c :: r.1, r.2)
    else ([], c :: cs)

/-- The `switch` of the string loop on the character after a backslash. -/
def ExpressionParser.unescape (c : Char) : Char :=
  if c == 'n' then Char.ofNat 10
  else if c == 't' then Char.ofNat 9
  else if c == 'r' then Char.ofNat 13
  else c

/-- The string loop of `tokenize`, entered after the opening quote: it stops at
the closing quote or at the end of the input; a backslash that is not the last
character takes the next character with it. -/
def ExpressionParser.scanString (quote : Char) : List Char → List Char × List Char
  | [] => ([], [])
  | [c] => if c == quote then ([], [c]) else ([c], [])
  | c :: d :: ds =>
    if c == quote then ([], c :: d :: ds)
    else if c.toNat == 92 then
      let r := ExpressionParser.scanString quote ds
      (ExpressionParser.unescape d :: r.1, r.2)
    else
      let r := ExpressionParser.scanString quote (d :: ds)
      (c :: r.1, r.2)

/-- How one iteration of the outer loop of `tokenize` ends: with the input left
and the token pushed, if any, or with the `std::runtime_error` for an invalid
character. -/
inductive StepOutcome where
  | next (rest : List Char) (token : Option Token)
  | invalid (c : Char)

/-- One iteration of the outer `while` loop of `tokenize`, with `*it = c` and
`cs` the input after it. -/
def ExpressionParser.tokenizeStep (c : Char) (cs : List Char) : StepOutcome :=
  if isspace c then .next cs none
  else if isdigit c then
    let r := ExpressionParser.scanNumber false (c :: cs)
    .next r.2 (some { type := .number, value := String.mk r.1 })
  else if ExpressionParser.isIdentifierStart c then
    let r := ExpressionParser.scanWhile ExpressionParser.isIdentifierPart (c :: cs)
    .next r.2 (some { type := .identifier, value := String.mk r.1 })
  else if ExpressionParser.isQuote c then
    let r := ExpressionParser.scanString c cs
    .next (r.2.drop 1) (some { type := .string, value := String.mk r.1 })
  else if ExpressionParser.isOperator c then
    let r := ExpressionParser.scanWhile ExpressionParser.isOperator (c :: cs)
    .next r.2 (some { type := .operator, value := String.mk r.1 })
  else if ExpressionParser.isPunctuation c then
    .next cs (some { type := .punctuation, value := String.mk [c] })
  else .invalid c

/-- How `tokenize` ends: it returns the tokens, throws for an invalid
character, or the iteration budget of the model ran out. -/
inductive TokenizeOutcome where
  | ok (tokens : List Token)
  | invalid (c : Char)
  | timeout
  deriving DecidableEq, Repr

def TokenizeOutcome.isOk : TokenizeOutcome → Bool
  | .ok _ => true
  | _ => false

def TokenizeOutcome.isTimeout : TokenizeOutcome → Bool
  | .timeout => true
  | _ => false

/-- The outer loop of `tokenize`; the first argument bounds the number of
iterations. -/
def ExpressionParser.tokenizeLoop : Nat → List Char → List Token → TokenizeOutcome
  | _, [], tokens => .ok tokens
  | 0, _ :: _, _ => .timeout
  | n + 1, c :: cs, tokens =>
    match ExpressionParser.tokenizeStep c cs with
    | .next rest token => ExpressionParser.tokenizeLoop n rest (tokens ++ token.toList)
    | .invalid bad => .invalid bad

/-- Source `ExpressionParser::tokenize`, with one iteration allowed per
character of the input. -/
def ExpressionParser.tokenize (input : String) : TokenizeOutcome :=
  ExpressionParser.tokenizeLoop input.length input.toList []

/-- The characters of the claim: whitespace, digits, letters, `_`, `$`, quote
characters, operator characters and punctuation characters. -/
def ExpressionParser.isTokenChar (c : Char) : Bool :=
  isspace c || isdigit c || ExpressionParser.isIdentifierStart c || ExpressionParser.isQuote c ||
    ExpressionParser.isOperator c || ExpressionParser.isPunctuation c

/-! ## The router (`router.hpp`, `router.cpp`) -/

/-- Structure `PathSegment` of `router.cpp`. -/
structure PathSegment where
  value : String
  isDynamic : Bool
  isOptional : Bool
  isCatchAll : Bool
  deriving DecidableEq, Repr

/-- The loop `while (std::getline(stream, segment, '/'))` of `parsePattern` with
its `if (segment.empty()) continue;`: the non-empty pieces between slashes, in
order. The first argument is the piece being read. -/
def Router.splitSegments : List Char → List Char → List String
  | cur, [] => if cur = [] then [] else [String.mk cur]
  | cur, c :: cs =>
    if c = '/' then
      if cur = [] then Router.splitSegments [] cs
      else String.mk cur :: Router.splitSegments [] cs
    else Router.splitSegments (cur ++ [c]) cs

/-- The non-empty segments of a pattern or of a path. -/
def Router.segments (s : String) : List String :=
  Router.splitSegments [] s.toList

/-- The body of the loop of `parsePattern` for one non-empty segment: `:name`
is a dynamic parameter, `*name` a catch-all, `name?` an optional parameter,
anything else a static segment. -/
def Router.parseSegment (segment : String) : PathSegment :=
  if segment.data.head? = some ':' then
    { value := String.mk (segment.data.drop 1), isDynamic := true, isOptional := false,
      isCatchAll := false }
  else if segment.data.head? = some '*' then
    { value := String.mk (segment.data.drop 1), isDynamic := true, isOptional := false,
      isCatchAll := true }
  else if segment.data.getLast? = some '?' then
    { value := String.mk segment.data.dropLast, isDynamic := true, isOptional := true,
      isCatchAll := false }
  else
    { value := segment, isDynamic := false, isOptional := false, isCatchAll := false }

/-- Source `parsePattern`. -/
def Router.parsePattern (pattern : String) : List PathSegment :=
  (Router.segments pattern).map Router.parseSegment

/-- The two loops and the final test of `Router::matchRoute`, on the pattern
segments from `patternIndex` on and the path segments from `pathIndex` on. The
map `params` is written and never read, and is left out. -/
def Router.matchSegments : List PathSegment → List PathSegment → Bool
  | [], pathSegments => pathSegments.isEmpty
  | patternSegment :: patternRest, [] =>
    (patternSegment :: patternRest).all (fun s => s.isOptional)
  | patternSegment :: patternRest, pathSegment :: pathRest =>
    if patternSegment.isCatchAll then true
    else if patternSegment.isDynamic then Router.matchSegments patternRest pathRest
    else if patternSegment.value ≠ pathSegment.value then
      if patternSegment.isOptional then
        Router.matchSegments patternRest (pathSegment :: pathRest)
      else false
    else Router.matchSegments patternRest pathRest

/-- Source `Router::matchRoute`: both the pattern and the path go through
`parsePattern`. -/
def Router.matchRoute (pattern path : String) : Bool :=
  Router.matchSegments (Router.parsePattern pattern) (Router.parsePattern path)

/-- A static segment in the words of the claim: it does not start with `:` or
`*` and does not end with `?`. -/
def Router.isStaticSegment (segment : String) : Bool :=
  segment.data.head? != some ':' && segment.data.head? != some '*' &&
    segment.data.getLast? != some '?'

/-- A `:name` segment. -/
def Router.isParamSegment (segment : String) : Bool :=
  segment.data.head? == some ':'

/-- Structure `Route`: its path pattern and name. The component factory and the
`meta` map play no part in navigation and are left out. -/
structure Route where
  path : String
  name : String
  deriving DecidableEq, Repr

/-- A default-constructed `Route`, as in `Route newRoute;`. -/
def Route.default : Route :=
  { path := "", name := "" }

/-- Class `Router`: the registered routes, the values held by the reactive
members `currentPath_` and `currentRoute_`, and the navigation guards in
registration order. A guard is a function of the old and the new route. The
ghost field `guardCalls` logs the positions of the guards invoked, oldest
first. -/
structure Router where
  routes : List Route
  currentPath : String
  currentRoute : Route
  navigationGuards : List (Route → Route → Bool)
  guardCalls : List Nat

/-- The loop `for (route : routes_) if (matchRoute(route.path, path)) { ...;
break; }` of `push` and of `updateCurrentRoute`: the first route, in
registration order, whose pattern matches. -/
def Router.findRoute (routes : List Route) (path : String) : Option Route :=
  routes.find? (fun route => Router.matchRoute route.path path)

/-- The loop over `navigationGuards_` of `push`, from the guard at position
`index` on: each guard is invoked in turn until one returns `false`. Yields
whether all returned `true`, and the positions invoked. -/
def Router.runGuards (oldRoute newRoute : Route) :
    List (Route → Route → Bool) → Nat → Bool × List Nat
  | [], _ => (true, [])
  | guard :: rest, index =>
    if guard oldRoute newRoute then
      let r := Router.runGuards oldRoute newRoute rest (index + 1)
      (r.1, index :: r.2)
    else (false, [index])

/-- Call `shared_from_this()` of `std::enable_shared_from_this`: it yields the
owning pointer when a `shared_ptr` owns the object, and throws
`std::bad_weak_ptr` when none does (C++17 and later; `build_tool.cpp` sets
`CMAKE_CXX_STANDARD 20`). -/
def sharedFromThis (owned : Bool) : Except String Unit :=
  if owned then .ok () else .error "std::bad_weak_ptr"

/-- Source `Reactive<T>::operator*` applied to one of the members
`currentPath_`, `currentRoute_` of `Router`: it evaluates
`this->shared_from_this()` for `track`, then yields the value. The two members
are declared by value (`Reactive<std::string> currentPath_;`,
`Reactive<Route> currentRoute_;`) inside the function-local `static Router`,
so no `shared_ptr` owns them. -/
def Router.derefMember {α : Type} (value : α) : Except String α :=
  match sharedFromThis false with
  | .ok _ => .ok value
  | .error e => .error e

/-- How a call of a `Router` member function ended: it returned, or an
exception left it; with the router as it is then. -/
inductive RouterOutcome where
  | ok (router : Router)
  | raised (error : String) (router : Router)

def RouterOutcome.router : RouterOutcome → Router
  | .ok router => router
  | .raised _ router => router

def RouterOutcome.isOk : RouterOutcome → Bool
  | .ok _ => true
  | .raised _ _ => false

/-- The exception that left the call, if one did. -/
def RouterOutcome.error : RouterOutcome → Option String
  | .ok _ => none
  | .raised error _ => some error

/-- The loop of `Router::updateCurrentRoute` over the routes still to visit:
each iteration evaluates `*currentPath_` for the call of `matchRoute`; the
first route that matches is stored in `currentRoute_` and the loop is left. -/
def Router.updateCurrentRouteLoop : List Route → Router → RouterOutcome
  | [], router => .ok router
  | route :: rest, router =>
    match Router.derefMember router.currentPath with
    | .error e => .raised e router
    | .ok path =>
      if Router.matchRoute route.path path then .ok { router with currentRoute := route }
      else Router.updateCurrentRouteLoop rest router

/-- Source `Router::updateCurrentRoute`: `currentRoute_` becomes the first route
matching `*currentPath_`; it is left alone when no route matches. -/
def Router.updateCurrentRoute (router : Router) : RouterOutcome :=
  Router.updateCurrentRouteLoop router.routes router

/-- Source `Router::push` of `router.cpp`: read `*currentRoute_`, find the new
route (a default `Route` when none matches), run the guards, return at the
first veto; else store the path and update the current route.
`updateBrowserHistory` is an empty `TODO`. -/
def Router.push (path : String) (router : Router) : RouterOutcome :=
  match Router.derefMember router.currentRoute with
  | .error e => .raised e router
  | .ok oldRoute =>
    let newRoute := (Router.findRoute router.routes path).getD Route.default
    let guards := Router.runGuards oldRoute newRoute router.navigationGuards 0
    let router1 := { router with guardCalls := router.guardCalls ++ guards.2 }
    if guards.1 then Router.updateCurrentRoute { router1 with currentPath := path }
    else .ok router1

/-- A router with the routes `/` (home) and `/users/:id` (user), on the home
route, with three guards: the first allows everything, the second vetoes the
navigation to the route named `user`, the third allows everything. -/
def guardedRouter : Router :=
  { routes := [{ path := "/", name := "home" }, { path := "/users/:id", name := "user" }]
    currentPath := "/"
    currentRoute := { path := "/", name := "home" }
    navigationGuards :=
      [fun _ _ => true, fun _ newRoute => newRoute.name != "user", fun _ _ => true]
    guardCalls := [] }

/-- A router with the same two routes, on the home route, with two guards that
allow every navigation. -/
def openRouter : Router :=
  { routes := [{ path := "/", name := "home" }, { path := "/users/:id", name := "user" }]
    currentPath := "/"
    currentRoute := { path := "/", name := "home" }
    navigationGuards := [fun _ _ => true, fun _ _ => true]
    guardCalls := [] }

/-! ## Directives (`directives.hpp`, `directives.cpp`) -/

/-- Enumeration `DirectiveType`. -/
inductive DirectiveType where
  | IF
  | ELSE
  | ELSE_IF
  | FOR
  | MODEL
  | ON
  | BIND
  | SHOW
  | TEXT
  | HTML
  | SLOT
  | REF
  | TRANSITION
  deriving DecidableEq, Repr

/-- Structure `Modifiers`; every flag starts `false`. -/
structure Modifiers where
  stop : Bool := false
  prevent : Bool := false
  capture : Bool := false
  once : Bool := false
  self : Bool := false
  deriving DecidableEq, Repr

/-- Class `Directive`. The member `type` has no initialiser: `none` stands for
the indeterminate value it has until `parse` assigns it. -/
structure Directive where
  type : Option DirectiveType := none
  value : String := ""
  arg : String := ""
  modifiers : Modifiers := {}
  deriving DecidableEq, Repr

/-- The regex class `\w`: a letter, a digit or `_`. -/
def isWordChar (c : Char) : Bool :=
  isalpha c || isdigit c || c == '_'

/-- The pieces of a text between the characters `sep`, as the loop
`while (std::getline(stream, piece, sep))` yields them: a separator at the very
end does not start another piece. The first argument is the piece being read. -/
def getlinePieces (sep : Char) : List Char → List Char → List String
  | cur, [] => if cur = [] then [] else [String.mk cur]
  | cur, c :: cs =>
    if c = sep then String.mk cur :: getlinePieces sep [] cs
    else getlinePieces sep (cur ++ [c]) cs

/-- Source `Modifiers::parse`: each piece between dots that is the name of a
flag sets it. -/
def Modifiers.parse (modifiersStr : String) : Modifiers :=
  (getlinePieces '.' [] modifiersStr.toList).foldl
    (fun mods modifier =>
      if modifier = "stop" then { mods with stop := true }
      else if modifier = "prevent" then { mods with prevent := true }
      else if modifier = "capture" then { mods with capture := true }
      else if modifier = "once" then { mods with once := true }
      else if modifier = "self" then { mods with self := true }
      else mods)
    {}

/-- The tail `\w+(?:\.\w+)*` of the directive regex, up to the end of the text:
word characters, with single dots between non-empty runs of them. The flag says
whether the run being read is still empty. -/
def matchModifierList : Bool → List Char → Bool
  | isEmpty, [] => !isEmpty
  | isEmpty, c :: cs =>
    if isWordChar c then matchModifierList false cs
    else if c = '.' then !isEmpty && matchModifierList true cs
    else false

/-- The groups of a match of the directive regex: the name, the argument (empty
when the group did not take part) and the modifier text, if that group matched. -/
structure DirectiveMatch where
  name : String
  arg : String
  modifiers : Option String
  deriving DecidableEq, Repr

/-- The part `(?:\.(\w+(?:\.\w+)*))?` of the directive regex followed by the end
of the text, given the name and the argument matched before it. -/
def matchDirectiveTail (name arg : String) : List Char → Option DirectiveMatch
  | [] => some { name := name, arg := arg, modifiers := none }
  | c :: cs =>
    if c = '.' && matchModifierList true cs then
      some { name := name, arg := arg, modifiers := some (String.mk cs) }
    else none

/-- `std::regex_match` of a whole text against the directive regex
`c-(\w+)(?::(\w+))?(?:\.(\w+(?:\.\w+)*))?`. A run of word characters is always
taken whole, since what may follow it (`:`, `.` or the end) is no word
character. -/
def matchDirectiveRegex (text : List Char) : Option DirectiveMatch :=
  match text with
  | 'c' :: '-' :: rest =>
    let name := rest.takeWhile isWordChar
    let afterName := rest.dropWhile isWordChar
    if name = [] then none
    else
      match afterName with
      | ':' :: afterColon =>
        let arg := afterColon.takeWhile isWordChar
        if arg = [] then none
        else
          matchDirectiveTail (String.mk name) (String.mk arg) (afterColon.dropWhile isWordChar)
      | _ => matchDirectiveTail (String.mk name) "" afterName
  | _ => none

/-- The chain `if (name == "if") ... else if (name == "show") ...` of
`Directive::parse`; no branch assigns the type for any other name. -/
def Directive.typeOfName (name : String) : Option DirectiveType :=
  if name = "if" then some .IF
  else if name = "else" then some .ELSE
  else if name = "else-if" then some .ELSE_IF
  else if name = "for" then some .FOR
  else if name = "model" then some .MODEL
  else if name = "on" then some .ON
  else if name = "bind" then some .BIND
  else if name = "show" then some .SHOW
  else none

/-- Source `Directive::parse`: when the whole text matches the regex, the type
comes from the name, the argument from the second group, the modifiers from the
third group if it matched; otherwise the directive is returned as constructed. -/
def Directive.parse (directiveStr : String) : Directive :=
  match matchDirectiveRegex directiveStr.toList with
  | some m =>
    { type := Directive.typeOfName m.name
      arg := m.arg
      modifiers :=
        match m.modifiers with
        | some text => Modifiers.parse text
        | none => {} }
  | none => {}

/-! ## The template parser (`template_parser.cpp`)

Only what decides the shape of the tree and the use of the node stack is
modelled. The attributes of a tag are matched and kept as text, not split into
attribute and directive maps; the text before a tag is kept as one text child,
where the source splits it further at `{{ }}` interpolations, pushing one or
more children onto the same top node. -/

/-- Structure `TemplateNode`: an element with its children, or a text. -/
inductive TemplateNode where
  | element (tag : String) (children : List TemplateNode)
  | text (content : String)

/-- A match of `TAG_REGEX`, `<([/]?)([^>\s]+)\s*([^>]*)>`, found by
`std::regex_search`: the text before it (`prefix`), whether the first group is
`/`, the second and third group, and the text after it (`suffix`). -/
structure TagMatch where
  before : List Char
  isClosing : Bool
  tagName : String
  attrs : String
  after : List Char

/-- The class `[^>\s]` of the tag name. -/
def isTagNameChar (c : Char) : Bool :=
  c != '>' && !isspace c

/-- The part `([^>\s]+)\s*([^>]*)>` of `TAG_REGEX`, at the start of `l`: the
longest run of name characters, which must not be empty, the whitespace after
it, then everything up to the first `>`, which must exist. -/
def matchTagNamed (before : List Char) (isClosing : Bool) (l : List Char) : Option TagMatch :=
  let name := l.takeWhile isTagNameChar
  let afterSpace := (l.dropWhile isTagNameChar).dropWhile isspace
  if name = [] then none
  else
    match afterSpace.dropWhile (fun c => c != '>') with
    | [] => none
    | _ :: after =>
      some
        { before := before, isClosing := isClosing, tagName := String.mk name,
          attrs := String.mk (afterSpace.takeWhile (fun c => c != '>')), after := after }

/-- A match of `TAG_REGEX` starting at a `<`, given what follows the `<`: the
group `[/]?` takes a `/` when the rest still matches, and is empty otherwise. -/
def matchTagAt (before : List Char) (rest : List Char) : Option TagMatch :=
  match rest with
  | '/' :: named =>
    match matchTagNamed before true named with
    | some m => some m
    | none => matchTagNamed before false rest
  | _ => matchTagNamed before false rest

/-- Function `std::regex_search` with `TAG_REGEX`: the leftmost match. The first
argument is the text already passed over. -/
def findTag : List Char → List Char → Option TagMatch
  | _, [] => none
  | before, c :: cs =>
    if c = '<' then
      match matchTagAt before cs with
      | some m => some m
      | none => findTag (before ++ [c]) cs
    else findTag (before ++ [c]) cs

/-- An entry of `nodeStack`: an element whose children are still being added. -/
structure Frame where
  tag : String
  children : List TemplateNode

/-- How `TemplateParser::parse` ends: it returns the root, throws
`TemplateParseError`, calls `top()` on the empty stack (undefined behaviour), or
the iteration budget of the model ran out. -/
inductive ParseOutcome where
  | returned (root : TemplateNode)
  | raised (message : String)
  | emptyTop
  | timeout

def ParseOutcome.isReturned : ParseOutcome → Bool
  | .returned _ => true
  | _ => false

def ParseOutcome.isRaised : ParseOutcome → Bool
  | .raised _ => true
  | _ => false

def ParseOutcome.isEmptyTop : ParseOutcome → Bool
  | .emptyTop => true
  | _ => false

/-- The message of the `TemplateParseError` thrown, if any. -/
def ParseOutcome.message : ParseOutcome → Option String
  | .raised message => some message
  | _ => none

/-- Statement `nodeStack.top()->children.push_back(node)`; `none` when the stack
is empty. -/
def pushChild (node : TemplateNode) : List Frame → Option (List Frame)
  | [] => none
  | top :: rest => some ({ top with children := top.children ++ [node] } :: rest)

/-- Statement `nodeStack.pop()` on a non-empty stack. The popped element was
added to the children of the entry below when it was opened; here it is added
when it is closed, which gives the same order of children. -/
def popFrame : List Frame → List Frame
  | [] => []
  | [_] => []
  | top :: parent :: rest =>
    { parent with children := parent.children ++ [TemplateNode.element top.tag top.children] } ::
      rest

/-- The tags that are not pushed on the stack. -/
def isSelfClosingTag (tagName : String) : Bool :=
  tagName = "img" || tagName = "input" || tagName = "br" || tagName = "hr" || tagName = "meta"

/-- The text handling before a tag and after the last tag: nothing for an empty
text, else at least one `nodeStack.top()->children.push_back`. -/
def pushText (text : List Char) (stack : List Frame) : Option (List Frame) :=
  if text = [] then some stack else pushChild (TemplateNode.text (String.mk text)) stack

/-- The `while (std::regex_search(...))` loop of `TemplateParser::parse` and what
follows it; the first argument bounds the number of iterations. -/
def TemplateParser.parseLoop : Nat → List Char → List Frame → ParseOutcome
  | 0, _, _ => .timeout
  | n + 1, input, stack =>
    match findTag [] input with
    | some m =>
      match pushText m.before stack with
      | none => .emptyTop
      | some stack1 =>
        if m.isClosing then
          match stack1 with
          | [] => .raised ("Mismatched closing tag: " ++ m.tagName)
          | top :: _ =>
            if top.tag ≠ m.tagName then .raised ("Mismatched closing tag: " ++ m.tagName)
            else TemplateParser.parseLoop n m.after (popFrame stack1)
        else if isSelfClosingTag m.tagName then
          match pushChild (TemplateNode.element m.tagName []) stack1 with
          | none => .emptyTop
          | some stack2 => TemplateParser.parseLoop n m.after stack2
        else
          match stack1 with
          | [] => .emptyTop
          | _ :: _ =>
            TemplateParser.parseLoop n m.after ({ tag := m.tagName, children := [] } :: stack1)
    | none =>
      match pushText input stack with
      | none => .emptyTop
      | some stack1 =>
        match stack1 with
        | [root] => .returned (TemplateNode.element root.tag root.children)
        | _ => .raised "Unclosed tags in template"

/-- Source `TemplateParser::parse`: the stack starts with the root element
`template`; one iteration is allowed per character of the input, and one more. -/
def TemplateParser.parse (template_content : String) : ParseOutcome :=
  TemplateParser.parseLoop (template_content.length + 1) template_content.toList
    [{ tag := "template", children := [] }]

/-! ## Sets as lists -/

theorem mem_setInsert (x y : Nat) (l : List Nat) : y ∈ setInsert x l ↔ y = x ∨ y ∈ l := by
  unfold setInsert
  split
  · constructor
    · intro h; exact Or.inr h
    · rintro (h | h)
      · subst h; assumption
      · exact h
  · simp [or_comm]

theorem mem_setErase (x y : Nat) (l : List Nat) : y ∈ setErase x l ↔ y ∈ l ∧ y ≠ x := by
  simp [setErase]

theorem nodup_setInsert (x : Nat) (l : List Nat) (h : l.Nodup) : (setInsert x l).Nodup := by
  unfold setInsert
  split
  · exact h
  · rename_i hx
    rw [List.nodup_append]
    refine ⟨h, List.nodup_singleton x, ?_⟩
    intro a ha hb
    simp at hb
    subst hb
    exact hx ha

theorem nodup_setErase (x : Nat) (l : List Nat) (h : l.Nodup) : (setErase x l).Nodup :=
  h.filter _

theorem setErase_idem (x : Nat) (l : List Nat) : setErase x (setErase x l) = setErase x l := by
  simp [setErase, List.filter_filter]

/-! ## The primitive operations, field by field -/

theorem removeLoop_fields (e : EffId) (l : List DepId) (g : Graph) :
    let g1 := l.foldl (fun acc d => Dependency.removeSubscriber d e acc) g
    g1.dependencies = g.dependencies ∧ g1.value = g.value ∧
      g1.activeEffect = g.activeEffect ∧ g1.trace = g.trace ∧
      ∀ d, g1.subscribers d = if d ∈ l then setErase e (g.subscribers d) else g.subscribers d := by
  induction l generalizing g with
  | nil => simp
  | cons a t ih =>
    have h := ih (Dependency.removeSubscriber a e g)
    simp only [List.foldl_cons] at h ⊢
    obtain ⟨h1, h2, h3, h4, h5⟩ := h
    refine ⟨h1, h2, h3, h4, ?_⟩
    intro d
    rw [h5 d]
    by_cases hda : d = a
    · subst hda
      simp [Dependency.removeSubscriber, setErase_idem]
    · simp [Dependency.removeSubscriber, hda]

theorem cleanup_subscribers (e : EffId) (g : Graph) (d : DepId) :
    (Effect.cleanup e g).subscribers d =
      if d ∈ g.dependencies e then setErase e (g.subscribers d) else g.subscribers d := by
  have h := removeLoop_fields e (g.dependencies e) g
  exact h.2.2.2.2 d

theorem cleanup_dependencies (e : EffId) (g : Graph) :
    (Effect.cleanup e g).dependencies = Function.update g.dependencies e [] := by
  have h := removeLoop_fields e (g.dependencies e) g
  simp only [Effect.cleanup]
  rw [h.1]

theorem cleanup_value (e : EffId) (g : Graph) : (Effect.cleanup e g).value = g.value :=
  (removeLoop_fields e (g.dependencies e) g).2.1

theorem cleanup_activeEffect (e : EffId) (g : Graph) :
    (Effect.cleanup e g).activeEffect = g.activeEffect :=
  (removeLoop_fields e (g.dependencies e) g).2.2.1

theorem cleanup_trace (e : EffId) (g : Graph) :
    (Effect.cleanup e g).trace = g.trace ++ [Event.cleanup e] := by
  have h := removeLoop_fields e (g.dependencies e) g
  simp only [Effect.cleanup]
  rw [h.2.2.2.1]

theorem track_of_none (d : DepId) (g : Graph) (h : g.activeEffect = none) :
    DependencyTracker.track d g = g := by
  simp [DependencyTracker.track, h]

theorem track_of_some (d : DepId) (e : EffId) (g : Graph) (h : g.activeEffect = some e) :
    DependencyTracker.track d g =
      { g with
        subscribers := Function.update g.subscribers d (setInsert e (g.subscribers d))
        dependencies := Function.update g.dependencies e (setInsert d (g.dependencies e))
        trace := g.trace ++ [Event.track e d] } := by
  simp [DependencyTracker.track, h, Dependency.addSubscriber]

/-! ## Relations closed under the primitive steps hold across every call -/

theorem eval_closed {R : Graph → Graph → Prop} (hR : StepClosed R) (x : Expr) (g : Graph) :
    R g (Expr.eval x g).2 := by
  induction x generalizing g with
  | lit v => exact hR.refl g
  | deref r => exact hR.track r g
  | binop f a b iha ihb =>
    exact hR.trans _ _ _ (iha g) (ihb (Expr.eval a g).2)
  | bind r k ih =>
    exact hR.trans _ _ _ (hR.track r g) (ih _ _)

theorem forEachRun_closed {R : Graph → Graph → Prop} (hR : StepClosed R)
    (runE : EffId → Graph → Outcome) (hrun : ∀ e g, R g (runE e g).graph)
    (es : List EffId) (g : Graph) : R g (forEachRun runE es g).graph := by
  induction es generalizing g with
  | nil => exact hR.refl g
  | cons e t ih =>
    have h := hrun e g
    simp only [forEachRun]
    cases hr : runE e g with
    | ok g1 =>
      rw [hr] at h
      exact hR.trans _ _ _ h (ih g1)
    | raised err g1 => rw [hr] at h; exact h
    | timeout g1 => rw [hr] at h; exact h

theorem notify_closed {R : Graph → Graph → Prop} (hR : StepClosed R)
    (runE : EffId → Graph → Outcome) (hrun : ∀ e g, R g (runE e g).graph)
    (d : DepId) (g : Graph) : R g (Dependency.notify runE d g).graph :=
  hR.trans _ _ _ (hR.logNotify d g) (forEachRun_closed hR runE hrun _ _)

theorem assign_closed {R : Graph → Graph → Prop} (hR : StepClosed R)
    (runE : EffId → Graph → Outcome) (hrun : ∀ e g, R g (runE e g).graph)
    (r : DepId) (v : Int) (g : Graph) : R g (Reactive.assign runE r v g).graph := by
  unfold Reactive.assign
  split
  · exact hR.trans _ _ _ (hR.store r v g) (notify_closed hR runE hrun r _)
  · exact hR.refl g

theorem exec_closed {R : Graph → Graph → Prop} (hR : StepClosed R)
    (runE : EffId → Graph → Outcome) (hrun : ∀ e g, R g (runE e g).graph)
    (c : Cmd) (g : Graph) : R g (Cmd.exec runE c g).graph := by
  induction c generalizing g with
  | skip => exact hR.refl g
  | eval x => exact eval_closed hR x g
  | assign r x =>
    exact hR.trans _ _ _ (eval_closed hR x g) (assign_closed hR runE hrun r _ _)
  | track d => exact hR.track d g
  | untrack => exact hR.setActive none g
  | notify d => exact notify_closed hR runE hrun d g
  | run e => exact hrun e g
  | cleanup e => exact hR.cleanup e g
  | raise err => exact hR.refl g
  | seq a b iha ihb =>
    have h := iha g
    simp only [Cmd.exec]
    cases hr : Cmd.exec runE a g with
    | ok g1 => rw [hr] at h; exact hR.trans _ _ _ h (ihb g1)
    | raised err g1 => rw [hr] at h; exact h
    | timeout g1 => rw [hr] at h; exact h
  | ite c t f iht ihf =>
    simp only [Cmd.exec]
    split
    · exact hR.trans _ _ _ (eval_closed hR c g) (iht _)
    · exact hR.trans _ _ _ (eval_closed hR c g) (ihf _)
  | tryCatch a b iha ihb =>
    have h := iha g
    simp only [Cmd.exec]
    cases hr : Cmd.exec runE a g with
    | ok g1 => rw [hr] at h; exact h
    | raised err g1 => rw [hr] at h; exact hR.trans _ _ _ h (ihb g1)
    | timeout g1 => rw [hr] at h; exact h

theorem run_closed {R : Graph → Graph → Prop} (hR : StepClosed R)
    (body : Graph → Outcome) (hbody : ∀ g, R g (body g).graph)
    (e : EffId) (g : Graph) : R g (Effect.run body e g).graph := by
  have h1 : R g (Effect.install e (Effect.cleanup e g)) :=
    hR.trans _ _ _ (hR.cleanup e g)
      (hR.trans _ _ _ (hR.setActive (some e) _) (hR.logEnter e _))
  have h2 := hbody (Effect.install e (Effect.cleanup e g))
  simp only [Effect.run]
  cases hr : body (Effect.install e (Effect.cleanup e g)) with
  | ok g3 =>
    rw [hr] at h2
    exact hR.trans _ _ _ h1 (hR.trans _ _ _ h2
      (hR.trans _ _ _ (hR.setActive (Effect.cleanup e g).activeEffect g3) (hR.logExit e _)))
  | raised err g3 =>
    rw [hr] at h2
    exact hR.trans _ _ _ h1 (hR.trans _ _ _ h2
      (hR.trans _ _ _ (hR.setActive (Effect.cleanup e g).activeEffect g3) (hR.logExit e _)))
  | timeout g3 =>
    rw [hr] at h2
    exact hR.trans _ _ _ h1 h2

theorem runEffect_closed {R : Graph → Graph → Prop} (hR : StepClosed R)
    (fns : EffId → Cmd) (fuel : Nat) (e : EffId) (g : Graph) :
    R g (runEffect fns fuel e g).graph := by
  induction fuel generalizing e g with
  | zero => exact hR.refl g
  | succ n ih =>
    exact run_closed hR _ (fun g1 => exec_closed hR _ ih (fns e) g1) e g

/-! ## Subscription symmetry and set semantics are invariants -/

theorem symmetric_track (d : DepId) (g : Graph) (h : Symmetric g) :
    Symmetric (DependencyTracker.track d g) := by
  cases ha : g.activeEffect with
  | none => rw [track_of_none d g ha]; exact h
  | some e =>
    rw [track_of_some d e g ha]
    intro d1 e1
    simp only [Function.update_apply]
    by_cases hd : d1 = d <;> by_cases he : e1 = e
    · subst hd; subst he; simp [mem_setInsert]
    · subst hd; simp [mem_setInsert, he, h d1 e1]
    · subst he; simp [mem_setInsert, hd, h d1 e1]
    · simp [hd, he, h d1 e1]

theorem symmetric_cleanup (e : EffId) (g : Graph) (h : Symmetric g) :
    Symmetric (Effect.cleanup e g) := by
  intro d1 e1
  rw [cleanup_subscribers, cleanup_dependencies]
  simp only [Function.update_apply]
  by_cases he : e1 = e
  · subst he
    by_cases hd : d1 ∈ g.dependencies e1
    · simp [hd, mem_setErase]
    · simp [hd, h d1 e1]
  · by_cases hd : d1 ∈ g.dependencies e
    · simp [hd, he, mem_setErase, h d1 e1]
    · simp [hd, he, h d1 e1]

theorem symmetric_stepClosed : StepClosed (fun g g1 => Symmetric g → Symmetric g1) where
  refl := fun _ h => h
  trans := fun _ _ _ h1 h2 h => h2 (h1 h)
  track := fun d g h => symmetric_track d g h
  cleanup := fun e g h => symmetric_cleanup e g h
  setActive := fun _ _ h => h
  store := fun _ _ _ h => h
  logNotify := fun _ _ h => h
  logEnter := fun _ _ h => h
  logExit := fun _ _ h => h

theorem nodup_track (d : DepId) (g : Graph) (h : SubscribersNodup g) :
    SubscribersNodup (DependencyTracker.track d g) := by
  cases ha : g.activeEffect with
  | none => rw [track_of_none d g ha]; exact h
  | some e =>
    rw [track_of_some d e g ha]
    intro d1
    simp only [Function.update_apply]
    split
    · exact nodup_setInsert _ _ (h d)
    · exact h d1

theorem nodup_cleanup (e : EffId) (g : Graph) (h : SubscribersNodup g) :
    SubscribersNodup (Effect.cleanup e g) := by
  intro d1
  rw [cleanup_subscribers]
  split
  · exact nodup_setErase _ _ (h d1)
  · exact h d1

theorem nodup_stepClosed : StepClosed (fun g g1 => SubscribersNodup g → SubscribersNodup g1) where
  refl := fun _ h => h
  trans := fun _ _ _ h1 h2 h => h2 (h1 h)
  track := fun d g h => nodup_track d g h
  cleanup := fun e g h => nodup_cleanup e g h
  setActive := fun _ _ h => h
  store := fun _ _ _ h => h
  logNotify := fun _ _ h => h
  logEnter := fun _ _ h => h
  logExit := fun _ _ h => h

theorem symmetric_empty (value : DepId → Int) : Symmetric (Graph.empty value) := by
  intro d e
  simp [Graph.empty]

theorem nodup_empty (value : DepId → Int) : SubscribersNodup (Graph.empty value) := by
  intro d
  simp [Graph.empty]

/-- Set semantics are kept: in every state reached from the empty graph, every
subscriber set is duplicate free. -/
theorem subscribers_nodup_reachable (fns : EffId → Cmd) (fuel : Nat) (prog : Cmd)
    (value : DepId → Int) :
    SubscribersNodup (Cmd.exec (runEffect fns fuel) prog (Graph.empty value)).graph :=
  exec_closed nodup_stepClosed _ (runEffect_closed nodup_stepClosed fns fuel) prog _
    (nodup_empty value)

/-- C1, subscription symmetry. Whatever client program `prog` is executed from
the empty reactive graph (any sequence of `track`, reads, `cleanup`, `run`,
`notify` and writes, with any wrapped functions `fns` and any nesting budget),
the graph it reaches, whether the program returned, raised or was cut off,
satisfies `e ∈ d.subscribers ↔ d ∈ e.dependencies` for every `d` and `e`. -/
theorem subscription_symmetry (fns : EffId → Cmd) (fuel : Nat) (prog : Cmd)
    (value : DepId → Int) (d : DepId) (e : EffId) :
    e ∈ (Cmd.exec (runEffect fns fuel) prog (Graph.empty value)).graph.subscribers d ↔
      d ∈ (Cmd.exec (runEffect fns fuel) prog (Graph.empty value)).graph.dependencies e :=
  exec_closed symmetric_stepClosed _ (runEffect_closed symmetric_stepClosed fns fuel) prog _
    (symmetric_empty value) d e

/-! ## Claims settled on the definitions alone -/

/-- C3, equality-gated write. Assigning to a reactive container the value it
already holds returns normally with the graph untouched: the stored value is
the same, and the log is the same, so `notify` was not entered and no wrapped
function was called. -/
theorem equality_gated_write (fns : EffId → Cmd) (fuel : Nat) (r : DepId) (g : Graph) :
    Reactive.assign (runEffect fns fuel) r (g.value r) g = Outcome.ok g := by
  simp [Reactive.assign]

/-- C6, track with an active effect. When `e` is the active effect, `track d`
makes `e` a subscriber of `d` and `d` a dependency of `e`, adds nothing else to
these two sets, and changes no other subscriber set, no other dependency set,
no value and not the active-effect slot. -/
theorem track_with_active_effect (d : DepId) (e : EffId) (g : Graph)
    (h : g.activeEffect = some e) :
    e ∈ (DependencyTracker.track d g).subscribers d ∧
    d ∈ (DependencyTracker.track d g).dependencies e ∧
    (∀ x, x ∈ (DependencyTracker.track d g).subscribers d ↔ x = e ∨ x ∈ g.subscribers d) ∧
    (∀ y, y ∈ (DependencyTracker.track d g).dependencies e ↔ y = d ∨ y ∈ g.dependencies e) ∧
    (∀ d1, d1 ≠ d → (DependencyTracker.track d g).subscribers d1 = g.subscribers d1) ∧
    (∀ e1, e1 ≠ e → (DependencyTracker.track d g).dependencies e1 = g.dependencies e1) ∧
    (DependencyTracker.track d g).value = g.value ∧
    (DependencyTracker.track d g).activeEffect = g.activeEffect := by
  rw [track_of_some d e g h]
  refine ⟨?_, ?_, ?_, ?_, ?_, ?_, rfl, rfl⟩
  · simp [mem_setInsert]
  · simp [mem_setInsert]
  · intro x; simp [mem_setInsert]
  · intro y; simp [mem_setInsert]
  · intro d1 hd; simp [hd]
  · intro e1 he; simp [he]

theorem track_with_active_effect_witness :
    activeFive.activeEffect = some 5 ∧
    5 ∈ (DependencyTracker.track 3 activeFive).subscribers 3 ∧
    3 ∈ (DependencyTracker.track 3 activeFive).dependencies 5 :=
  ⟨rfl, (track_with_active_effect 3 5 activeFive rfl).1,
    (track_with_active_effect 3 5 activeFive rfl).2.1⟩

/-- C7, track without an active effect. When no effect is active, `track d`
returns the graph unchanged (subscriber sets, dependency sets, values, slot and
log), and so does reading a reactive container, which yields the stored value. -/
theorem track_without_active_effect (d : DepId) (g : Graph) (h : g.activeEffect = none) :
    DependencyTracker.track d g = g ∧ Reactive.deref d g = (g.value d, g) := by
  simp [Reactive.deref, track_of_none d g h]

theorem track_without_active_effect_witness :
    (Graph.empty (fun _ => 7)).activeEffect = none ∧
    DependencyTracker.track 2 (Graph.empty (fun _ => 7)) = Graph.empty (fun _ => 7) ∧
    Reactive.deref 2 (Graph.empty (fun _ => 7)) = (7, Graph.empty (fun _ => 7)) :=
  ⟨rfl, track_without_active_effect 2 (Graph.empty (fun _ => 7)) rfl⟩

/-- C9, active-effect restoration on normal return. If `run` of `e` is called
while the slot holds any value (an effect or none) and the wrapped function of
`e` returns normally, whatever it did (nested runs, writes, `untrack`), then
`run` returns normally and the slot holds that value again. -/
theorem active_effect_restored_on_return (fns : EffId → Cmd) (fuel : Nat) (e : EffId)
    (g : Graph)
    (h : (Cmd.exec (runEffect fns fuel) (fns e)
      (Effect.install e (Effect.cleanup e g))).isOk = true) :
    (runEffect fns (fuel + 1) e g).isOk = true ∧
    (runEffect fns (fuel + 1) e g).graph.activeEffect = g.activeEffect := by
  simp only [runEffect, Effect.run]
  cases hr : Cmd.exec (runEffect fns fuel) (fns e) (Effect.install e (Effect.cleanup e g)) with
  | ok g3 => simp [Outcome.isOk, Outcome.graph, cleanup_activeEffect]
  | raised err g3 => rw [hr] at h; simp [Outcome.isOk] at h
  | timeout g3 => rw [hr] at h; simp [Outcome.isOk] at h

theorem active_effect_restored_on_return_witness :
    (Cmd.exec (runEffect nestedFns 1) (nestedFns 0)
      (Effect.install 0 (Effect.cleanup 0 activeFive))).isOk = true ∧
    (runEffect nestedFns 2 0 activeFive).isOk = true ∧
    (runEffect nestedFns 2 0 activeFive).graph.activeEffect = some 5 :=
  ⟨by decide, active_effect_restored_on_return nestedFns 1 0 activeFive (by decide)⟩

/-- C10, active-effect restoration on failure. If the wrapped function of `e`
raises `err` during `run`, then `run` raises the same `err` to its caller and
the slot holds the value it had when `run` was called. -/
theorem active_effect_restored_on_failure (fns : EffId → Cmd) (fuel : Nat) (e : EffId)
    (err : Nat) (g : Graph)
    (h : (Cmd.exec (runEffect fns fuel) (fns e)
      (Effect.install e (Effect.cleanup e g))).isRaised err = true) :
    (runEffect fns (fuel + 1) e g).isRaised err = true ∧
    (runEffect fns (fuel + 1) e g).graph.activeEffect = g.activeEffect := by
  simp only [runEffect, Effect.run]
  cases hr : Cmd.exec (runEffect fns fuel) (fns e) (Effect.install e (Effect.cleanup e g)) with
  | ok g3 => rw [hr] at h; simp [Outcome.isRaised] at h
  | raised err1 g3 =>
    rw [hr] at h
    simp only [Outcome.isRaised] at h
    simp [Outcome.isRaised, Outcome.graph, cleanup_activeEffect, h]
  | timeout g3 => rw [hr] at h; simp [Outcome.isRaised] at h

theorem active_effect_restored_on_failure_witness :
    (Cmd.exec (runEffect nestedFns 1) (nestedFns 2)
      (Effect.install 2 (Effect.cleanup 2 activeFive))).isRaised 42 = true ∧
    (runEffect nestedFns 2 2 activeFive).isRaised 42 = true ∧
    (runEffect nestedFns 2 2 activeFive).graph.activeEffect = some 5 :=
  ⟨by decide, active_effect_restored_on_failure nestedFns 1 2 42 activeFive (by decide)⟩

/-! ## The log determines the dependency sets -/

theorem replayDeps_append (e : EffId) (s t : List Event) (acc : List DepId) :
    replayDeps e (s ++ t) acc = replayDeps e t (replayDeps e s acc) := by
  induction s generalizing acc with
  | nil => rfl
  | cons ev s ih => cases ev <;> simp [replayDeps, ih]

theorem mem_replayDeps (e : EffId) (d : DepId) (seg : List Event) (acc : List DepId)
    (h : d ∈ replayDeps e seg acc) :
    Event.track e d ∈ seg ∨ (d ∈ acc ∧ Event.cleanup e ∉ seg) := by
  induction seg generalizing acc with
  | nil => exact Or.inr ⟨h, by simp⟩
  | cons ev t ih =>
    cases ev with
    | track e1 d1 =>
      simp only [replayDeps] at h
      rcases ih _ h with h1 | ⟨h1, h2⟩
      · exact Or.inl (List.mem_cons_of_mem _ h1)
      · by_cases he : e1 = e
        · rw [if_pos he, mem_setInsert] at h1
          rcases h1 with h1 | h1
          · subst he; subst h1; exact Or.inl (List.mem_cons_self _ _)
          · exact Or.inr ⟨h1, by simpa using h2⟩
        · rw [if_neg he] at h1
          exact Or.inr ⟨h1, by simpa using h2⟩
    | cleanup e1 =>
      simp only [replayDeps] at h
      rcases ih _ h with h1 | ⟨h1, h2⟩
      · exact Or.inl (List.mem_cons_of_mem _ h1)
      · by_cases he : e1 = e
        · rw [if_pos he] at h1; simp at h1
        · rw [if_neg he] at h1
          refine Or.inr ⟨h1, ?_⟩
          simp only [List.mem_cons, not_or]
          exact ⟨fun hc => he (Event.cleanup.inj hc).symm, h2⟩
    | notify d1 =>
      simp only [replayDeps] at h
      rcases ih _ h with h1 | ⟨h1, h2⟩
      · exact Or.inl (List.mem_cons_of_mem _ h1)
      · exact Or.inr ⟨h1, by simpa using h2⟩
    | enter e1 =>
      simp only [replayDeps] at h
      rcases ih _ h with h1 | ⟨h1, h2⟩
      · exact Or.inl (List.mem_cons_of_mem _ h1)
      · exact Or.inr ⟨h1, by simpa using h2⟩
    | exit e1 =>
      simp only [replayDeps] at h
      rcases ih _ h with h1 | ⟨h1, h2⟩
      · exact Or.inl (List.mem_cons_of_mem _ h1)
      · exact Or.inr ⟨h1, by simpa using h2⟩

theorem replayDeps_mem_of_no_cleanup (e : EffId) (d : DepId) (seg : List Event)
    (acc : List DepId) (hc : Event.cleanup e ∉ seg)
    (h : Event.track e d ∈ seg ∨ d ∈ acc) : d ∈ replayDeps e seg acc := by
  induction seg generalizing acc with
  | nil =>
    rcases h with h | h
    · simp at h
    · exact h
  | cons ev t ih =>
    have hc1 : Event.cleanup e ∉ t := fun hm => hc (List.mem_cons_of_mem _ hm)
    cases ev with
    | track e1 d1 =>
      simp only [replayDeps]
      apply ih _ hc1
      rcases h with h | h
      · rcases List.mem_cons.1 h with h | h
        · obtain ⟨h1, h2⟩ := Event.track.inj h
          subst h1; subst h2
          right; simp [mem_setInsert]
        · exact Or.inl h
      · right
        split
        · rw [mem_setInsert]; exact Or.inr h
        · exact h
    | cleanup e1 =>
      simp only [replayDeps]
      have he : e1 ≠ e := by
        intro he; subst he; exact hc (List.mem_cons_self _ _)
      rw [if_neg he]
      apply ih _ hc1
      rcases h with h | h
      · rcases List.mem_cons.1 h with h | h
        · cases h
        · exact Or.inl h
      · exact Or.inr h
    | notify d1 =>
      simp only [replayDeps]
      apply ih _ hc1
      rcases h with h | h
      · rcases List.mem_cons.1 h with h | h
        · cases h
        · exact Or.inl h
      · exact Or.inr h
    | enter e1 =>
      simp only [replayDeps]
      apply ih _ hc1
      rcases h with h | h
      · rcases List.mem_cons.1 h with h | h
        · cases h
        · exact Or.inl h
      · exact Or.inr h
    | exit e1 =>
      simp only [replayDeps]
      apply ih _ hc1
      rcases h with h | h
      · rcases List.mem_cons.1 h with h | h
        · cases h
        · exact Or.inl h
      · exact Or.inr h

theorem replays_log (ev : Event) (g g1 : Graph) (hd : g1.dependencies = g.dependencies)
    (ht : g1.trace = g.trace ++ [ev])
    (hev : ∀ e acc, replayDeps e [ev] acc = acc) : Replays g g1 :=
  ⟨[ev], ht, fun e => by rw [hd, hev]⟩

theorem replays_stepClosed : StepClosed Replays where
  refl := fun g => ⟨[], by simp, fun _ => rfl⟩
  trans := by
    rintro a b c ⟨s1, h1, h2⟩ ⟨s2, h3, h4⟩
    refine ⟨s1 ++ s2, by rw [h3, h1, List.append_assoc], ?_⟩
    intro e
    rw [h4, h2, replayDeps_append]
  track := by
    intro d g
    cases ha : g.activeEffect with
    | none => rw [track_of_none d g ha]; exact ⟨[], by simp, fun _ => rfl⟩
    | some e =>
      rw [track_of_some d e g ha]
      refine ⟨[Event.track e d], rfl, ?_⟩
      intro e1
      simp only [replayDeps, Function.update_apply]
      by_cases he : e1 = e
      · subst he; simp
      · have he1 : ¬ e = e1 := fun h => he h.symm
        simp [he, he1]
  cleanup := by
    intro e g
    refine ⟨[Event.cleanup e], cleanup_trace e g, ?_⟩
    intro e1
    rw [cleanup_dependencies]
    simp only [replayDeps, Function.update_apply]
    by_cases he : e1 = e
    · subst he; simp
    · have he1 : ¬ e = e1 := fun h => he h.symm
      simp [he, he1]
  setActive := fun _ _ => ⟨[], by simp, fun _ => rfl⟩
  store := fun _ _ _ => ⟨[], by simp, fun _ => rfl⟩
  logNotify := fun d g => replays_log (Event.notify d) g _ rfl rfl (fun _ _ => rfl)
  logEnter := fun e g => replays_log (Event.enter e) g _ rfl rfl (fun _ _ => rfl)
  logExit := fun e g => replays_log (Event.exit e) g _ rfl rfl (fun _ _ => rfl)

/-- The log of a finished `run` of `e`: `cleanup e`, `enter e`, what the wrapped
function logged, `exit e`; and each dependency set afterwards is the replay of
the wrapped function's stretch on the set left by the cleanup. -/
theorem runEffect_replay (fns : EffId → Cmd) (fuel : Nat) (e : EffId) (g : Graph)
    (h : (runEffect fns fuel e g).finished = true) :
    ∃ body, (runEffect fns fuel e g).graph.trace =
        g.trace ++ Event.cleanup e :: Event.enter e :: (body ++ [Event.exit e]) ∧
      ∀ e1, (runEffect fns fuel e g).graph.dependencies e1 =
        replayDeps e1 body ((Effect.cleanup e g).dependencies e1) := by
  cases fuel with
  | zero => simp [runEffect, Outcome.finished] at h
  | succ n =>
    have hb := exec_closed replays_stepClosed (runEffect fns n)
      (runEffect_closed replays_stepClosed fns n) (fns e)
      (Effect.install e (Effect.cleanup e g))
    obtain ⟨seg, hs1, hs2⟩ := hb
    simp only [runEffect, Effect.run] at h ⊢
    cases hr : Cmd.exec (runEffect fns n) (fns e) (Effect.install e (Effect.cleanup e g)) with
    | ok g3 =>
      rw [hr] at hs1 hs2
      simp only [Outcome.graph] at hs1 hs2 ⊢
      refine ⟨seg, ?_, hs2⟩
      rw [hs1]
      simp [Effect.install, cleanup_trace]
    | raised err g3 =>
      rw [hr] at hs1 hs2
      simp only [Outcome.graph] at hs1 hs2 ⊢
      refine ⟨seg, ?_, hs2⟩
      rw [hs1]
      simp [Effect.install, cleanup_trace]
    | timeout g3 =>
      rw [hr] at h
      simp [Outcome.finished] at h

/-- C5 as stated fails. Effect `0` wraps `if (*a == 0) { *b; a = 1; }`. Its run
from the empty graph returns normally; the wrapped function tracked `b`
(event `track 0 1`), then its own write to `a` re-ran the effect, whose cleanup
dropped `b`, so `b` is not in the dependency set when the outer run returns. -/
theorem dependency_set_rebuild_counterexample :
    (runEffect selfWriteFns 2 0 (Graph.empty (fun _ => 0))).isOk = true ∧
    (runEffect selfWriteFns 2 0 (Graph.empty (fun _ => 0))).graph.trace =
      [Event.cleanup 0, Event.enter 0, Event.track 0 0, Event.track 0 1, Event.notify 0,
        Event.cleanup 0, Event.enter 0, Event.track 0 0, Event.exit 0, Event.exit 0] ∧
    (runEffect selfWriteFns 2 0 (Graph.empty (fun _ => 0))).graph.dependencies 0 = [0] ∧
    1 ∉ (runEffect selfWriteFns 2 0 (Graph.empty (fun _ => 0))).graph.dependencies 0 := by
  decide

/-- C5, as it holds of the code. `Effect::run` starts with the cleanup, which removes the effect
from the subscriber set of every dependency in its dependency set and empties
that set. When `run` returns normally, its log is `cleanup e`, `enter e`, the
stretch `body` of the wrapped function, `exit e`; every member of the
dependency set was tracked in `body` (nothing is carried over from earlier
runs); and if `e` was not cleaned up again inside `body` (no re-entrant `run`
or `cleanup` of `e`), every dependency tracked in `body` is in the set. -/
theorem dependency_set_rebuild (fns : EffId → Cmd) (fuel : Nat) (e : EffId) (g : Graph)
    (h : (runEffect fns fuel e g).isOk = true) :
    (∀ d, d ∈ g.dependencies e → e ∉ (Effect.cleanup e g).subscribers d) ∧
    (Effect.cleanup e g).dependencies e = [] ∧
    ∃ body, (runEffect fns fuel e g).graph.trace =
        g.trace ++ Event.cleanup e :: Event.enter e :: (body ++ [Event.exit e]) ∧
      (∀ d, d ∈ (runEffect fns fuel e g).graph.dependencies e → Event.track e d ∈ body) ∧
      (Event.cleanup e ∉ body →
        ∀ d, Event.track e d ∈ body → d ∈ (runEffect fns fuel e g).graph.dependencies e) := by
  have hfin : (runEffect fns fuel e g).finished = true := by
    cases hr : runEffect fns fuel e g <;> simp [hr, Outcome.isOk, Outcome.finished] at h ⊢
  have hclean : (Effect.cleanup e g).dependencies e = [] := by
    rw [cleanup_dependencies]; simp
  refine ⟨?_, hclean, ?_⟩
  · intro d hd
    rw [cleanup_subscribers, if_pos hd, mem_setErase]
    simp
  · obtain ⟨body, h1, h2⟩ := runEffect_replay fns fuel e g hfin
    refine ⟨body, h1, ?_, ?_⟩
    · intro d hd
      rw [h2 e, hclean] at hd
      rcases mem_replayDeps e d body [] hd with h3 | ⟨h3, _⟩
      · exact h3
      · simp at h3
    · intro hc d hd
      rw [h2 e]
      exact replayDeps_mem_of_no_cleanup e d body _ hc (Or.inl hd)

theorem dependency_set_rebuild_witness :
    (runEffect condFns 1 0 condStart).isOk = true ∧
    condStart.dependencies 0 = [2, 0] ∧
    (Effect.cleanup 0 condStart).dependencies 0 = [] :=
  ⟨by decide, by decide, (dependency_set_rebuild condFns 1 0 condStart (by decide)).2.1⟩

/-! ## Wrapped functions that only read -/

theorem runCount_log (e : EffId) (ev : Event) (g g1 : Graph)
    (ht : g1.trace = g.trace ++ [ev]) :
    runCount e g1 = runCount e g + if ev = Event.enter e then 1 else 0 := by
  unfold runCount
  rw [ht, List.count_append]
  by_cases h : ev = Event.enter e
  · simp [h]
  · have hm : Event.enter e ∉ [ev] := by
      intro hm
      exact h (List.mem_singleton.1 hm).symm
    simp [List.count_eq_zero_of_not_mem hm, h]

theorem quiet_refl (g : Graph) : Quiet g g := ⟨rfl, rfl, fun _ => rfl⟩

theorem quiet_trans {a b c : Graph} (h1 : Quiet a b) (h2 : Quiet b c) : Quiet a c :=
  ⟨h2.1.trans h1.1, h2.2.1.trans h1.2.1, fun e => (h2.2.2 e).trans (h1.2.2 e)⟩

theorem quiet_track (d : DepId) (g : Graph) : Quiet g (DependencyTracker.track d g) := by
  cases ha : g.activeEffect with
  | none => rw [track_of_none d g ha]; exact quiet_refl g
  | some e =>
    rw [track_of_some d e g ha]
    refine ⟨rfl, rfl, fun e1 => ?_⟩
    rw [runCount_log e1 (Event.track e d) g _ rfl]
    simp

theorem quiet_cleanup (e : EffId) (g : Graph) : Quiet g (Effect.cleanup e g) := by
  refine ⟨cleanup_value e g, cleanup_activeEffect e g, fun e1 => ?_⟩
  rw [runCount_log e1 (Event.cleanup e) g _ (cleanup_trace e g)]
  simp

theorem quiet_eval (x : Expr) (g : Graph) : Quiet g (Expr.eval x g).2 := by
  induction x generalizing g with
  | lit v => exact quiet_refl g
  | deref r => exact quiet_track r g
  | binop f a b iha ihb => exact quiet_trans (iha g) (ihb _)
  | bind r k ih => exact quiet_trans (quiet_track r g) (ih _ _)

theorem exec_readOnly (runE : EffId → Graph → Outcome) (c : Cmd) (g : Graph)
    (h : c.readOnly = true) : ∃ g1, Cmd.exec runE c g = Outcome.ok g1 ∧ Quiet g g1 := by
  induction c generalizing g with
  | skip => exact ⟨g, rfl, quiet_refl g⟩
  | eval x => exact ⟨_, rfl, quiet_eval x g⟩
  | track d => exact ⟨_, rfl, quiet_track d g⟩
  | seq a b iha ihb =>
    simp only [Cmd.readOnly, Bool.and_eq_true] at h
    obtain ⟨g1, h1, q1⟩ := iha g h.1
    obtain ⟨g2, h2, q2⟩ := ihb g1 h.2
    exact ⟨g2, by simp only [Cmd.exec, h1, h2], quiet_trans q1 q2⟩
  | ite c t f iht ihf =>
    simp only [Cmd.readOnly, Bool.and_eq_true] at h
    simp only [Cmd.exec]
    split
    · obtain ⟨g1, h1, q1⟩ := iht (Expr.eval c g).2 h.1
      exact ⟨g1, h1, quiet_trans (quiet_eval c g) q1⟩
    · obtain ⟨g1, h1, q1⟩ := ihf (Expr.eval c g).2 h.2
      exact ⟨g1, h1, quiet_trans (quiet_eval c g) q1⟩
  | assign r x => simp [Cmd.readOnly] at h
  | untrack => simp [Cmd.readOnly] at h
  | notify d => simp [Cmd.readOnly] at h
  | run e => simp [Cmd.readOnly] at h
  | cleanup e => simp [Cmd.readOnly] at h
  | raise err => simp [Cmd.readOnly] at h
  | tryCatch a b _ _ => simp [Cmd.readOnly] at h

theorem runEffect_readOnly (fns : EffId → Cmd) (fuel : Nat) (e : EffId) (g : Graph)
    (h : (fns e).readOnly = true) :
    ∃ g1, runEffect fns (fuel + 1) e g = Outcome.ok g1 ∧ g1.value = g.value ∧
      ∀ e1, runCount e1 g1 = runCount e1 g + if e1 = e then 1 else 0 := by
  obtain ⟨g3, h3, q3⟩ := exec_readOnly (runEffect fns fuel) (fns e)
    (Effect.install e (Effect.cleanup e g)) h
  refine ⟨{ g3 with activeEffect := (Effect.cleanup e g).activeEffect,
                      trace := g3.trace ++ [Event.exit e] },
    by simp only [runEffect, Effect.run, h3], ?_, ?_⟩
  · show g3.value = g.value
    rw [q3.1]
    exact cleanup_value e g
  · intro e1
    rw [runCount_log e1 (Event.exit e) g3 _ rfl, q3.2.2 e1,
      runCount_log e1 (Event.enter e) (Effect.cleanup e g) _ rfl, (quiet_cleanup e g).2.2 e1]
    by_cases he : e1 = e
    · subst he; simp
    · have he1 : ¬ e = e1 := fun h => he h.symm
      simp [he, he1]

theorem forEachRun_readOnly (fns : EffId → Cmd) (fuel : Nat) (es : List EffId) (g : Graph)
    (h : ∀ e, e ∈ es → (fns e).readOnly = true) :
    ∃ g1, forEachRun (runEffect fns (fuel + 1)) es g = Outcome.ok g1 ∧ g1.value = g.value ∧
      ∀ e1, runCount e1 g1 = runCount e1 g + es.count e1 := by
  induction es generalizing g with
  | nil => exact ⟨g, rfl, rfl, fun _ => by simp⟩
  | cons e t ih =>
    obtain ⟨g1, h1, v1, c1⟩ := runEffect_readOnly fns fuel e g (h e (List.mem_cons_self _ _))
    obtain ⟨g2, h2, v2, c2⟩ := ih g1 (fun e1 he1 => h e1 (List.mem_cons_of_mem _ he1))
    refine ⟨g2, by simp only [forEachRun, h1, h2], v2.trans v1, ?_⟩
    intro e1
    rw [c2 e1, c1 e1, List.count_cons]
    by_cases he : e1 = e
    · subst he; simp; omega
    · have he1 : ¬ e = e1 := fun h => he h.symm
      simp [he, he1]

theorem assign_readOnly (fns : EffId → Cmd) (fuel : Nat) (r : DepId) (v : Int) (g : Graph)
    (hv : g.value r ≠ v) (h : ∀ e, e ∈ g.subscribers r → (fns e).readOnly = true) :
    ∃ g1, Reactive.assign (runEffect fns (fuel + 1)) r v g = Outcome.ok g1 ∧ g1.value r = v ∧
      ∀ e1, runCount e1 g1 = runCount e1 g + (g.subscribers r).count e1 := by
  obtain ⟨g1, h1, v1, c1⟩ := forEachRun_readOnly fns fuel (g.subscribers r)
    { g with value := Function.update g.value r v, trace := g.trace ++ [Event.notify r] } h
  refine ⟨g1, ?_, ?_, ?_⟩
  · simp only [Reactive.assign, if_pos hv, Dependency.notify]
    exact h1
  · rw [v1]; simp
  · intro e1
    rw [c1 e1, runCount_log e1 (Event.notify r) g _ rfl]
    simp

/-! ## Every run of a wrapped function is counted -/

theorem mono_stepClosed : StepClosed (fun g g1 => ∀ e, runCount e g ≤ runCount e g1) where
  refl := fun _ _ => le_refl _
  trans := fun _ _ _ h1 h2 e => le_trans (h1 e) (h2 e)
  track := fun d g e => le_of_eq ((quiet_track d g).2.2 e).symm
  cleanup := fun e1 g e => le_of_eq ((quiet_cleanup e1 g).2.2 e).symm
  setActive := fun _ _ _ => le_refl _
  store := fun _ _ _ _ => le_refl _
  logNotify := fun d g e => by
    rw [runCount_log e (Event.notify d) g { g with trace := g.trace ++ [Event.notify d] } rfl]
    omega
  logEnter := fun e1 g e => by
    rw [runCount_log e (Event.enter e1) g { g with trace := g.trace ++ [Event.enter e1] } rfl]
    omega
  logExit := fun e1 g e => by
    rw [runCount_log e (Event.exit e1) g { g with trace := g.trace ++ [Event.exit e1] } rfl]
    omega

theorem runEffect_count_succ (fns : EffId → Cmd) (fuel : Nat) (e : EffId) (g : Graph)
    (h : (runEffect fns fuel e g).finished = true) :
    runCount e g + 1 ≤ runCount e (runEffect fns fuel e g).graph := by
  obtain ⟨body, h1, _⟩ := runEffect_replay fns fuel e g h
  unfold runCount
  rw [h1]
  simp [List.count_append, List.count_cons]

theorem forEachRun_count_succ (fns : EffId → Cmd) (fuel : Nat) (e : EffId) (es : List EffId)
    (g : Graph) (he : e ∈ es) (h : (forEachRun (runEffect fns fuel) es g).isOk = true) :
    runCount e g + 1 ≤ runCount e (forEachRun (runEffect fns fuel) es g).graph := by
  induction es generalizing g with
  | nil => simp at he
  | cons e0 t ih =>
    simp only [forEachRun] at h ⊢
    cases hr : runEffect fns fuel e0 g with
    | ok g1 =>
      rw [hr] at h
      simp only at h ⊢
      have hfin : (runEffect fns fuel e0 g).finished = true := by simp [hr, Outcome.finished]
      rcases List.mem_cons.1 he with he0 | het
      · subst he0
        have h1 := runEffect_count_succ fns fuel e g hfin
        rw [hr] at h1
        have h2 := forEachRun_closed mono_stepClosed (runEffect fns fuel)
          (runEffect_closed mono_stepClosed fns fuel) t g1 e
        exact le_trans h1 h2
      · have h1 := runEffect_closed mono_stepClosed fns fuel e0 g e
        rw [hr] at h1
        have h2 := ih g1 het h
        exact le_trans (Nat.add_le_add_right h1 1) h2
    | raised err g1 => rw [hr] at h; simp [Outcome.isOk] at h
    | timeout g1 => rw [hr] at h; simp [Outcome.isOk] at h

theorem symmetric_exec (fns : EffId → Cmd) (fuel : Nat) (prog : Cmd) (g : Graph)
    (h : Symmetric g) : Symmetric (Cmd.exec (runEffect fns fuel) prog g).graph :=
  exec_closed symmetric_stepClosed _ (runEffect_closed symmetric_stepClosed fns fuel) prog g h

/-! ## The log of a finished call is balanced -/

theorem balanced_append {s t : List Event} (hs : Balanced s) (ht : Balanced t) :
    Balanced (s ++ t) := by
  induction hs with
  | nil => exact ht
  | track e d u _ ih => exact Balanced.track e d _ ih
  | cleanup e u _ ih => exact Balanced.cleanup e _ ih
  | notify d u _ ih => exact Balanced.notify d _ ih
  | nest e1 e2 u w hu _ _ ihw =>
    have h := Balanced.nest e1 e2 u (w ++ t) hu ihw
    simpa using h

theorem balancedCall_ok (g g1 : Graph) (seg : List Event) (ht : g1.trace = g.trace ++ seg)
    (hb : Balanced seg) : BalancedCall g (Outcome.ok g1) :=
  fun _ => ⟨seg, ht, hb⟩

theorem balancedCall_trans (g g1 : Graph) (o : Outcome)
    (h1 : ∃ seg, g1.trace = g.trace ++ seg ∧ Balanced seg) (h2 : BalancedCall g1 o) :
    BalancedCall g o := by
  intro hfin
  obtain ⟨s1, ht1, hb1⟩ := h1
  obtain ⟨s2, ht2, hb2⟩ := h2 hfin
  exact ⟨s1 ++ s2, by rw [ht2, ht1, List.append_assoc], balanced_append hb1 hb2⟩

theorem track_balanced (d : DepId) (g : Graph) :
    ∃ seg, (DependencyTracker.track d g).trace = g.trace ++ seg ∧ Balanced seg := by
  cases ha : g.activeEffect with
  | none => rw [track_of_none d g ha]; exact ⟨[], by simp, Balanced.nil⟩
  | some e =>
    rw [track_of_some d e g ha]
    exact ⟨[Event.track e d], rfl, Balanced.track e d [] Balanced.nil⟩

theorem eval_balanced (x : Expr) (g : Graph) :
    ∃ seg, (Expr.eval x g).2.trace = g.trace ++ seg ∧ Balanced seg := by
  induction x generalizing g with
  | lit v => exact ⟨[], by simp [Expr.eval], Balanced.nil⟩
  | deref r => exact track_balanced r g
  | binop f a b iha ihb =>
    obtain ⟨s1, ht1, hb1⟩ := iha g
    obtain ⟨s2, ht2, hb2⟩ := ihb (Expr.eval a g).2
    exact ⟨s1 ++ s2, by simp only [Expr.eval]; rw [ht2, ht1, List.append_assoc],
      balanced_append hb1 hb2⟩
  | bind r k ih =>
    obtain ⟨s1, ht1, hb1⟩ := track_balanced r g
    obtain ⟨s2, ht2, hb2⟩ := ih (g.value r) (DependencyTracker.track r g)
    exact ⟨s1 ++ s2,
      by simp only [Expr.eval, Reactive.deref]; rw [ht2, ht1, List.append_assoc],
      balanced_append hb1 hb2⟩

theorem forEachRun_balanced (runE : EffId → Graph → Outcome)
    (hrun : ∀ e g, BalancedCall g (runE e g)) (es : List EffId) (g : Graph) :
    BalancedCall g (forEachRun runE es g) := by
  induction es generalizing g with
  | nil => exact balancedCall_ok g g [] (by simp) Balanced.nil
  | cons e t ih =>
    have h := hrun e g
    simp only [forEachRun]
    cases hr : runE e g with
    | ok g1 =>
      rw [hr] at h
      exact balancedCall_trans g g1 _ (h rfl) (ih g1)
    | raised err g1 => rw [hr] at h; exact h
    | timeout g1 => rw [hr] at h; exact h

theorem notify_balanced (runE : EffId → Graph → Outcome)
    (hrun : ∀ e g, BalancedCall g (runE e g)) (d : DepId) (g : Graph) :
    BalancedCall g (Dependency.notify runE d g) :=
  balancedCall_trans g _ _ ⟨[Event.notify d], rfl, Balanced.notify d [] Balanced.nil⟩
    (forEachRun_balanced runE hrun _ _)

theorem assign_balanced (runE : EffId → Graph → Outcome)
    (hrun : ∀ e g, BalancedCall g (runE e g)) (r : DepId) (v : Int) (g : Graph) :
    BalancedCall g (Reactive.assign runE r v g) := by
  unfold Reactive.assign
  split
  · exact balancedCall_trans g _ _ ⟨[], by simp, Balanced.nil⟩ (notify_balanced runE hrun r _)
  · exact balancedCall_ok g g [] (by simp) Balanced.nil

theorem exec_balanced (runE : EffId → Graph → Outcome)
    (hrun : ∀ e g, BalancedCall g (runE e g)) (c : Cmd) (g : Graph) :
    BalancedCall g (Cmd.exec runE c g) := by
  induction c generalizing g with
  | skip => exact balancedCall_ok g g [] (by simp) Balanced.nil
  | eval x =>
    obtain ⟨s, ht, hb⟩ := eval_balanced x g
    exact balancedCall_ok g _ s ht hb
  | assign r x => exact balancedCall_trans g _ _ (eval_balanced x g) (assign_balanced runE hrun r _ _)
  | track d =>
    obtain ⟨s, ht, hb⟩ := track_balanced d g
    exact balancedCall_ok g _ s ht hb
  | untrack => exact balancedCall_ok g _ [] (by simp [DependencyTracker.untrack]) Balanced.nil
  | notify d => exact notify_balanced runE hrun d g
  | run e => exact hrun e g
  | cleanup e =>
    exact balancedCall_ok g _ [Event.cleanup e] (cleanup_trace e g)
      (Balanced.cleanup e [] Balanced.nil)
  | raise err => exact fun _ => ⟨[], by simp [Cmd.exec, Outcome.graph], Balanced.nil⟩
  | seq a b iha ihb =>
    have h := iha g
    simp only [Cmd.exec]
    cases hr : Cmd.exec runE a g with
    | ok g1 => rw [hr] at h; exact balancedCall_trans g g1 _ (h rfl) (ihb g1)
    | raised err g1 => rw [hr] at h; exact h
    | timeout g1 => rw [hr] at h; exact h
  | ite c t f iht ihf =>
    simp only [Cmd.exec]
    split
    · exact balancedCall_trans g _ _ (eval_balanced c g) (iht _)
    · exact balancedCall_trans g _ _ (eval_balanced c g) (ihf _)
  | tryCatch a b iha ihb =>
    have h := iha g
    simp only [Cmd.exec]
    cases hr : Cmd.exec runE a g with
    | ok g1 => rw [hr] at h; exact h
    | raised err g1 => rw [hr] at h; exact balancedCall_trans g g1 _ (h rfl) (ihb g1)
    | timeout g1 => rw [hr] at h; exact h

theorem run_balanced (body : Graph → Outcome) (hbody : ∀ g, BalancedCall g (body g))
    (e : EffId) (g : Graph) (hfin : (Effect.run body e g).finished = true) :
    ∃ inner, (Effect.run body e g).graph.trace =
        g.trace ++ Event.cleanup e :: Event.enter e :: (inner ++ [Event.exit e]) ∧
      Balanced inner := by
  have hb := hbody (Effect.install e (Effect.cleanup e g))
  simp only [Effect.run] at hfin ⊢
  cases hr : body (Effect.install e (Effect.cleanup e g)) with
  | ok g3 =>
    rw [hr] at hb
    obtain ⟨inner, ht, hbal⟩ := hb rfl
    simp only [Outcome.graph] at ht ⊢
    refine ⟨inner, ?_, hbal⟩
    rw [ht]
    simp [Effect.install, cleanup_trace]
  | raised err g3 =>
    rw [hr] at hb
    obtain ⟨inner, ht, hbal⟩ := hb rfl
    simp only [Outcome.graph] at ht ⊢
    refine ⟨inner, ?_, hbal⟩
    rw [ht]
    simp [Effect.install, cleanup_trace]
  | timeout g3 =>
    rw [hr] at hfin
    simp [Outcome.finished] at hfin

theorem balanced_run_segment (e : EffId) (inner : List Event) (h : Balanced inner) :
    Balanced (Event.cleanup e :: Event.enter e :: (inner ++ [Event.exit e])) :=
  Balanced.cleanup e _ (Balanced.nest e e inner [] h Balanced.nil)

theorem runEffect_balanced (fns : EffId → Cmd) (fuel : Nat) (e : EffId) (g : Graph)
    (hfin : (runEffect fns fuel e g).finished = true) :
    ∃ inner, (runEffect fns fuel e g).graph.trace =
        g.trace ++ Event.cleanup e :: Event.enter e :: (inner ++ [Event.exit e]) ∧
      Balanced inner := by
  induction fuel generalizing e g with
  | zero => simp [runEffect, Outcome.finished] at hfin
  | succ n ih =>
    apply run_balanced _ _ e g hfin
    intro g1
    apply exec_balanced
    intro e1 g2 hf
    obtain ⟨inner, ht, hb⟩ := ih e1 g2 hf
    exact ⟨_, ht, balanced_run_segment e1 inner hb⟩

/-! ## Direct runs of a notify -/

theorem scanRuns_balanced {s : List Event} (hs : Balanced s) (k : Nat) (t : List Event) :
    scanRuns (k + 1) (s ++ t) = scanRuns (k + 1) t := by
  induction hs generalizing k t with
  | nil => rfl
  | track e d u _ ih => simpa [scanRuns] using ih k t
  | cleanup e u _ ih => simpa [scanRuns] using ih k t
  | notify d u _ ih => simpa [scanRuns] using ih k t
  | nest e1 e2 u w _ _ ihu ihw =>
    have h1 := ihu (k + 1) (Event.exit e2 :: (w ++ t))
    have h2 := ihw k t
    have h3 : Event.enter e1 :: (u ++ Event.exit e2 :: w) ++ t =
        Event.enter e1 :: (u ++ Event.exit e2 :: (w ++ t)) := by simp
    rw [h3]
    simp only [scanRuns] at h1 ⊢
    rw [if_neg (Nat.succ_ne_zero k), h1]
    simpa using h2

theorem scanRuns_run_segment (e : EffId) (inner t : List Event) (h : Balanced inner) :
    scanRuns 0 ((Event.cleanup e :: Event.enter e :: (inner ++ [Event.exit e])) ++ t) =
      e :: scanRuns 0 t := by
  have h1 := scanRuns_balanced h 0 (Event.exit e :: t)
  simp only [List.cons_append, List.append_assoc, scanRuns, List.nil_append] at h1 ⊢
  simp [h1]

theorem forEachRun_direct (fns : EffId → Cmd) (fuel : Nat) (es : List EffId) (g : Graph)
    (hfin : (forEachRun (runEffect fns fuel) es g).finished = true) :
    ∃ seg ran, (forEachRun (runEffect fns fuel) es g).graph.trace = g.trace ++ seg ∧
      (∀ t, scanRuns 0 (seg ++ t) = ran ++ scanRuns 0 t) ∧
      (∃ rest, ran ++ rest = es) ∧
      ((forEachRun (runEffect fns fuel) es g).isOk = true → ran = es) := by
  induction es generalizing g with
  | nil => exact ⟨[], [], by simp [forEachRun, Outcome.graph], fun _ => rfl, ⟨[], rfl⟩, fun _ => rfl⟩
  | cons e t ih =>
    simp only [forEachRun] at hfin ⊢
    cases hr : runEffect fns fuel e g with
    | ok g1 =>
      rw [hr] at hfin
      simp only at hfin ⊢
      have hf1 : (runEffect fns fuel e g).finished = true := by simp [hr, Outcome.finished]
      obtain ⟨inner, ht1, hb1⟩ := runEffect_balanced fns fuel e g hf1
      rw [hr] at ht1
      simp only [Outcome.graph] at ht1
      obtain ⟨seg, ran, ht2, hs2, ⟨rest, hrest⟩, hok2⟩ := ih g1 hfin
      refine ⟨(Event.cleanup e :: Event.enter e :: (inner ++ [Event.exit e])) ++ seg,
        e :: ran, ?_, ?_, ⟨rest, by simp [hrest]⟩, ?_⟩
      · rw [ht2, ht1, List.append_assoc]
      · intro u
        rw [List.append_assoc, scanRuns_run_segment e inner _ hb1, hs2 u]
        rfl
      · intro hok
        rw [hok2 hok]
    | raised err g1 =>
      have hf1 : (runEffect fns fuel e g).finished = true := by simp [hr, Outcome.finished]
      obtain ⟨inner, ht1, hb1⟩ := runEffect_balanced fns fuel e g hf1
      rw [hr] at ht1
      refine ⟨Event.cleanup e :: Event.enter e :: (inner ++ [Event.exit e]), [e], ht1, ?_,
        ⟨t, rfl⟩, ?_⟩
      · intro u
        exact scanRuns_run_segment e inner u hb1
      · intro hok
        simp [Outcome.isOk] at hok
    | timeout g1 =>
      rw [hr] at hfin
      simp [Outcome.finished] at hfin

theorem notify_direct (fns : EffId → Cmd) (fuel : Nat) (d : DepId) (g : Graph)
    (hfin : (Dependency.notify (runEffect fns fuel) d g).finished = true) :
    ∃ seg, (Dependency.notify (runEffect fns fuel) d g).graph.trace =
        g.trace ++ Event.notify d :: seg ∧
      (∃ rest, directRuns seg ++ rest = g.subscribers d) ∧
      ((Dependency.notify (runEffect fns fuel) d g).isOk = true →
        directRuns seg = g.subscribers d) := by
  simp only [Dependency.notify] at hfin ⊢
  obtain ⟨seg, ran, ht, hs, hrest, hok⟩ := forEachRun_direct fns fuel (g.subscribers d)
    { g with trace := g.trace ++ [Event.notify d] } hfin
  have hran : directRuns seg = ran := by
    have h := hs []
    simpa [directRuns, scanRuns] using h
  refine ⟨seg, ?_, ?_, ?_⟩
  · rw [ht]; simp
  · rw [hran]; exact hrest
  · intro h
    rw [hran, hok h]

theorem assign_direct (fns : EffId → Cmd) (fuel : Nat) (r : DepId) (v : Int) (g : Graph)
    (hv : g.value r ≠ v)
    (hfin : (Reactive.assign (runEffect fns fuel) r v g).finished = true) :
    ∃ seg, (Reactive.assign (runEffect fns fuel) r v g).graph.trace =
        g.trace ++ Event.notify r :: seg ∧
      (∃ rest, directRuns seg ++ rest = g.subscribers r) ∧
      ((Reactive.assign (runEffect fns fuel) r v g).isOk = true →
        directRuns seg = g.subscribers r) := by
  simp only [Reactive.assign, if_pos hv] at hfin ⊢
  exact notify_direct fns fuel r { g with value := Function.update g.value r v } hfin

/-- C8 as stated fails. Effects `0` and `1` both wrap `if (*r != 0) throw 7;`
and are both subscribers of `r` when `notify` is entered with `r` holding `5`.
The first one iterated raises, `notify` raises `7` to its caller, and the
wrapped function of the other subscriber is not run; this holds for either
iteration order of the snapshot. -/
theorem notify_snapshot_stable_counterexample :
    (throwNotify 0 1).subscribers 0 = [0, 1] ∧
    (Dependency.notify (runEffect throwFns 1) 0 (throwNotify 0 1)).isRaised 7 = true ∧
    runCount 1 (Dependency.notify (runEffect throwFns 1) 0 (throwNotify 0 1)).graph =
      runCount 1 (throwNotify 0 1) ∧
    (throwNotify 1 0).subscribers 0 = [1, 0] ∧
    (Dependency.notify (runEffect throwFns 1) 0 (throwNotify 1 0)).isRaised 7 = true ∧
    runCount 0 (Dependency.notify (runEffect throwFns 1) 0 (throwNotify 1 0)).graph =
      runCount 0 (throwNotify 1 0) := by
  decide

/-- C8, as it holds of the code. Let `notify` of `d` end, by returning or by
raising, with any wrapped functions (they may subscribe to or unsubscribe from
`d` while they run). The `run` calls it made itself are a prefix of the
subscriber set of `d` as it was when `notify` was entered. If it returned
normally, they are exactly that snapshot, each subscriber once. -/
theorem notify_snapshot_stable (fns : EffId → Cmd) (fuel : Nat) (d : DepId) (g : Graph)
    (hnodup : (g.subscribers d).Nodup)
    (hfin : (Dependency.notify (runEffect fns fuel) d g).finished = true) :
    ∃ seg, (Dependency.notify (runEffect fns fuel) d g).graph.trace =
        g.trace ++ Event.notify d :: seg ∧
      (∃ rest, directRuns seg ++ rest = g.subscribers d) ∧
      ((Dependency.notify (runEffect fns fuel) d g).isOk = true →
        directRuns seg = g.subscribers d ∧
        ∀ e, e ∈ g.subscribers d → (directRuns seg).count e = 1) := by
  obtain ⟨seg, ht, hrest, hok⟩ := notify_direct fns fuel d g hfin
  refine ⟨seg, ht, hrest, fun h => ⟨hok h, fun e he => ?_⟩⟩
  rw [hok h]
  exact List.count_eq_one_of_mem hnodup he

theorem notify_snapshot_stable_witness :
    churnStart.subscribers 0 = [0, 1] ∧
    (Dependency.notify (runEffect churnFns 2) 0 churnStart).isOk = true ∧
    (Dependency.notify (runEffect churnFns 2) 0 churnStart).graph.subscribers 0 = [0, 2, 1] ∧
    directRuns ((Dependency.notify (runEffect churnFns 2) 0 churnStart).graph.trace.drop
      (churnStart.trace.length + 1)) = [0, 1] ∧
    ∃ seg, (Dependency.notify (runEffect churnFns 2) 0 churnStart).graph.trace =
        churnStart.trace ++ Event.notify 0 :: seg ∧
      (∃ rest, directRuns seg ++ rest = churnStart.subscribers 0) ∧
      ((Dependency.notify (runEffect churnFns 2) 0 churnStart).isOk = true →
        directRuns seg = churnStart.subscribers 0 ∧
        ∀ e, e ∈ churnStart.subscribers 0 → (directRuns seg).count e = 1) :=
  ⟨by decide, by decide, by decide, by decide,
    notify_snapshot_stable churnFns 2 0 churnStart (by decide) (by decide)⟩

/-! ## Read/write tracking -/

/-- C2 as stated fails, in both directions. In the diamond, effect `0` reads `r`
and `q`, and effect `1` is the derived value `q = *r`; both are subscribers of
`r`. Assigning `5` to `r` (which holds `0`) returns normally and runs the
wrapped function of effect `0` twice: once from the snapshot of `r`, once from
the notify of `q`, whichever subscriber is iterated first. With two subscribers
wrapping `if (*r != 0) throw 7;`, the assignment raises after the first one
iterated, and the wrapped function of the other is not re-run at all. -/
theorem read_write_tracking_counterexample :
    diamondStart.subscribers 0 = [0, 1] ∧ diamondStart.subscribers 1 = [0] ∧
    diamondStart.value 0 ≠ 5 ∧
    (Reactive.assign (runEffect diamondFns 3) 0 5 diamondStart).isOk = true ∧
    runCount 0 (Reactive.assign (runEffect diamondFns 3) 0 5 diamondStart).graph =
      runCount 0 diamondStart + 2 ∧
    (throwStart 0 1).subscribers 0 = [0, 1] ∧ (throwStart 0 1).value 0 ≠ 5 ∧
    (Reactive.assign (runEffect throwFns 1) 0 5 (throwStart 0 1)).isRaised 7 = true ∧
    runCount 1 (Reactive.assign (runEffect throwFns 1) 0 5 (throwStart 0 1)).graph =
      runCount 1 (throwStart 0 1) := by
  decide

/-- C2, as it holds of the code. Let `e` be a subscriber of the reactive
container `r` (its last run read `r`) and `v` differ from the value `r` holds.
If the assignment `r = v` returns normally, the notify it performs runs `e`
exactly once itself, so the wrapped function of `e` is re-run at least once.
If the wrapped functions of the subscribers of `r` only read reactive values,
the assignment does return normally, `r` holds `v`, and the wrapped function
of `e` is re-run exactly once. -/
theorem read_write_tracking (fns : EffId → Cmd) (fuel : Nat) (r : DepId) (e : EffId)
    (v : Int) (g : Graph) (hnodup : (g.subscribers r).Nodup) (he : e ∈ g.subscribers r)
    (hv : g.value r ≠ v) :
    ((Reactive.assign (runEffect fns fuel) r v g).isOk = true →
      (∃ seg, (Reactive.assign (runEffect fns fuel) r v g).graph.trace =
          g.trace ++ Event.notify r :: seg ∧ (directRuns seg).count e = 1) ∧
      runCount e g + 1 ≤ runCount e (Reactive.assign (runEffect fns fuel) r v g).graph) ∧
    ((∀ e1, e1 ∈ g.subscribers r → (fns e1).readOnly = true) →
      (Reactive.assign (runEffect fns (fuel + 1)) r v g).isOk = true ∧
      (Reactive.assign (runEffect fns (fuel + 1)) r v g).graph.value r = v ∧
      runCount e (Reactive.assign (runEffect fns (fuel + 1)) r v g).graph =
        runCount e g + 1) := by
  constructor
  · intro hok
    constructor
    · have hfin : (Reactive.assign (runEffect fns fuel) r v g).finished = true := by
        cases hr : Reactive.assign (runEffect fns fuel) r v g <;>
          simp [hr, Outcome.isOk, Outcome.finished] at hok ⊢
      obtain ⟨seg, ht, _, hd⟩ := assign_direct fns fuel r v g hv hfin
      exact ⟨seg, ht, by rw [hd hok]; exact List.count_eq_one_of_mem hnodup he⟩
    · simp only [Reactive.assign, if_pos hv, Dependency.notify] at hok ⊢
      have h1 := forEachRun_count_succ fns fuel e (g.subscribers r)
        { g with value := Function.update g.value r v, trace := g.trace ++ [Event.notify r] }
        he hok
      have h2 := runCount_log e (Event.notify r) g
        { g with value := Function.update g.value r v, trace := g.trace ++ [Event.notify r] }
        rfl
      simp at h2
      omega
  · intro hro
    obtain ⟨g1, h1, v1, c1⟩ := assign_readOnly fns fuel r v g hv hro
    rw [h1]
    refine ⟨rfl, v1, ?_⟩
    show runCount e g1 = runCount e g + 1
    rw [c1 e, List.count_eq_one_of_mem hnodup he]

theorem read_write_tracking_witness :
    (condSetup 2).subscribers 2 = [0] ∧ (condSetup 2).value 2 ≠ 7 ∧
    (Reactive.assign (runEffect condFns 1) 2 7 (condSetup 2)).isOk = true ∧
    (Reactive.assign (runEffect condFns 1) 2 7 (condSetup 2)).graph.value 2 = 7 ∧
    runCount 0 (Reactive.assign (runEffect condFns 1) 2 7 (condSetup 2)).graph =
      runCount 0 (condSetup 2) + 1 :=
  ⟨by decide, by decide,
    (read_write_tracking condFns 0 2 0 7 (condSetup 2) (by decide) (by decide)
      (by decide)).2 (by decide)⟩

/-! ## Stale subscriptions -/

/-- C4 as stated fails. Effect `0` is `if (*flag != 0) *b; else *a;` and effect
`1` is the derived value `a = *b`. An earlier run of effect `0` read `b`; its
most recent completed run (with `flag` holding `0`) read `flag` and `a` only.
Assigning `5` to `b` returns normally and runs the wrapped function of effect
`0` once more: the only subscriber of `b`, effect `1`, wrote `a`. -/
theorem stale_subscription_cleanup_counterexample :
    Event.track 0 1 ∈ condStart.trace ∧
    (runEffect condFns 1 0 condStart).isOk = true ∧
    Event.track 0 1 ∉
      (runEffect condFns 1 0 condStart).graph.trace.drop condStart.trace.length ∧
    (runEffect condFns 1 0 condStart).graph.subscribers 1 = [1] ∧
    (runEffect condFns 1 0 condStart).graph.value 1 ≠ 5 ∧
    (Reactive.assign (runEffect condFns 2) 1 5
      (runEffect condFns 1 0 condStart).graph).isOk = true ∧
    runCount 0 (Reactive.assign (runEffect condFns 2) 1 5
      (runEffect condFns 1 0 condStart).graph).graph =
      runCount 0 (runEffect condFns 1 0 condStart).graph + 1 := by
  decide

/-- C4, as it holds of the code. Start from a graph with symmetric
subscriptions. If a run of `e` returns normally and the part of the log it
wrote has no `track e b` (the run did not read `b`, whatever earlier runs did),
then afterwards `e` is not a subscriber of `b`; a write of a different value to
`b` that ends does not have its notify run `e`; and if the wrapped functions of
the subscribers of `b` only read reactive values, that write returns normally
without running the wrapped function of `e` at all. -/
theorem stale_subscription_cleanup (fns : EffId → Cmd) (fuel fuel2 : Nat) (e : EffId)
    (b : DepId) (v : Int) (g0 : Graph) (hsym : Symmetric g0)
    (hrun : (runEffect fns fuel e g0).isOk = true)
    (hnoread : Event.track e b ∉ (runEffect fns fuel e g0).graph.trace.drop g0.trace.length)
    (hv : (runEffect fns fuel e g0).graph.value b ≠ v) :
    e ∉ (runEffect fns fuel e g0).graph.subscribers b ∧
    ((Reactive.assign (runEffect fns fuel2) b v
        (runEffect fns fuel e g0).graph).finished = true →
      ∃ seg, (Reactive.assign (runEffect fns fuel2) b v
          (runEffect fns fuel e g0).graph).graph.trace =
          (runEffect fns fuel e g0).graph.trace ++ Event.notify b :: seg ∧
        e ∉ directRuns seg) ∧
    ((∀ e1, e1 ∈ (runEffect fns fuel e g0).graph.subscribers b → (fns e1).readOnly = true) →
      (Reactive.assign (runEffect fns (fuel2 + 1)) b v
        (runEffect fns fuel e g0).graph).isOk = true ∧
      runCount e (Reactive.assign (runEffect fns (fuel2 + 1)) b v
        (runEffect fns fuel e g0).graph).graph = runCount e (runEffect fns fuel e g0).graph) := by
  have hfin : (runEffect fns fuel e g0).finished = true := by
    cases hr : runEffect fns fuel e g0 <;> simp [hr, Outcome.isOk, Outcome.finished] at hrun ⊢
  obtain ⟨body, h1, h2⟩ := runEffect_replay fns fuel e g0 hfin
  have hsym1 : Symmetric (runEffect fns fuel e g0).graph :=
    runEffect_closed symmetric_stepClosed fns fuel e g0 hsym
  have hnot : e ∉ (runEffect fns fuel e g0).graph.subscribers b := by
    intro hmem
    have hd := (hsym1 b e).1 hmem
    rw [h2 e, cleanup_dependencies] at hd
    simp only [Function.update_same] at hd
    rcases mem_replayDeps e b body [] hd with h3 | ⟨h3, _⟩
    · apply hnoread
      rw [h1, List.drop_left]
      simp [h3]
    · simp at h3
  refine ⟨hnot, ?_, ?_⟩
  · intro hf
    obtain ⟨seg, ht, ⟨rest, hrest⟩, _⟩ := assign_direct fns fuel2 b v _ hv hf
    refine ⟨seg, ht, fun hmem => hnot ?_⟩
    rw [← hrest]
    exact List.mem_append_left _ hmem
  · intro hro
    obtain ⟨g1, ha, _, c1⟩ := assign_readOnly fns fuel2 b v _ hv hro
    rw [ha]
    refine ⟨rfl, ?_⟩
    show runCount e g1 = _
    rw [c1 e, List.count_eq_zero_of_not_mem hnot]
    rfl

theorem stale_subscription_cleanup_witness :
    Event.track 0 1 ∈ (condSetup 2).trace ∧
    (runEffect condFns 1 0 (condSetup 2)).isOk = true ∧
    Event.track 0 1 ∉
      (runEffect condFns 1 0 (condSetup 2)).graph.trace.drop (condSetup 2).trace.length ∧
    (runEffect condFns 1 0 (condSetup 2)).graph.subscribers 1 = [2] ∧
    0 ∉ (runEffect condFns 1 0 (condSetup 2)).graph.subscribers 1 ∧
    ((Reactive.assign (runEffect condFns 1) 1 5
        (runEffect condFns 1 0 (condSetup 2)).graph).isOk = true ∧
      runCount 0 (Reactive.assign (runEffect condFns 1) 1 5
        (runEffect condFns 1 0 (condSetup 2)).graph).graph =
        runCount 0 (runEffect condFns 1 0 (condSetup 2)).graph) :=
  ⟨by decide, by decide, by decide, by decide,
    (stale_subscription_cleanup condFns 1 0 0 1 5 (condSetup 2)
      (symmetric_exec condFns 2 _ _ (symmetric_empty _)) (by decide) (by decide)
      (by decide)).1,
    (stale_subscription_cleanup condFns 1 0 0 1 5 (condSetup 2)
      (symmetric_exec condFns 2 _ _ (symmetric_empty _)) (by decide) (by decide)
      (by decide)).2.2 (by decide)⟩

/-! ## The same-identity test and the attribute diff -/

/-- C17, same-identity test. `isSameVNode n1 n2` is true exactly when the tags
are equal and the keys are equal; it is false for equal keys with different
tags; and it does not depend on the address, the attributes, the children or
the text content of either node. -/
theorem isSameVNode_iff_tag_and_key (n1 n2 : VNode) :
    (Renderer.isSameVNode n1 n2 = true ↔ n1.tag = n2.tag ∧ n1.key = n2.key) ∧
    (n1.key = n2.key → n1.tag ≠ n2.tag → Renderer.isSameVNode n1 n2 = false) ∧
    (∀ a1 a2 p1 p2 c1 c2 t1 t2,
      Renderer.isSameVNode (VNode.mk a1 n1.tag n1.key p1 c1 t1)
          (VNode.mk a2 n2.tag n2.key p2 c2 t2) =
        Renderer.isSameVNode n1 n2) := by
  refine ⟨?_, ?_, ?_⟩
  · simp [Renderer.isSameVNode]
  · intro _ ht
    simp [Renderer.isSameVNode, ht]
  · intro a1 a2 p1 p2 c1 c2 t1 t2
    simp [Renderer.isSameVNode, VNode.tag, VNode.key]

theorem findProp_eq_none (name : String) (props : List (String × String)) :
    findProp name props = none ↔ ∀ v, (name, v) ∉ props := by
  unfold findProp
  rw [Option.map_eq_none', List.find?_eq_none]
  constructor
  · intro h v hv
    exact h (name, v) hv (by simp)
  · intro h kv hkv hk
    have hk1 : kv.1 = name := by simpa using hk
    apply h kv.2
    rw [← hk1]
    exact hkv

theorem removeLoop_calls (element : Handle) (newProps : List (String × String))
    (oldProps : List (String × String)) (p : Platform) :
    (oldProps.foldl
      (fun acc kv =>
        if findProp kv.1 newProps = none then Platform.removeAttribute element kv.1 acc
        else acc) p).calls =
      p.calls ++ (oldProps.filter (fun kv => (findProp kv.1 newProps).isNone)).map
        (fun kv => Call.removeAttribute element kv.1) := by
  induction oldProps generalizing p with
  | nil => simp
  | cons kv rest ih =>
    simp only [List.foldl_cons]
    rw [ih]
    by_cases h : findProp kv.1 newProps = none
    · simp [h, Platform.removeAttribute, List.filter_cons]
    · have h1 : (findProp kv.1 newProps).isNone = false := by
        cases hf : findProp kv.1 newProps with
        | none => exact absurd hf h
        | some v => rfl
      simp [h, h1, List.filter_cons]

theorem setLoop_calls (element : Handle) (oldProps : List (String × String))
    (newProps : List (String × String)) (p : Platform) :
    (newProps.foldl
      (fun acc kv =>
        match findProp kv.1 oldProps with
        | none => Platform.setAttribute element kv.1 kv.2 acc
        | some oldValue =>
          if oldValue ≠ kv.2 then Platform.setAttribute element kv.1 kv.2 acc else acc) p).calls =
      p.calls ++ (newProps.filter (fun kv => findProp kv.1 oldProps != some kv.2)).map
        (fun kv => Call.setAttribute element kv.1 kv.2) := by
  induction newProps generalizing p with
  | nil => simp
  | cons kv rest ih =>
    simp only [List.foldl_cons]
    rw [ih]
    cases hf : findProp kv.1 oldProps with
    | none => simp [hf, Platform.setAttribute, List.filter_cons]
    | some v =>
      by_cases hv : v = kv.2
      · simp [hf, hv, List.filter_cons]
      · simp [hf, hv, Platform.setAttribute, List.filter_cons]

theorem updateDOMElement_calls (element : Handle) (oldProps newProps : List (String × String))
    (p : Platform) :
    (Renderer.updateDOMElement element oldProps newProps p).calls =
      p.calls ++
        ((oldProps.filter (fun kv => (findProp kv.1 newProps).isNone)).map
            (fun kv => Call.removeAttribute element kv.1) ++
          (newProps.filter (fun kv => findProp kv.1 oldProps != some kv.2)).map
            (fun kv => Call.setAttribute element kv.1 kv.2)) := by
  unfold Renderer.updateDOMElement
  simp only
  rw [setLoop_calls, removeLoop_calls, List.append_assoc]

/-- C19, attribute diff. The calls `updateDOMElement` adds to the log are one
`removeAttribute(h, k)` per entry of `oldProps` whose name is absent from
`newProps`, followed by one `setAttribute(h, k, v)` per entry `(k, v)` of
`newProps` whose name is absent from `oldProps` or maps to another value there,
and nothing else: a name is removed exactly when it is in `oldProps` and not in
`newProps`, a pair is set exactly when it is in `newProps` and `oldProps` does
not map the name to that value, and an entry whose value is unchanged gets
neither call. -/
theorem updateDOMElement_attribute_diff (h : Handle) (oldProps newProps : List (String × String))
    (p : Platform) :
    ∃ seg, (Renderer.updateDOMElement h oldProps newProps p).calls = p.calls ++ seg ∧
      seg =
        (oldProps.filter (fun kv => (findProp kv.1 newProps).isNone)).map
            (fun kv => Call.removeAttribute h kv.1) ++
          (newProps.filter (fun kv => findProp kv.1 oldProps != some kv.2)).map
            (fun kv => Call.setAttribute h kv.1 kv.2) ∧
      (∀ k, Call.removeAttribute h k ∈ seg ↔
        (∃ v, (k, v) ∈ oldProps) ∧ ∀ v, (k, v) ∉ newProps) ∧
      (∀ k v, Call.setAttribute h k v ∈ seg ↔
        (k, v) ∈ newProps ∧ findProp k oldProps ≠ some v) ∧
      (∀ k v, (k, v) ∈ newProps → findProp k oldProps = some v →
        Call.setAttribute h k v ∉ seg ∧ Call.removeAttribute h k ∉ seg) := by
  refine ⟨_, updateDOMElement_calls h oldProps newProps p, rfl, ?_, ?_, ?_⟩
  · intro k
    simp only [List.mem_append, List.mem_map, List.mem_filter, Option.isNone_iff_eq_none]
    constructor
    · rintro (⟨kv, ⟨hkv, hnone⟩, heq⟩ | ⟨kv, _, heq⟩)
      · have hk : kv.1 = k := by injection heq
        subst hk
        exact ⟨⟨kv.2, hkv⟩, (findProp_eq_none kv.1 newProps).1 hnone⟩
      · cases heq
    · rintro ⟨⟨v, hv⟩, hnone⟩
      exact Or.inl ⟨(k, v), ⟨hv, (findProp_eq_none k newProps).2 hnone⟩, rfl⟩
  · intro k v
    simp only [List.mem_append, List.mem_map, List.mem_filter]
    constructor
    · rintro (⟨kv, _, heq⟩ | ⟨kv, ⟨hkv, hne⟩, heq⟩)
      · cases heq
      · injection heq with _ hk hv
        have hkv1 : kv = (k, v) := Prod.ext hk hv
        subst hkv1
        exact ⟨hkv, by simpa using hne⟩
    · rintro ⟨hkv, hne⟩
      exact Or.inr ⟨(k, v), ⟨hkv, by simpa using hne⟩, rfl⟩
  · intro k v hkv hold
    constructor
    · simp only [List.mem_append, List.mem_map, List.mem_filter]
      rintro (⟨kv, _, heq⟩ | ⟨kv, ⟨_, hne⟩, heq⟩)
      · cases heq
      · injection heq with _ hk hv
        have hkv1 : kv = (k, v) := Prod.ext hk hv
        subst hkv1
        simp [hold] at hne
    · simp only [List.mem_append, List.mem_map, List.mem_filter, Option.isNone_iff_eq_none]
      rintro (⟨kv, ⟨_, hnone⟩, heq⟩ | ⟨kv, _, heq⟩)
      · have hk : kv.1 = k := by injection heq
        subst hk
        exact (findProp_eq_none kv.1 newProps).1 hnone v hkv
      · cases heq

/-! ## Replacement on identity mismatch -/

theorem createDOMElement_fst (v : VNode) (p : Platform) :
    (Renderer.createDOMElement v p).1 = p.next := by
  cases v with
  | mk a tag key props children text =>
    unfold Renderer.createDOMElement
    split <;> rfl

theorem elementOf_of_some (node : VNode) (r : Renderer) (h : Handle)
    (hmap : r.nodeToElement node.addr = some h) : Renderer.elementOf node r = (h, r) := by
  simp [Renderer.elementOf, hmap]

theorem elementOf_platform (node : VNode) (r : Renderer) :
    (Renderer.elementOf node r).2.platform = r.platform := by
  unfold Renderer.elementOf
  split <;> rfl

theorem foldl_setAttribute_calls (element : Handle) (props : List (String × String))
    (p : Platform) :
    ∃ seg, (props.foldl (fun acc kv => Platform.setAttribute element kv.1 kv.2 acc) p).calls =
      p.calls ++ seg := by
  induction props generalizing p with
  | nil => exact ⟨[], by simp⟩
  | cons kv rest ih =>
    obtain ⟨seg, h⟩ := ih (Platform.setAttribute element kv.1 kv.2 p)
    refine ⟨Call.setAttribute element kv.1 kv.2 :: seg, ?_⟩
    rw [List.foldl_cons, h]
    simp [Platform.setAttribute]

mutual
theorem createDOMElement_extends :
    ∀ (v : VNode) (p : Platform),
      ∃ seg, (Renderer.createDOMElement v p).2.calls = p.calls ++ seg
  | .mk _ tag _ props children text, p => by
    unfold Renderer.createDOMElement
    split
    · exact ⟨[Call.createTextNode text p.next], rfl⟩
    · obtain ⟨s1, h1⟩ := foldl_setAttribute_calls (Platform.createElement tag p).1 props
        (Platform.createElement tag p).2
      obtain ⟨s2, h2⟩ := createChildren_extends (Platform.createElement tag p).1 children
        (props.foldl (fun acc kv =>
          Platform.setAttribute (Platform.createElement tag p).1 kv.1 kv.2 acc)
          (Platform.createElement tag p).2)
      refine ⟨Call.createElement tag p.next :: (s1 ++ s2), ?_⟩
      simp only
      rw [h2, h1]
      simp [Platform.createElement]
theorem createChildren_extends :
    ∀ (element : Handle) (children : List VNode) (p : Platform),
      ∃ seg, (Renderer.createChildren element children p).calls = p.calls ++ seg
  | _, [], p => ⟨[], by simp [Renderer.createChildren]⟩
  | element, child :: rest, p => by
    obtain ⟨s1, h1⟩ := createDOMElement_extends child p
    obtain ⟨s2, h2⟩ := createChildren_extends element rest
      (Platform.appendChild element (Renderer.createDOMElement child p).1
        (Renderer.createDOMElement child p).2)
    refine ⟨s1 ++ Call.appendChild element (Renderer.createDOMElement child p).1 :: s2, ?_⟩
    rw [Renderer.createChildren, h2]
    simp [Platform.appendChild, h1]
end

/-- C18, replacement on identity mismatch. Let `oldNode` be mapped to the live
handle `hOld` and `newNode` be another node with a different tag or key. Then
`patch` returns; the handle `hNew` of the new subtree is the first fresh handle
of the platform, so it differs from `hOld`; the log is the earlier log, then the
calls that build the new subtree, then `insertBefore(container, hNew, hOld)`,
then `removeChild(container, hOld)`; and afterwards `oldNode` and `hOld` have no
cache entry, `newNode` maps to `hNew` and `hNew` to `newNode`. -/
theorem patch_replaces_on_mismatch (fuel : Nat) (oldNode newNode : VNode)
    (container hOld : Handle) (r : Renderer)
    (hmap : r.nodeToElement oldNode.addr = some hOld)
    (hlive : hOld < r.platform.next)
    (hdiff : oldNode.tag ≠ newNode.tag ∨ oldNode.key ≠ newNode.key)
    (haddr : oldNode.addr ≠ newNode.addr) :
    (Renderer.patch (fuel + 1) oldNode newNode container r).isOk = true ∧
    (Renderer.createDOMElement newNode r.platform).1 = r.platform.next ∧
    (Renderer.createDOMElement newNode r.platform).1 ≠ hOld ∧
    (∃ build, (Renderer.createDOMElement newNode r.platform).2.calls =
        r.platform.calls ++ build ∧
      (Renderer.patch (fuel + 1) oldNode newNode container r).renderer.platform.calls =
        r.platform.calls ++ build ++
          [Call.insertBefore container (Renderer.createDOMElement newNode r.platform).1 hOld,
            Call.removeChild container hOld]) ∧
    (Renderer.patch (fuel + 1) oldNode newNode container r).renderer.nodeToElement
      oldNode.addr = none ∧
    (Renderer.patch (fuel + 1) oldNode newNode container r).renderer.elementToNode hOld = none ∧
    (Renderer.patch (fuel + 1) oldNode newNode container r).renderer.nodeToElement
      newNode.addr = some (Renderer.createDOMElement newNode r.platform).1 ∧
    (Renderer.patch (fuel + 1) oldNode newNode container r).renderer.elementToNode
      (Renderer.createDOMElement newNode r.platform).1 = some (some newNode) := by
  have hsame : Renderer.isSameVNode oldNode newNode = false := by
    rcases hdiff with h | h <;> simp [Renderer.isSameVNode, h]
  have hnew : (Renderer.createDOMElement newNode r.platform).1 ≠ hOld := by
    rw [createDOMElement_fst]
    exact (Nat.ne_of_lt hlive).symm
  have hnew1 : hOld ≠ (Renderer.createDOMElement newNode r.platform).1 := fun h => hnew h.symm
  simp only [Renderer.patch, hsame, if_true, elementOf_of_some oldNode r hOld hmap]
  refine ⟨rfl, createDOMElement_fst _ _, hnew, ?_, ?_, ?_, ?_, ?_⟩
  · obtain ⟨build, hbuild⟩ := createDOMElement_extends newNode r.platform
    refine ⟨build, hbuild, ?_⟩
    simp [PatchOutcome.renderer, Platform.removeChild, Platform.insertBefore, hbuild]
  · simp [PatchOutcome.renderer, Function.update_apply, haddr]
  · simp [PatchOutcome.renderer, Function.update_apply, hnew1]
  · simp [PatchOutcome.renderer]
  · simp [PatchOutcome.renderer]

theorem patch_replaces_on_mismatch_witness :
    (Renderer.mountNode spanA 1 freshRenderer).nodeToElement spanA.addr = some 2 ∧
    (Renderer.patch 1 spanA paragraph 1 (Renderer.mountNode spanA 1 freshRenderer)).isOk = true ∧
    (Renderer.patch 1 spanA paragraph 1
      (Renderer.mountNode spanA 1 freshRenderer)).renderer.platform.calls =
      (Renderer.mountNode spanA 1 freshRenderer).platform.calls ++
        [Call.createElement "p" 4, Call.setAttribute 4 "x" "y", Call.createTextNode "hello" 5,
          Call.appendChild 4 5, Call.insertBefore 1 4 2, Call.removeChild 1 2] ∧
    (Renderer.patch 1 spanA paragraph 1
      (Renderer.mountNode spanA 1 freshRenderer)).renderer.nodeToElement spanA.addr = none :=
  ⟨by decide, by decide, by decide,
    (patch_replaces_on_mismatch 0 spanA paragraph 1 2 (Renderer.mountNode spanA 1 freshRenderer)
      (by decide) (by decide) (by decide) (by decide)).2.2.2.2.1⟩

/-! ## The unimplemented branch of `patchChildren` -/

theorem patchChildrenLoop_stuck (patchRec : VNode → VNode → Handle → Renderer → PatchOutcome)
    (oldChildren newChildren : List VNode) (container : Handle) (c : Cursors)
    (oldStartChild oldEndChild newStartChild newEndChild : VNode)
    (hcond : c.oldStartIdx ≤ c.oldEndIdx ∧ c.newStartIdx ≤ c.newEndIdx)
    (h1 : childAt oldChildren c.oldStartIdx = some oldStartChild)
    (h2 : childAt oldChildren c.oldEndIdx = some oldEndChild)
    (h3 : childAt newChildren c.newStartIdx = some newStartChild)
    (h4 : childAt newChildren c.newEndIdx = some newEndChild)
    (hs : Renderer.isSameVNode oldStartChild newStartChild = false)
    (he : Renderer.isSameVNode oldEndChild newEndChild = false) (fuel : Nat) (r : Renderer) :
    Renderer.patchChildrenLoop patchRec oldChildren newChildren container fuel c r =
      LoopOutcome.timeout c r := by
  induction fuel with
  | zero => simp [Renderer.patchChildrenLoop, hcond]
  | succ n ih =>
    rw [Renderer.patchChildrenLoop]
    simp only [hcond, and_self, if_true, h1, h2, h3, h4, hs, he]
    exact ih

/-- When the first children and the last children of two same-identity nodes
both fail the identity test, `patch` never returns: every budget runs out, with
only the attribute diff of the two nodes done. -/
theorem patch_stuck (oldNode newNode : VNode) (container : Handle) (r : Renderer)
    (oldStartChild oldEndChild newStartChild newEndChild : VNode)
    (hsame : Renderer.isSameVNode oldNode newNode = true)
    (h1 : childAt oldNode.children 0 = some oldStartChild)
    (h2 : childAt oldNode.children ((oldNode.children.length : Int) - 1) = some oldEndChild)
    (h3 : childAt newNode.children 0 = some newStartChild)
    (h4 : childAt newNode.children ((newNode.children.length : Int) - 1) = some newEndChild)
    (hs : Renderer.isSameVNode oldStartChild newStartChild = false)
    (he : Renderer.isSameVNode oldEndChild newEndChild = false) (fuel : Nat) :
    Renderer.patch (fuel + 1) oldNode newNode container r =
      PatchOutcome.timeout
        { (Renderer.elementOf oldNode r).2 with
          platform := Renderer.updateDOMElement (Renderer.elementOf oldNode r).1 oldNode.props
            newNode.props (Renderer.elementOf oldNode r).2.platform } := by
  have hold : 0 ≤ (oldNode.children.length : Int) - 1 := by
    cases hc : oldNode.children with
    | nil => simp [hc, childAt] at h1
    | cons a t => simp
  have hnew : 0 ≤ (newNode.children.length : Int) - 1 := by
    cases hc : newNode.children with
    | nil => simp [hc, childAt] at h3
    | cons a t => simp
  simp only [Renderer.patch, hsame, Renderer.patchChildren]
  rw [patchChildrenLoop_stuck _ _ _ _ _ oldStartChild oldEndChild newStartChild newEndChild
    ⟨hold, hnew⟩ h1 h2 h3 h4 hs he]
  simp

/-- C15, evaluated on the code. After mounting `ul[A(key=1), B(key=2), C(key=3)]`,
`patch` against `ul[C(key=3), A(key=1), B(key=2)]` does not complete for any
budget: `A`/`C` fail the identity test at the start cursors, `C`/`B` at the end
cursors, and the third branch of the loop changes nothing. No platform call is
made and the children of the `ul` element stay in the order `A`, `B`, `C`. -/
theorem key_stable_reorder_never_completes (fuel : Nat) :
    (Renderer.patch fuel rotationOld rotationNew 1
      (Renderer.mountNode rotationOld 1 freshRenderer)).isTimeout = true ∧
    (Renderer.patch fuel rotationOld rotationNew 1
      (Renderer.mountNode rotationOld 1 freshRenderer)).renderer.platform.calls =
      (Renderer.mountNode rotationOld 1 freshRenderer).platform.calls ∧
    ((Renderer.patch fuel rotationOld rotationNew 1
      (Renderer.mountNode rotationOld 1 freshRenderer)).renderer.platform.nodes 2).children =
      [3, 4, 5] := by
  cases fuel with
  | zero => decide
  | succ n =>
    rw [patch_stuck rotationOld rotationNew 1 _
      (vnode 2 "li" (some 1) [] [] "") (vnode 4 "li" (some 3) [] [] "")
      (vnode 6 "li" (some 3) [] [] "") (vnode 8 "li" (some 2) [] [] "")
      (by decide) rfl rfl rfl rfl (by decide) (by decide) n]
    decide

/-- C16, evaluated on the code. `patch` of `<div><span/></div>` against
`<div><p/></div>` does not run to completion for any budget: the only child
pair fails the identity test at both ends and the loop never moves a cursor. -/
theorem patch_single_child_never_completes (fuel : Nat) :
    (Renderer.patch fuel divSpan divP 1
      (Renderer.mountNode divSpan 1 freshRenderer)).isTimeout = true := by
  cases fuel with
  | zero => decide
  | succ n =>
    rw [patch_stuck divSpan divP 1 _
      (vnode 2 "span" none [] [] "") (vnode 2 "span" none [] [] "")
      (vnode 4 "p" none [] [] "") (vnode 4 "p" none [] [] "")
      (by decide) rfl rfl rfl rfl (by decide) (by decide) n]
    rfl

/-! ## Patch against a fresh mount -/

/-- C14, evaluated on the code. `<div><span id="a"/></div>` is mounted and then
patched against `<div><span id="b"/></div>`. `patch` returns, but the handle of
the `span` was never entered in `nodeToElement_` (mount registers the root
only), so the attribute is set on the null handle: the platform tree still has
`id="a"`, whereas mounting the new tree gives `id="b"`. -/
theorem patch_differs_from_fresh_mount :
    (Renderer.patch 3 spanA spanB 1 (Renderer.mountNode spanA 1 freshRenderer)).isOk = true ∧
    (Renderer.patch 3 spanA spanB 1
      (Renderer.mountNode spanA 1 freshRenderer)).renderer.platform.calls =
      (Renderer.mountNode spanA 1 freshRenderer).platform.calls ++
        [Call.setAttribute 0 "id" "b"] ∧
    (Renderer.patch 3 spanA spanB 1
      (Renderer.mountNode spanA 1 freshRenderer)).renderer.platform.outline 4 1 =
      ["<div>", "[", "<div>", "[", "<span>", "@id=a", "[", "]", "]", "]"] ∧
    (Renderer.mountNode spanB 1 freshRenderer).platform.outline 4 1 =
      ["<div>", "[", "<div>", "[", "<span>", "@id=b", "[", "]", "]", "]"] := by
  decide

/-! ## Patching a tree against a structurally equal one -/

theorem foldl_fixed {α β : Type} (f : β → α → β) (l : List α) (b : β)
    (h : ∀ x, x ∈ l → f b x = b) : l.foldl f b = b := by
  induction l with
  | nil => rfl
  | cons a t ih =>
    simp only [List.foldl_cons]
    rw [h a (List.mem_cons_self _ _)]
    exact ih (fun x hx => h x (List.mem_cons_of_mem _ hx))

theorem findProp_of_mem (props : List (String × String)) (kv : String × String)
    (hnodup : (props.map (fun x => x.1)).Nodup) (hmem : kv ∈ props) :
    findProp kv.1 props = some kv.2 := by
  induction props with
  | nil => simp at hmem
  | cons a t ih =>
    simp only [List.map_cons, List.nodup_cons] at hnodup
    rcases List.mem_cons.1 hmem with h | h
    · subst h
      simp [findProp]
    · have hne : a.1 ≠ kv.1 := by
        intro heq
        apply hnodup.1
        rw [heq]
        exact List.mem_map_of_mem (fun x => x.1) h
      have := ih hnodup.2 h
      simp only [findProp] at this ⊢
      rw [List.find?_cons_of_neg _ (by simpa using hne)]
      exact this

theorem updateDOMElement_self (element : Handle) (props : List (String × String))
    (p : Platform) (hnodup : (props.map (fun x => x.1)).Nodup) :
    Renderer.updateDOMElement element props props p = p := by
  unfold Renderer.updateDOMElement
  simp only
  rw [foldl_fixed _ props p]
  · apply foldl_fixed
    intro kv hkv
    simp [findProp_of_mem props kv hnodup hkv]
  · intro kv hkv
    simp [findProp_of_mem props kv hnodup hkv]

theorem shape_eq_fields (a b : VNode) (h : a.shape = b.shape) :
    a.tag = b.tag ∧ a.key = b.key ∧ a.props = b.props ∧
      VNode.shapeList a.children = VNode.shapeList b.children := by
  cases a with
  | mk a1 t1 k1 p1 c1 x1 =>
    cases b with
    | mk a2 t2 k2 p2 c2 x2 =>
      simp only [VNode.shape, VNode.mk.injEq] at h
      exact ⟨h.2.1, h.2.2.1, h.2.2.2.1, h.2.2.2.2.1⟩

theorem isSameVNode_of_shape (a b : VNode) (h : a.shape = b.shape) :
    Renderer.isSameVNode a b = true := by
  obtain ⟨ht, hk, _, _⟩ := shape_eq_fields a b h
  simp [Renderer.isSameVNode, ht, hk]

theorem size_pos (v : VNode) : 1 ≤ v.size := by
  cases v
  simp [VNode.size]

theorem length_le_sizeList (cs : List VNode) : cs.length ≤ VNode.sizeList cs := by
  induction cs with
  | nil => simp [VNode.sizeList]
  | cons c t ih =>
    have := size_pos c
    simp only [VNode.sizeList, List.length_cons]
    omega

theorem size_le_sizeList (cs : List VNode) (c : VNode) (h : c ∈ cs) :
    c.size ≤ VNode.sizeList cs := by
  induction cs with
  | nil => simp at h
  | cons a t ih =>
    simp only [VNode.sizeList]
    rcases List.mem_cons.1 h with h | h
    · subst h; omega
    · have := ih h; omega

theorem uniqueProps_of_mem (cs : List VNode) (c : VNode) (hu : VNode.uniquePropsList cs)
    (h : c ∈ cs) : c.uniqueProps := by
  induction cs with
  | nil => simp at h
  | cons a t ih =>
    simp only [VNode.uniquePropsList] at hu
    rcases List.mem_cons.1 h with h | h
    · subst h; exact hu.1
    · exact ih hu.2 h

theorem childAt_append_length (pre suf : List VNode) (a : VNode) :
    childAt (pre ++ a :: suf) (pre.length : Int) = some a := by
  have h : (pre ++ a :: suf).get? pre.length = some a := by
    induction pre with
    | nil => rfl
    | cons b t ih => simpa using ih
  simpa [childAt] using h

theorem childAt_last (l : List VNode) (h : l ≠ []) :
    ∃ x, childAt l ((l.length : Int) - 1) = some x := by
  have hlen : 0 < l.length := List.length_pos.2 h
  have h0 : (0 : Int) ≤ (l.length : Int) - 1 := by omega
  have h1 : ((l.length : Int) - 1).toNat < l.length := by omega
  refine ⟨l.get ⟨_, h1⟩, ?_⟩
  simp only [childAt, h0, if_true]
  exact List.get?_eq_get h1

theorem patchChildrenLoop_same_shape
    (patchRec : VNode → VNode → Handle → Renderer → PatchOutcome) (container : Handle)
    (suf : List VNode) :
    ∀ (suf1 pre pre1 : List VNode) (r : Renderer) (fuel : Nat),
      pre.length = pre1.length → VNode.shapeList suf = VNode.shapeList suf1 →
      suf.length ≤ fuel →
      (∀ c, c ∈ suf → ∀ c1 r1, c.shape = c1.shape →
        ∃ r2, patchRec c c1 container r1 = PatchOutcome.ok r2 ∧ r2.platform = r1.platform) →
      ∃ r1, Renderer.patchChildrenLoop patchRec (pre ++ suf) (pre1 ++ suf1) container fuel
          { oldStartIdx := pre.length, oldEndIdx := ((pre ++ suf).length : Int) - 1,
            newStartIdx := pre.length, newEndIdx := ((pre1 ++ suf1).length : Int) - 1 } r =
          LoopOutcome.ok
            { oldStartIdx := (pre ++ suf).length, oldEndIdx := ((pre ++ suf).length : Int) - 1,
              newStartIdx := (pre ++ suf).length,
              newEndIdx := ((pre1 ++ suf1).length : Int) - 1 } r1 ∧
        r1.platform = r.platform := by
  induction suf with
  | nil =>
    intro suf1 pre pre1 r fuel hlen hshape _ _
    cases suf1 with
    | cons a t => simp [VNode.shapeList] at hshape
    | nil =>
      refine ⟨r, ?_, rfl⟩
      cases fuel <;> simp [Renderer.patchChildrenLoop]
  | cons a suf ih =>
    intro suf1 pre pre1 r fuel hlen hshape hfuel hrec
    cases suf1 with
    | nil => simp [VNode.shapeList] at hshape
    | cons a1 suf1 =>
      simp only [VNode.shapeList, List.cons.injEq] at hshape
      cases fuel with
      | zero => simp at hfuel
      | succ n =>
        obtain ⟨r2, hp, hplat⟩ := hrec a (List.mem_cons_self _ _) a1 r hshape.1
        obtain ⟨x, hx⟩ := childAt_last (pre ++ a :: suf) (by simp)
        obtain ⟨y, hy⟩ := childAt_last (pre1 ++ a1 :: suf1) (by simp)
        have hcond : ((pre.length : Int) ≤ ((pre ++ a :: suf).length : Int) - 1) ∧
            ((pre.length : Int) ≤ ((pre1 ++ a1 :: suf1).length : Int) - 1) := by
          simp only [List.length_append, List.length_cons]
          constructor <;> omega
        have hnew : childAt (pre1 ++ a1 :: suf1) (pre.length : Int) = some a1 := by
          rw [hlen]; exact childAt_append_length pre1 suf1 a1
        rw [Renderer.patchChildrenLoop]
        simp only [hcond, and_self, if_true, childAt_append_length, hx, hy, hnew,
          isSameVNode_of_shape a a1 hshape.1, hp]
        have hih := ih suf1 (pre ++ [a]) (pre1 ++ [a1]) r2 n (by simp [hlen]) hshape.2
          (by simp at hfuel; omega)
          (fun c hc => hrec c (List.mem_cons_of_mem _ hc))
        simp only [List.append_assoc, List.singleton_append, List.length_append,
          List.length_singleton, List.length_cons, Nat.cast_add, Nat.cast_one] at hih ⊢
        obtain ⟨r3, h3, hplat3⟩ := hih
        exact ⟨r3, h3, hplat3.trans hplat⟩

theorem shapeList_length (cs cs1 : List VNode) (h : VNode.shapeList cs = VNode.shapeList cs1) :
    cs.length = cs1.length := by
  induction cs generalizing cs1 with
  | nil =>
    cases cs1 with
    | nil => rfl
    | cons a t => simp [VNode.shapeList] at h
  | cons a t ih =>
    cases cs1 with
    | nil => simp [VNode.shapeList] at h
    | cons a1 t1 =>
      simp only [VNode.shapeList, List.cons.injEq] at h
      simp [ih t1 h.2]

theorem patch_same_shape (n : Nat) :
    ∀ (oldNode newNode : VNode) (container : Handle) (r : Renderer) (fuel : Nat),
      oldNode.size ≤ n → oldNode.shape = newNode.shape → oldNode.uniqueProps →
      oldNode.size ≤ fuel →
      ∃ r1, Renderer.patch fuel oldNode newNode container r = PatchOutcome.ok r1 ∧
        r1.platform = r.platform := by
  induction n with
  | zero =>
    intro oldNode _ _ _ _ hsize
    have := size_pos oldNode
    omega
  | succ n ih =>
    intro oldNode newNode container r fuel hsize hshape huniq hfuel
    cases oldNode with
    | mk a t k p cs x =>
      cases newNode with
      | mk a1 t1 k1 p1 cs1 x1 =>
        have hsame := isSameVNode_of_shape _ _ hshape
        obtain ⟨_, _, hprops, hchildren⟩ := shape_eq_fields _ _ hshape
        simp only [VNode.props, VNode.children] at hprops hchildren
        subst hprops
        simp only [VNode.size] at hsize hfuel
        simp only [VNode.uniqueProps] at huniq
        cases fuel with
        | zero => omega
        | succ m =>
          have hlen := shapeList_length cs cs1 hchildren
          have hloop := patchChildrenLoop_same_shape (Renderer.patch m)
            (Renderer.elementOf (VNode.mk a t k p cs x) r).1 cs cs1 [] []
            { (Renderer.elementOf (VNode.mk a t k p cs x) r).2 with
              platform := Renderer.updateDOMElement
                (Renderer.elementOf (VNode.mk a t k p cs x) r).1
                p p (Renderer.elementOf (VNode.mk a t k p cs x) r).2.platform }
            m rfl hchildren (by have := length_le_sizeList cs; omega)
            (fun c hc c1 r1 hs =>
              ih c c1 _ r1 m (by have := size_le_sizeList cs c hc; omega) hs
                (uniqueProps_of_mem cs c huniq.2 hc)
                (by have := size_le_sizeList cs c hc; omega))
          obtain ⟨r2, h2, hplat2⟩ := hloop
          simp only [List.nil_append, List.length_nil, Nat.cast_zero] at h2
          have hz : ((cs1.length : Int) - 1 - (cs.length : Int) + 1).toNat = 0 := by
            rw [hlen]; simp
          have hz1 : ((cs.length : Int) - 1 - (cs.length : Int) + 1).toNat = 0 := by simp
          simp only [Renderer.patch, hsame, Bool.true_eq_false, if_false, Renderer.patchChildren,
            VNode.children, VNode.props, h2, hz, hz1, Renderer.appendRemaining,
            Renderer.removeRemaining]
          refine ⟨_, rfl, ?_⟩
          simp only
          rw [hplat2]
          simp only
          rw [updateDOMElement_self _ _ _ huniq.1, elementOf_platform]

/-- C20, mount-then-patch idempotence. Let `T` be a tree whose attribute maps
have unique names, mounted in `container`, and `T1` be structurally equal to
`T` (the same tree included). With a budget of at least the size of `T`,
`patch(T, T1, container)` returns and leaves the platform as the mount left it:
no call is added to the log (no `setAttribute`, `removeAttribute`,
`createElement`, `createTextNode`, `appendChild`, `insertBefore`,
`removeChild`) and the platform tree is unchanged. -/
theorem mount_then_patch_idempotent (T T1 : VNode) (container : Handle) (r : Renderer)
    (fuel : Nat) (hshape : T.shape = T1.shape) (huniq : T.uniqueProps)
    (hfuel : T.size ≤ fuel) :
    (Renderer.patch fuel T T container (Renderer.mountNode T container r)).isOk = true ∧
    (Renderer.patch fuel T T container (Renderer.mountNode T container r)).renderer.platform =
      (Renderer.mountNode T container r).platform ∧
    (Renderer.patch fuel T T1 container (Renderer.mountNode T container r)).isOk = true ∧
    (Renderer.patch fuel T T1 container (Renderer.mountNode T container r)).renderer.platform =
      (Renderer.mountNode T container r).platform ∧
    (Renderer.patch fuel T T1 container
      (Renderer.mountNode T container r)).renderer.platform.calls =
      (Renderer.mountNode T container r).platform.calls := by
  obtain ⟨r1, h1, hp1⟩ := patch_same_shape T.size T T container
    (Renderer.mountNode T container r) fuel (le_refl _) rfl huniq hfuel
  obtain ⟨r2, h2, hp2⟩ := patch_same_shape T.size T T1 container
    (Renderer.mountNode T container r) fuel (le_refl _) hshape huniq hfuel
  rw [h1, h2]
  exact ⟨rfl, hp1, rfl, hp2, by simp only [PatchOutcome.renderer]; rw [hp2]⟩

theorem mount_then_patch_idempotent_witness :
    spanA.shape = (vnode 11 "div" none [] [vnode 12 "span" none [("id", "a")] [] ""] "").shape ∧
    spanA.size = 2 ∧
    (Renderer.patch 2 spanA (vnode 11 "div" none [] [vnode 12 "span" none [("id", "a")] [] ""] "")
      1 (Renderer.mountNode spanA 1 freshRenderer)).isOk = true ∧
    (Renderer.patch 2 spanA (vnode 11 "div" none [] [vnode 12 "span" none [("id", "a")] [] ""] "")
      1 (Renderer.mountNode spanA 1 freshRenderer)).renderer.platform.calls =
      (Renderer.mountNode spanA 1 freshRenderer).platform.calls :=
  ⟨rfl, rfl,
    (mount_then_patch_idempotent spanA
      (vnode 11 "div" none [] [vnode 12 "span" none [("id", "a")] [] ""] "") 1 freshRenderer 2
      rfl (by simp [spanA, vnode, VNode.uniqueProps, VNode.uniquePropsList])
      (by decide)).2.2.1,
    (mount_then_patch_idempotent spanA
      (vnode 11 "div" none [] [vnode 12 "span" none [("id", "a")] [] ""] "") 1 freshRenderer 2
      rfl (by simp [spanA, vnode, VNode.uniqueProps, VNode.uniquePropsList])
      (by decide)).2.2.2.2⟩

/-! ## Mount and unmount against the reactive graph -/

theorem grows_refl (g : Graph) : Grows g g := fun _ _ h => h

theorem grows_trans {a b c : Graph} (h1 : Grows a b) (h2 : Grows b c) : Grows a c :=
  fun d e h => h2 d e (h1 d e h)

theorem grows_track (d : DepId) (g : Graph) : Grows g (DependencyTracker.track d g) := by
  cases ha : g.activeEffect with
  | none => rw [track_of_none d g ha]; exact grows_refl g
  | some e =>
    rw [track_of_some d e g ha]
    intro d1 e1 h
    simp only [Function.update_apply]
    split
    · rename_i hd
      subst hd
      rw [mem_setInsert]
      exact Or.inr h
    · exact h

theorem grows_eval (x : Expr) (g : Graph) : Grows g (Expr.eval x g).2 := by
  induction x generalizing g with
  | lit v => exact grows_refl g
  | deref r => exact grows_track r g
  | binop f a b iha ihb => exact grows_trans (iha g) (ihb _)
  | bind r k ih => exact grows_trans (grows_track r g) (ih _ _)

theorem exec_readOnly_grows (runE : EffId → Graph → Outcome) (c : Cmd) (g : Graph)
    (h : c.readOnly = true) : Grows g (Cmd.exec runE c g).graph := by
  induction c generalizing g with
  | skip => exact grows_refl g
  | eval x => exact grows_eval x g
  | track d => exact grows_track d g
  | seq a b iha ihb =>
    simp only [Cmd.readOnly, Bool.and_eq_true] at h
    obtain ⟨g1, h1, _⟩ := exec_readOnly runE a g h.1
    have ha := iha g h.1
    rw [h1] at ha
    simp only [Cmd.exec, h1]
    exact grows_trans ha (ihb g1 h.2)
  | ite c t f iht ihf =>
    simp only [Cmd.readOnly, Bool.and_eq_true] at h
    simp only [Cmd.exec]
    split
    · exact grows_trans (grows_eval c g) (iht _ h.1)
    · exact grows_trans (grows_eval c g) (ihf _ h.2)
  | assign r x => simp [Cmd.readOnly] at h
  | untrack => simp [Cmd.readOnly] at h
  | notify d => simp [Cmd.readOnly] at h
  | run e => simp [Cmd.readOnly] at h
  | cleanup e => simp [Cmd.readOnly] at h
  | raise err => simp [Cmd.readOnly] at h
  | tryCatch a b _ _ => simp [Cmd.readOnly] at h

theorem callHook_readOnly (fns : EffId → Cmd) (fuel : Nat) (callbacks : List Cmd) (g : Graph)
    (h : ∀ c, c ∈ callbacks → c.readOnly = true) :
    ∃ g1, LifecycleManager.callHook fns fuel callbacks g = Outcome.ok g1 ∧
      Quiet g g1 ∧ Grows g g1 := by
  induction callbacks generalizing g with
  | nil => exact ⟨g, rfl, quiet_refl g, grows_refl g⟩
  | cons c rest ih =>
    obtain ⟨g1, h1, q1⟩ := exec_readOnly (runEffect fns fuel) c g (h c (List.mem_cons_self _ _))
    have hg := exec_readOnly_grows (runEffect fns fuel) c g (h c (List.mem_cons_self _ _))
    rw [h1] at hg
    obtain ⟨g2, h2, q2, hg2⟩ := ih g1 (fun c1 hc1 => h c1 (List.mem_cons_of_mem _ hc1))
    exact ⟨g2, by simp only [LifecycleManager.callHook, h1, h2], quiet_trans q1 q2,
      grows_trans hg hg2⟩

theorem trackAll_quiet_grows (reads : List DepId) (g : Graph) :
    Quiet g (reads.foldl (fun g r => DependencyTracker.track r g) g) ∧
      Grows g (reads.foldl (fun g r => DependencyTracker.track r g) g) := by
  induction reads generalizing g with
  | nil => exact ⟨quiet_refl g, grows_refl g⟩
  | cons r rest ih =>
    simp only [List.foldl_cons]
    exact ⟨quiet_trans (quiet_track r g) (ih _).1, grows_trans (grows_track r g) (ih _).2⟩

theorem assign_count_succ (fns : EffId → Cmd) (fuel : Nat) (r : DepId) (e : EffId) (v : Int)
    (g : Graph) (he : e ∈ g.subscribers r) (hv : g.value r ≠ v)
    (hok : (Reactive.assign (runEffect fns fuel) r v g).isOk = true) :
    runCount e g + 1 ≤ runCount e (Reactive.assign (runEffect fns fuel) r v g).graph := by
  simp only [Reactive.assign, if_pos hv, Dependency.notify] at hok ⊢
  have h1 := forEachRun_count_succ fns fuel e (g.subscribers r)
    { g with value := Function.update g.value r v, trace := g.trace ++ [Event.notify r] }
    he hok
  have h2 := runCount_log e (Event.notify r) g
    { g with value := Function.update g.value r v, trace := g.trace ++ [Event.notify r] }
    rfl
  simp at h2
  omega

theorem unmount_graph (fns : EffId → Cmd) (fuel : Nat) (comp : Component) (w : World)
    (hbefore : ∀ c, c ∈ comp.hooks LifecycleHook.beforeUnmount → c.readOnly = true)
    (hafter : ∀ c, c ∈ comp.hooks LifecycleHook.unmounted → c.readOnly = true) :
    ∃ w1, Renderer.unmount fns fuel comp w = WorldOutcome.ok w1 ∧
      Quiet w.graph w1.graph ∧ Grows w.graph w1.graph := by
  obtain ⟨g1, h1, q1, hg1⟩ := callHook_readOnly fns fuel _ w.graph hbefore
  obtain ⟨q2, hg2⟩ := trackAll_quiet_grows comp.renderReads g1
  obtain ⟨g4, h4, q4, hg4⟩ := callHook_readOnly fns fuel _
    (comp.renderReads.foldl (fun g r => DependencyTracker.track r g) g1) hafter
  have hres : ∃ w1, Renderer.unmount fns fuel comp w = WorldOutcome.ok w1 ∧ w1.graph = g4 := by
    simp only [Renderer.unmount, h1, Component.render, h4]
    exact ⟨_, rfl, rfl⟩
  obtain ⟨w1, hw1, hgraph⟩ := hres
  refine ⟨w1, hw1, ?_, ?_⟩
  · rw [hgraph]; exact quiet_trans q1 (quiet_trans q2 q4)
  · rw [hgraph]; exact grows_trans hg1 (grows_trans hg2 hg4)

/-- C12 as stated fails. `counterComponent` owns the watcher, effect `0`, which
read the container `0`. The component is mounted and unmounted; the unmount
returns, and the watcher is still a subscriber of the container, so assigning
`5` to it runs the watcher once more. -/
theorem unmount_disposes_effects_counterexample :
    counterComponent.effects = [0] ∧
    (Renderer.mount watcherFns 1 counterComponent 1 watchedWorld).isOk = true ∧
    (Renderer.unmount watcherFns 1 counterComponent
      (Renderer.mount watcherFns 1 counterComponent 1 watchedWorld).world).isOk = true ∧
    (Renderer.unmount watcherFns 1 counterComponent
      (Renderer.mount watcherFns 1 counterComponent 1 watchedWorld).world).world.graph.subscribers
      0 = [0] ∧
    (Reactive.assign (runEffect watcherFns 1) 0 5
      (Renderer.unmount watcherFns 1 counterComponent
        (Renderer.mount watcherFns 1 counterComponent 1
          watchedWorld).world).world.graph).isOk = true ∧
    runCount 0 (Reactive.assign (runEffect watcherFns 1) 0 5
      (Renderer.unmount watcherFns 1 counterComponent
        (Renderer.mount watcherFns 1 counterComponent 1
          watchedWorld).world).world.graph).graph =
      runCount 0 (Renderer.unmount watcherFns 1 counterComponent
        (Renderer.mount watcherFns 1 counterComponent 1 watchedWorld).world).world.graph + 1 := by
  decide

/-- C12, as it holds of the code. `Renderer::unmount` does not dispose of the
effects of the component. When the component's before-unmount and unmounted
callbacks only read reactive values, `unmount` returns, every effect that was
in a subscriber set before is still in it afterwards and no value changed; so
for an effect `e` owned by the component that was subscribed to `r`, a later
write of a different value to `r` that returns has run `e` again. -/
theorem unmount_keeps_subscriptions (fns : EffId → Cmd) (fuel fuel2 : Nat) (comp : Component)
    (w : World)
    (hbefore : ∀ c, c ∈ comp.hooks LifecycleHook.beforeUnmount → c.readOnly = true)
    (hafter : ∀ c, c ∈ comp.hooks LifecycleHook.unmounted → c.readOnly = true) :
    (Renderer.unmount fns fuel comp w).isOk = true ∧
    (∀ d e, e ∈ w.graph.subscribers d →
      e ∈ (Renderer.unmount fns fuel comp w).world.graph.subscribers d) ∧
    (Renderer.unmount fns fuel comp w).world.graph.value = w.graph.value ∧
    (∀ e r v, e ∈ comp.effects → e ∈ w.graph.subscribers r → w.graph.value r ≠ v →
      (Reactive.assign (runEffect fns fuel2) r v
        (Renderer.unmount fns fuel comp w).world.graph).isOk = true →
      runCount e (Renderer.unmount fns fuel comp w).world.graph + 1 ≤
        runCount e (Reactive.assign (runEffect fns fuel2) r v
          (Renderer.unmount fns fuel comp w).world.graph).graph) := by
  obtain ⟨w1, h1, q1, hg1⟩ := unmount_graph fns fuel comp w hbefore hafter
  rw [h1]
  refine ⟨rfl, hg1, q1.1, ?_⟩
  intro e r v _ he hv hok
  have hv1 : w1.graph.value r ≠ v := by rw [q1.1]; exact hv
  exact assign_count_succ fns fuel2 r e v w1.graph (hg1 r e he) hv1 hok

theorem unmount_keeps_subscriptions_witness :
    (Renderer.unmount watcherFns 1 counterComponent
      (Renderer.mount watcherFns 1 counterComponent 1 watchedWorld).world).isOk = true ∧
    (Renderer.unmount watcherFns 1 counterComponent
      (Renderer.mount watcherFns 1 counterComponent 1 watchedWorld).world).world.graph.value =
      (Renderer.mount watcherFns 1 counterComponent 1 watchedWorld).world.graph.value :=
  ⟨(unmount_keeps_subscriptions watcherFns 1 1 counterComponent
      (Renderer.mount watcherFns 1 counterComponent 1 watchedWorld).world
      (by decide) (by decide)).1,
    (unmount_keeps_subscriptions watcherFns 1 1 counterComponent
      (Renderer.mount watcherFns 1 counterComponent 1 watchedWorld).world
      (by decide) (by decide)).2.2.1⟩

theorem eval_fst (x : Expr) (g : Graph) : (Expr.eval x g).1 = x.value g.value := by
  induction x generalizing g with
  | lit v => rfl
  | deref r => rfl
  | binop f a b iha ihb =>
    simp only [Expr.eval, Expr.value, iha, ihb, (quiet_eval a g).1]
  | bind r k ih =>
    simp only [Expr.eval, Expr.value, Reactive.deref]
    rw [ih, (quiet_track r g).1]

theorem value_congr (x : Expr) (v1 v2 : DepId → Int)
    (h : ∀ r, r ∈ x.reads v1 → v1 r = v2 r) :
    x.value v1 = x.value v2 ∧ x.reads v1 = x.reads v2 := by
  induction x with
  | lit v => exact ⟨rfl, rfl⟩
  | deref r => exact ⟨h r (by simp [Expr.reads]), rfl⟩
  | binop f a b iha ihb =>
    obtain ⟨a1, a2⟩ := iha (fun r hr => h r (by simp [Expr.reads, hr]))
    obtain ⟨b1, b2⟩ := ihb (fun r hr => h r (by simp [Expr.reads, hr]))
    simp only [Expr.value, Expr.reads]
    rw [a1, a2, b1, b2]
    exact ⟨rfl, rfl⟩
  | bind r k ih =>
    have hr : v1 r = v2 r := h r (by simp [Expr.reads])
    obtain ⟨k1, k2⟩ := ih (v1 r) (fun r1 hr1 => h r1 (by simp [Expr.reads, hr1]))
    simp only [Expr.value, Expr.reads]
    rw [← hr, k1, k2]
    exact ⟨rfl, rfl⟩

theorem eval_subscribes (x : Expr) (g : Graph) (e : EffId) (ha : g.activeEffect = some e) :
    ∀ r, r ∈ x.reads g.value → e ∈ (Expr.eval x g).2.subscribers r := by
  induction x generalizing g with
  | lit v => intro r hr; simp [Expr.reads] at hr
  | deref d =>
    intro r hr
    simp only [Expr.reads, List.mem_singleton] at hr
    subst hr
    simp only [Expr.eval, Reactive.deref]
    rw [track_of_some r e g ha]
    simp [mem_setInsert]
  | binop f a b iha ihb =>
    intro r hr
    simp only [Expr.reads, List.mem_append] at hr
    simp only [Expr.eval]
    rcases hr with hr | hr
    · exact grows_eval b _ r e (iha g ha r hr)
    · rw [← (quiet_eval a g).1] at hr
      exact ihb _ ((quiet_eval a g).2.1.trans ha) r hr
  | bind d k ih =>
    intro r hr
    simp only [Expr.reads, List.mem_cons] at hr
    simp only [Expr.eval, Reactive.deref]
    rcases hr with hr | hr
    · subst hr
      apply grows_eval
      rw [track_of_some r e g ha]
      simp [mem_setInsert]
    · have hr2 : r ∈ (k (g.value d)).reads (DependencyTracker.track d g).value := by
        rw [(quiet_track d g).1]
        exact hr
      exact ih _ _ ((quiet_track d g).2.1.trans ha) r hr2

theorem computed_preserved (c : DepId) (ec : EffId) (x : Expr) (g g1 : Graph)
    (hgrow : ∀ r, ec ∈ g.subscribers r → ec ∈ g1.subscribers r) (hval : g1.value = g.value) :
    ComputedFresh c ec x g → ComputedFresh c ec x g1 := by
  rintro ⟨h1, h2⟩
  refine ⟨?_, ?_⟩
  · intro r hr
    rw [hval] at hr
    exact hgrow r (h1 r hr)
  · rw [hval]
    exact h2

theorem cleanup_keeps_member (e e1 : EffId) (g : Graph) (d : DepId) (hne : e1 ≠ e)
    (h : e1 ∈ g.subscribers d) : e1 ∈ (Effect.cleanup e g).subscribers d := by
  rw [cleanup_subscribers]
  split
  · rw [mem_setErase]; exact ⟨h, hne⟩
  · exact h

theorem forEachRun_keeps (c : DepId) (ec : EffId) (x : Expr)
    (runE : EffId → Graph → Outcome) (hK : KeepsComputed c ec x runE) (es : List EffId)
    (g g1 : Graph) (h : forEachRun runE es g = Outcome.ok g1) :
    (ec ∈ es → ComputedFresh c ec x g1) ∧
    (ComputedFresh c ec x g → ComputedFresh c ec x g1) := by
  induction es generalizing g with
  | nil =>
    simp only [forEachRun, Outcome.ok.injEq] at h
    subst h
    exact ⟨fun hm => by simp at hm, id⟩
  | cons e t ih =>
    simp only [forEachRun] at h
    cases hr : runE e g with
    | ok g2 =>
      rw [hr] at h
      obtain ⟨k1, k3⟩ := hK e g g2 hr
      obtain ⟨i1, i3⟩ := ih g2 h
      refine ⟨?_, fun hf => i3 (k3 hf)⟩
      intro hm
      rcases List.mem_cons.1 hm with hm | hm
      · exact i3 (k1 hm.symm)
      · exact i1 hm
    | raised err g2 => rw [hr] at h; cases h
    | timeout g2 => rw [hr] at h; cases h

theorem notify_keeps (c : DepId) (ec : EffId) (x : Expr)
    (runE : EffId → Graph → Outcome) (hK : KeepsComputed c ec x runE) (d : DepId)
    (g g1 : Graph) (h : Dependency.notify runE d g = Outcome.ok g1) :
    (ec ∈ g.subscribers d → ComputedFresh c ec x g1) ∧
    (ComputedFresh c ec x g → ComputedFresh c ec x g1) :=
  forEachRun_keeps c ec x runE hK (g.subscribers d)
    { g with trace := g.trace ++ [Event.notify d] } g1 h

theorem assign_keeps (c : DepId) (ec : EffId) (x : Expr)
    (runE : EffId → Graph → Outcome) (hK : KeepsComputed c ec x runE) (r : DepId) (v : Int)
    (g g1 : Graph) (hr : r ≠ c) (h : Reactive.assign runE r v g = Outcome.ok g1) :
    ComputedFresh c ec x g → ComputedFresh c ec x g1 := by
  unfold Reactive.assign at h
  split at h
  · obtain ⟨n1, n3⟩ := notify_keeps c ec x runE hK r
      { g with value := Function.update g.value r v } g1 h
    intro hf
    by_cases hread : r ∈ x.reads g.value
    · exact n1 (hf.1 r hread)
    · apply n3
      obtain ⟨hv, hreads⟩ := value_congr x g.value (Function.update g.value r v) (by
        intro r1 hr1
        have hne : r1 ≠ r := by
          intro hc
          rw [hc] at hr1
          exact hread hr1
        rw [Function.update_noteq hne])
      refine ⟨?_, ?_⟩
      · intro r1 hr1
        exact hf.1 r1 (by rw [hreads]; exact hr1)
      · show Function.update g.value r v c = x.value (Function.update g.value r v)
        rw [Function.update_noteq (fun hc => hr hc.symm), hf.2]
        exact hv
  · simp only [Outcome.ok.injEq] at h
    subst h
    exact id

theorem exec_keeps (c : DepId) (ec : EffId) (x : Expr)
    (runE : EffId → Graph → Outcome) (hK : KeepsComputed c ec x runE) (cmd : Cmd)
    (hcmd : cmd.leavesAlone c ec = true) (g g1 : Graph)
    (h : Cmd.exec runE cmd g = Outcome.ok g1) :
    ComputedFresh c ec x g → ComputedFresh c ec x g1 := by
  induction cmd generalizing g g1 with
  | skip =>
    simp only [Cmd.exec, Outcome.ok.injEq] at h
    subst h
    exact id
  | eval y =>
    simp only [Cmd.exec, Outcome.ok.injEq] at h
    subst h
    exact computed_preserved c ec x g _ (fun r => grows_eval y g r ec) (quiet_eval y g).1
  | assign r y =>
    simp only [Cmd.leavesAlone, bne_iff_ne, ne_eq] at hcmd
    simp only [Cmd.exec] at h
    have a2 := assign_keeps c ec x runE hK r _ _ g1 hcmd h
    have e2 := computed_preserved c ec x g _ (fun r => grows_eval y g r ec)
      (quiet_eval y g).1
    exact fun hf => a2 (e2 hf)
  | track d =>
    simp only [Cmd.exec, Outcome.ok.injEq] at h
    subst h
    exact computed_preserved c ec x g _ (fun r => grows_track d g r ec) (quiet_track d g).1
  | untrack =>
    simp only [Cmd.exec, Outcome.ok.injEq] at h
    subst h
    exact computed_preserved c ec x g _ (fun _ hm => hm) rfl
  | notify d =>
    simp only [Cmd.exec] at h
    exact (notify_keeps c ec x runE hK d g g1 h).2
  | run e =>
    simp only [Cmd.exec] at h
    exact (hK e g g1 h).2
  | cleanup e =>
    simp only [Cmd.leavesAlone, bne_iff_ne, ne_eq] at hcmd
    simp only [Cmd.exec, Outcome.ok.injEq] at h
    subst h
    exact computed_preserved c ec x g _
      (fun r hm => cleanup_keeps_member e ec g r (fun hc => hcmd hc.symm) hm)
      (cleanup_value e g)
  | raise err => simp [Cmd.exec] at h
  | seq a b iha ihb =>
    simp only [Cmd.leavesAlone, Bool.and_eq_true] at hcmd
    simp only [Cmd.exec] at h
    cases ha : Cmd.exec runE a g with
    | ok g2 =>
      rw [ha] at h
      have a2 := iha hcmd.1 g g2 ha
      have b2 := ihb hcmd.2 g2 g1 h
      exact fun hf => b2 (a2 hf)
    | raised err g2 => rw [ha] at h; cases h
    | timeout g2 => rw [ha] at h; cases h
  | ite y t f iht ihf =>
    simp only [Cmd.leavesAlone, Bool.and_eq_true] at hcmd
    simp only [Cmd.exec] at h
    have e2 := computed_preserved c ec x g _ (fun r => grows_eval y g r ec)
      (quiet_eval y g).1
    split at h
    · have t2 := iht hcmd.1 _ g1 h
      exact fun hf => t2 (e2 hf)
    · have f2 := ihf hcmd.2 _ g1 h
      exact fun hf => f2 (e2 hf)
  | tryCatch a b _ _ => simp [Cmd.leavesAlone] at hcmd

theorem run_computed_fresh (c : DepId) (ec : EffId) (x : Expr)
    (runE : EffId → Graph → Outcome) (hK : KeepsComputed c ec x runE)
    (hself : ∀ values, c ∉ x.reads values) (g g1 : Graph)
    (h : Effect.run (Cmd.exec runE (Computed.body c x)) ec g = Outcome.ok g1) :
    ComputedFresh c ec x g1 := by
  simp only [Effect.run, Computed.body, Cmd.exec] at h
  have hq := (quiet_eval x (Effect.install ec (Effect.cleanup ec g))).1
  have hsub : ∀ r, r ∈ x.reads (Effect.install ec (Effect.cleanup ec g)).value →
      ec ∈ (Expr.eval x (Effect.install ec (Effect.cleanup ec g))).2.subscribers r :=
    eval_subscribes x _ ec rfl
  have hv := eval_fst x (Effect.install ec (Effect.cleanup ec g))
  cases hb : Reactive.assign runE c (Expr.eval x (Effect.install ec (Effect.cleanup ec g))).1
      (Expr.eval x (Effect.install ec (Effect.cleanup ec g))).2 with
  | ok g3 =>
    rw [hb] at h
    simp only [Outcome.ok.injEq] at h
    subst h
    have hfresh : ComputedFresh c ec x g3 := by
      unfold Reactive.assign at hb
      split at hb
      · apply (notify_keeps c ec x runE hK c _ g3 hb).2
        obtain ⟨hcv, hcr⟩ := value_congr x
          (Expr.eval x (Effect.install ec (Effect.cleanup ec g))).2.value
          (Function.update (Expr.eval x (Effect.install ec (Effect.cleanup ec g))).2.value c
            (Expr.eval x (Effect.install ec (Effect.cleanup ec g))).1) (by
          intro r hr
          have hne : r ≠ c := by
            intro hc
            rw [hc] at hr
            exact hself _ hr
          rw [Function.update_noteq hne])
        refine ⟨?_, ?_⟩
        · intro r hr
          dsimp only at hr ⊢
          rw [← hcr, hq] at hr
          exact hsub r hr
        · dsimp only
          rw [Function.update_same]
          refine hv.trans (Eq.trans ?_ hcv)
          rw [hq]
      · rename_i heq
        simp only [Outcome.ok.injEq] at hb
        subst hb
        refine ⟨?_, ?_⟩
        · intro r hr
          rw [hq] at hr
          exact hsub r hr
        · have heq1 := not_not.1 heq
          rw [heq1, hv, ← hq]
    exact hfresh
  | raised err g3 => rw [hb] at h; simp at h
  | timeout g3 => rw [hb] at h; simp at h

theorem run_other_keeps (c : DepId) (ec : EffId) (x : Expr)
    (runE : EffId → Graph → Outcome) (hK : KeepsComputed c ec x runE) (e : EffId) (body : Cmd)
    (hne : e ≠ ec) (hbody : body.leavesAlone c ec = true) (g g1 : Graph)
    (h : Effect.run (Cmd.exec runE body) e g = Outcome.ok g1) :
    ComputedFresh c ec x g → ComputedFresh c ec x g1 := by
  simp only [Effect.run] at h
  have c2 := computed_preserved c ec x g (Effect.install e (Effect.cleanup e g))
    (fun r hm => cleanup_keeps_member e ec g r (fun hc => hne hc.symm) hm) (cleanup_value e g)
  cases hb : Cmd.exec runE body (Effect.install e (Effect.cleanup e g)) with
  | ok g3 =>
    rw [hb] at h
    simp only [Outcome.ok.injEq] at h
    subst h
    have b2 := exec_keeps c ec x runE hK body hbody _ g3 hb
    exact fun hf => b2 (c2 hf)
  | raised err g3 => rw [hb] at h; simp at h
  | timeout g3 => rw [hb] at h; simp at h

theorem runEffect_keeps (fns : EffId → Cmd) (c : DepId) (ec : EffId) (x : Expr)
    (hbody : fns ec = Computed.body c x) (hself : ∀ values, c ∉ x.reads values)
    (hothers : ∀ e, e ≠ ec → (fns e).leavesAlone c ec = true) (fuel : Nat) :
    KeepsComputed c ec x (runEffect fns fuel) := by
  induction fuel with
  | zero =>
    intro e g g1 h
    simp [runEffect] at h
  | succ n ih =>
    intro e g g1 h
    simp only [runEffect] at h
    by_cases he : e = ec
    · subst he
      rw [hbody] at h
      have hf := run_computed_fresh c e x _ ih hself g g1 h
      exact ⟨fun _ => hf, fun _ => hf⟩
    · have k2 := run_other_keeps c ec x _ ih e (fns e) he (hothers e he) g g1 h
      exact ⟨fun h1 => absurd h1 he, k2⟩

/-- C11 as stated fails. Two computed values `c1 = *r` and `c2 = *r` each have a
watcher that throws when the value it reads is not zero. Assigning `5` to `r`
recomputes the computed value iterated first, whose watcher throws; the
assignment raises and the other computed value is not recomputed: reading it
returns `0`, while its getter evaluates to `5` on the current state. This
holds for either iteration order of the subscribers of `r`. -/
theorem computed_value_is_current_counterexample :
    (Reactive.assign (runEffect computedFns 3) 0 5 (computedStart 0 1)).isRaised 7 = true ∧
    (Reactive.deref 2
      (Reactive.assign (runEffect computedFns 3) 0 5 (computedStart 0 1)).graph).1 = 0 ∧
    (Expr.deref 0).value
      (Reactive.assign (runEffect computedFns 3) 0 5 (computedStart 0 1)).graph.value = 5 ∧
    (Reactive.assign (runEffect computedFns 3) 0 5 (computedStart 1 0)).isRaised 7 = true ∧
    (Reactive.deref 1
      (Reactive.assign (runEffect computedFns 3) 0 5 (computedStart 1 0)).graph).1 = 0 ∧
    (Expr.deref 0).value
      (Reactive.assign (runEffect computedFns 3) 0 5 (computedStart 1 0)).graph.value = 5 := by
  decide

/-- C11, as it holds of the code. The getter `x` is any function of the
containers that only reads: it reads a container, and what it reads next and
what it returns may depend on every value read so far (`Expr.bind`), so the
set of containers read differs from state to state. Let the computed value
with container `c` and getter `x` (which never reads `c`) have the effect
`ec`, and let no other wrapped function assign to `c`, clean `ec` up or catch
an exception. If the construction (`createEffect`) returns normally, the
computed value is up to date: `ec` is subscribed to every container `x` reads
on the current state, which are the containers read in its last evaluation,
and `c` holds the value of `x` on the current state. If it is up to date and
the assignment of any value to another container, read in the last evaluation
or not, returns normally, it is up to date again. When it is up to date,
reading `c` yields the value of `x` on the current state, and the read enters
no wrapped function (the getter is not invoked again). -/
theorem computed_value_is_current (fns : EffId → Cmd) (fuel : Nat) (c : DepId) (ec : EffId)
    (x : Expr) (hbody : fns ec = Computed.body c x) (hself : ∀ values, c ∉ x.reads values)
    (hothers : ∀ e, e ≠ ec → (fns e).leavesAlone c ec = true) :
    (∀ g, (createEffect fns fuel ec g).isOk = true →
      ComputedFresh c ec x (createEffect fns fuel ec g).graph) ∧
    (∀ g r v, ComputedFresh c ec x g → r ≠ c →
      (Reactive.assign (runEffect fns fuel) r v g).isOk = true →
      ComputedFresh c ec x (Reactive.assign (runEffect fns fuel) r v g).graph) ∧
    (∀ g, ComputedFresh c ec x g →
      (Reactive.deref c g).1 = x.value (Reactive.deref c g).2.value ∧
      ∀ e, runCount e (Reactive.deref c g).2 = runCount e g) := by
  have hK := runEffect_keeps fns c ec x hbody hself hothers
  refine ⟨?_, ?_, ?_⟩
  · intro g hok
    unfold createEffect at hok ⊢
    cases hr : runEffect fns fuel ec g with
    | ok g1 => exact (hK fuel ec g g1 hr).1 rfl
    | raised err g1 => rw [hr] at hok; simp [Outcome.isOk] at hok
    | timeout g1 => rw [hr] at hok; simp [Outcome.isOk] at hok
  · intro g r v hf hr hok
    cases ha : Reactive.assign (runEffect fns fuel) r v g with
    | ok g1 => exact assign_keeps c ec x _ (hK fuel) r v g g1 hr ha hf
    | raised err g1 => rw [ha] at hok; simp [Outcome.isOk] at hok
    | timeout g1 => rw [ha] at hok; simp [Outcome.isOk] at hok
  · intro g hf
    simp only [Reactive.deref]
    refine ⟨?_, (quiet_track c g).2.2⟩
    rw [(quiet_track c g).1]
    exact hf.2

theorem switchFns_leavesAlone (e : EffId) (he : e ≠ 0) :
    (switchFns e).leavesAlone 3 0 = true := by
  match e, he with
  | 0, h => exact absurd rfl h
  | 1, _ => rfl
  | _ + 2, _ => rfl

theorem switchGetter_reads (values : DepId → Int) : 3 ∉ switchGetter.reads values := by
  unfold switchGetter
  simp only [Expr.reads]
  split <;> simp [Expr.reads]

theorem computed_value_is_current_witness :
    ((createEffect switchFns 3 0 (createEffect switchFns 3 1 switchStart).graph).isOk = true ∧
      (Reactive.deref 3 switchBuilt).1 = 10 ∧
      switchGetter.reads switchBuilt.value = [2, 0] ∧
      ComputedFresh 3 0 switchGetter switchBuilt) ∧
    ((Reactive.assign (runEffect switchFns 3) 2 0 switchBuilt).isOk = true ∧
      (Reactive.deref 3 switchFlipped).1 = 20 ∧
      switchGetter.reads switchFlipped.value = [2, 1] ∧
      ComputedFresh 3 0 switchGetter switchFlipped) ∧
    ((Reactive.assign (runEffect switchFns 3) 1 7 switchFlipped).isOk = true ∧
      (Reactive.deref 3
        (Reactive.assign (runEffect switchFns 3) 1 7 switchFlipped).graph).1 = 7 ∧
      ComputedFresh 3 0 switchGetter
        (Reactive.assign (runEffect switchFns 3) 1 7 switchFlipped).graph) :=
  ⟨⟨by decide, by decide, by decide,
      (computed_value_is_current switchFns 3 3 0 switchGetter rfl switchGetter_reads
        switchFns_leavesAlone).1 (createEffect switchFns 3 1 switchStart).graph (by decide)⟩,
    ⟨by decide, by decide, by decide,
      (computed_value_is_current switchFns 3 3 0 switchGetter rfl switchGetter_reads
        switchFns_leavesAlone).2.1 switchBuilt 2 0
        ((computed_value_is_current switchFns 3 3 0 switchGetter rfl switchGetter_reads
          switchFns_leavesAlone).1 (createEffect switchFns 3 1 switchStart).graph (by decide))
        (by decide) (by decide)⟩,
    ⟨by decide, by decide,
      (computed_value_is_current switchFns 3 3 0 switchGetter rfl switchGetter_reads
        switchFns_leavesAlone).2.1 switchFlipped 1 7
        ((computed_value_is_current switchFns 3 3 0 switchGetter rfl switchGetter_reads
          switchFns_leavesAlone).2.1 switchBuilt 2 0
          ((computed_value_is_current switchFns 3 3 0 switchGetter rfl switchGetter_reads
            switchFns_leavesAlone).1 (createEffect switchFns 3 1 switchStart).graph
            (by decide))
          (by decide) (by decide))
        (by decide) (by decide)⟩⟩

/-! ## Depth-first construction -/

theorem setAttributes_fold (element : Handle) (props : List (String × String)) (p : Platform) :
    (props.foldl (fun acc kv => Platform.setAttribute element kv.1 kv.2 acc) p).calls =
        p.calls ++ props.map (fun kv => Call.setAttribute element kv.1 kv.2) ∧
      (props.foldl (fun acc kv => Platform.setAttribute element kv.1 kv.2 acc) p).next =
        p.next := by
  induction props generalizing p with
  | nil => simp
  | cons kv rest ih =>
    obtain ⟨h1, h2⟩ := ih (Platform.setAttribute element kv.1 kv.2 p)
    simp only [List.foldl_cons, List.map_cons]
    rw [h1, h2]
    simp [Platform.setAttribute]

mutual
theorem createDOMElement_depthFirst :
    ∀ (v : VNode) (p : Platform),
      (Renderer.createDOMElement v p).2.calls = p.calls ++ v.depthFirstCalls p.next ∧
        (Renderer.createDOMElement v p).2.next = p.next + v.builtCount
  | .mk _ tag _ props children text, p => by
    unfold Renderer.createDOMElement VNode.depthFirstCalls VNode.builtCount
    split
    · exact ⟨rfl, rfl⟩
    · obtain ⟨s1, s2⟩ := setAttributes_fold (Platform.createElement tag p).1 props
        (Platform.createElement tag p).2
      obtain ⟨c1, c2⟩ := createChildren_depthFirst (Platform.createElement tag p).1 children
        (props.foldl (fun acc kv =>
          Platform.setAttribute (Platform.createElement tag p).1 kv.1 kv.2 acc)
          (Platform.createElement tag p).2)
      simp only
      rw [c1, c2, s1, s2]
      simp only [Platform.createElement, List.append_assoc, List.singleton_append,
        List.cons_append, List.nil_append]
      exact ⟨trivial, Nat.add_assoc _ _ _⟩
theorem createChildren_depthFirst :
    ∀ (element : Handle) (children : List VNode) (p : Platform),
      (Renderer.createChildren element children p).calls =
          p.calls ++ VNode.depthFirstChildren element children p.next ∧
        (Renderer.createChildren element children p).next =
          p.next + VNode.builtCountList children
  | _, [], p => by simp [Renderer.createChildren, VNode.depthFirstChildren, VNode.builtCountList]
  | element, child :: rest, p => by
    obtain ⟨d1, d2⟩ := createDOMElement_depthFirst child p
    obtain ⟨c1, c2⟩ := createChildren_depthFirst element rest
      (Platform.appendChild element (Renderer.createDOMElement child p).1
        (Renderer.createDOMElement child p).2)
    rw [Renderer.createChildren, c1, c2]
    simp only [Platform.appendChild, d1, d2, createDOMElement_fst, VNode.depthFirstChildren,
      VNode.builtCountList, List.append_assoc, List.singleton_append]
    exact ⟨trivial, Nat.add_assoc _ _ _⟩
end

theorem countP_setAttributes (q : Call → Bool) (element : Handle) (b : Bool)
    (hq : ∀ k v, q (Call.setAttribute element k v) = b) (props : List (String × String)) :
    (props.map (fun kv => Call.setAttribute element kv.1 kv.2)).countP q =
      if b then props.length else 0 := by
  induction props with
  | nil => simp
  | cons kv rest ih =>
    rw [List.map_cons, List.countP_cons, ih, hq]
    cases b <;> simp

mutual
theorem depthFirstCalls_counts :
    ∀ (v : VNode) (h : Handle), v.textLeaves →
      (v.depthFirstCalls h).countP Call.isCreateElement = v.elementCount ∧
        (v.depthFirstCalls h).countP Call.isCreateTextNode = v.textCount ∧
        (v.depthFirstCalls h).countP Call.isSetAttribute = v.attributeCount ∧
        (v.depthFirstCalls h).countP Call.isAppendChild + 1 = v.size
  | .mk _ tag _ props children text, h, hleaf => by
    unfold VNode.textLeaves at hleaf
    unfold VNode.depthFirstCalls VNode.elementCount VNode.textCount VNode.attributeCount
      VNode.size
    by_cases htag : tag = ""
    · rw [hleaf.1 htag]
      simp [htag, VNode.elementCountList, VNode.textCountList, VNode.attributeCountList,
        VNode.sizeList, Call.isCreateElement, Call.isCreateTextNode, Call.isSetAttribute,
        Call.isAppendChild]
    · obtain ⟨c1, c2, c3, c4⟩ := depthFirstChildren_counts h children (h + 1) hleaf.2
      simp only [htag, if_false, List.countP_cons, List.countP_append, c1, c2, c3, c4]
      rw [countP_setAttributes Call.isCreateElement h false (fun _ _ => rfl),
        countP_setAttributes Call.isCreateTextNode h false (fun _ _ => rfl),
        countP_setAttributes Call.isSetAttribute h true (fun _ _ => rfl),
        countP_setAttributes Call.isAppendChild h false (fun _ _ => rfl)]
      simp only [Call.isCreateElement, Call.isCreateTextNode, Call.isSetAttribute,
        Call.isAppendChild, if_true, Bool.false_eq_true, if_false]
      refine ⟨?_, ?_, ?_, ?_⟩ <;> omega
theorem depthFirstChildren_counts :
    ∀ (parent : Handle) (cs : List VNode) (next : Handle), VNode.textLeavesList cs →
      (VNode.depthFirstChildren parent cs next).countP Call.isCreateElement =
          VNode.elementCountList cs ∧
        (VNode.depthFirstChildren parent cs next).countP Call.isCreateTextNode =
          VNode.textCountList cs ∧
        (VNode.depthFirstChildren parent cs next).countP Call.isSetAttribute =
          VNode.attributeCountList cs ∧
        (VNode.depthFirstChildren parent cs next).countP Call.isAppendChild =
          VNode.sizeList cs
  | _, [], _, _ => by
    simp [VNode.depthFirstChildren, VNode.elementCountList, VNode.textCountList,
      VNode.attributeCountList, VNode.sizeList]
  | parent, c :: cs, next, hleaf => by
    unfold VNode.textLeavesList at hleaf
    obtain ⟨d1, d2, d3, d4⟩ := depthFirstCalls_counts c next hleaf.1
    obtain ⟨c1, c2, c3, c4⟩ :=
      depthFirstChildren_counts parent cs (next + VNode.builtCount c) hleaf.2
    unfold VNode.depthFirstChildren VNode.elementCountList VNode.textCountList
      VNode.attributeCountList VNode.sizeList
    simp only [List.countP_cons, List.countP_append, c1, c2, c3, c4, d1, d2, d3,
      Call.isCreateElement, Call.isCreateTextNode, Call.isSetAttribute, Call.isAppendChild,
      if_true, Bool.false_eq_true, if_false]
    refine ⟨?_, ?_, ?_, ?_⟩ <;> omega
end

/-- C25, depth-first construction. For every tree `T` and platform state,
`createDOMElement(T)` returns the first fresh handle `h`, and the calls it adds
to the log are exactly the depth-first construction of `T` from `h`: the first
call creates `h` for the root (`createTextNode(content)` for a text node,
`createElement(tag)` for an element node), an element node then gets one
`setAttribute` per attribute entry on its own handle, then each child in
child-sequence order is built and followed by `appendChild(handle, childHandle)`.
When the text nodes of `T` are leaves, that log holds one `createElement` per
element node, one `createTextNode` per text node, one `setAttribute` per
attribute entry of the element nodes and one `appendChild` per non-root node. -/
theorem createDOMElement_depth_first (T : VNode) (p : Platform) :
    (Renderer.createDOMElement T p).1 = p.next ∧
    (Renderer.createDOMElement T p).2.calls = p.calls ++ T.depthFirstCalls p.next ∧
    (T.depthFirstCalls p.next).head? =
      some (if T.tag = "" then Call.createTextNode T.textContent p.next
        else Call.createElement T.tag p.next) ∧
    (T.textLeaves →
      (T.depthFirstCalls p.next).countP Call.isCreateElement = T.elementCount ∧
      (T.depthFirstCalls p.next).countP Call.isCreateTextNode = T.textCount ∧
      (T.depthFirstCalls p.next).countP Call.isSetAttribute = T.attributeCount ∧
      (T.depthFirstCalls p.next).countP Call.isAppendChild + 1 = T.size) := by
  refine ⟨createDOMElement_fst T p, (createDOMElement_depthFirst T p).1, ?_,
    depthFirstCalls_counts T p.next⟩
  cases T with
  | mk addr tag key props children text =>
    unfold VNode.depthFirstCalls
    by_cases htag : tag = "" <;> simp [htag, VNode.tag, VNode.textContent]

theorem createDOMElement_depth_first_witness :
    paragraph.textLeaves ∧
    (Renderer.createDOMElement paragraph (Platform.init 1)).2.calls =
      (Platform.init 1).calls ++
        [Call.createElement "p" 2, Call.setAttribute 2 "x" "y", Call.createTextNode "hello" 3,
          Call.appendChild 2 3] ∧
    (paragraph.depthFirstCalls (Platform.init 1).next).countP Call.isAppendChild + 1 =
      paragraph.size :=
  ⟨by simp [paragraph, vnode, VNode.textLeaves, VNode.textLeavesList],
    (createDOMElement_depth_first paragraph (Platform.init 1)).2.1,
    ((createDOMElement_depth_first paragraph (Platform.init 1)).2.2.2
      (by simp [paragraph, vnode, VNode.textLeaves, VNode.textLeavesList])).2.2.2⟩

/-! ## Mount: attachment and registration -/

mutual
theorem depthFirstCalls_handles :
    ∀ (v : VNode) (h : Handle) (c : Call), c ∈ v.depthFirstCalls h →
      ∀ x, x ∈ c.handles → h ≤ x
  | .mk _ tag _ props children text, h, c, hc => by
    unfold VNode.depthFirstCalls at hc
    by_cases htag : tag = ""
    · simp only [htag, if_true, List.mem_singleton] at hc
      subst hc
      intro x hx
      simp only [Call.handles, List.mem_singleton] at hx
      exact Nat.le_of_eq hx.symm
    · simp only [htag, if_false, List.mem_cons, List.mem_append, List.mem_map] at hc
      rcases hc with hc | ⟨kv, _, hc⟩ | hc
      · subst hc
        intro x hx
        simp only [Call.handles, List.mem_singleton] at hx
        exact Nat.le_of_eq hx.symm
      · subst hc
        intro x hx
        simp only [Call.handles, List.mem_singleton] at hx
        exact Nat.le_of_eq hx.symm
      · intro x hx
        rcases depthFirstChildren_handles h children (h + 1) c hc x hx with hp | hn
        · exact Nat.le_of_eq hp.symm
        · exact Nat.le_of_succ_le hn
theorem depthFirstChildren_handles :
    ∀ (parent : Handle) (cs : List VNode) (next : Handle) (c : Call),
      c ∈ VNode.depthFirstChildren parent cs next →
      ∀ x, x ∈ c.handles → x = parent ∨ next ≤ x
  | _, [], _, c, hc => by simp [VNode.depthFirstChildren] at hc
  | parent, child :: rest, next, c, hc => by
    unfold VNode.depthFirstChildren at hc
    simp only [List.mem_append, List.mem_cons] at hc
    intro x hx
    rcases hc with hc | hc | hc
    · exact Or.inr (depthFirstCalls_handles child next c hc x hx)
    · subst hc
      simp only [Call.handles, List.mem_cons, List.mem_singleton, List.not_mem_nil,
        or_false] at hx
      rcases hx with hx | hx
      · exact Or.inl hx
      · exact Or.inr (Nat.le_of_eq hx.symm)
    · rcases depthFirstChildren_handles parent rest (next + VNode.builtCount child) c hc x hx
        with hp | hn
      · exact Or.inl hp
      · exact Or.inr (Nat.le_trans (Nat.le_add_right _ _) hn)
end

mutual
theorem depthFirstCalls_appended :
    ∀ (v : VNode) (h parent child : Handle),
      Call.appendChild parent child ∈ v.depthFirstCalls h → h < child
  | .mk _ tag _ props children text, h, parent, child, hc => by
    unfold VNode.depthFirstCalls at hc
    by_cases htag : tag = ""
    · simp [htag] at hc
    · simp only [htag, if_false, List.mem_cons, List.mem_append, List.mem_map] at hc
      rcases hc with hc | ⟨kv, _, hc⟩ | hc
      · cases hc
      · cases hc
      · exact depthFirstChildren_appended h children (h + 1) parent child hc
theorem depthFirstChildren_appended :
    ∀ (element : Handle) (cs : List VNode) (next parent child : Handle),
      Call.appendChild parent child ∈ VNode.depthFirstChildren element cs next → next ≤ child
  | _, [], _, _, _, hc => by simp [VNode.depthFirstChildren] at hc
  | element, c :: rest, next, parent, child, hc => by
    unfold VNode.depthFirstChildren at hc
    simp only [List.mem_append, List.mem_cons] at hc
    rcases hc with hc | hc | hc
    · exact Nat.le_of_lt (depthFirstCalls_appended c next parent child hc)
    · cases hc
      exact Nat.le_refl _
    · exact Nat.le_trans (Nat.le_add_right _ _)
        (depthFirstChildren_appended element rest (next + VNode.builtCount c) parent child hc)
end

theorem mount_renderer (fns : EffId → Cmd) (fuel : Nat) (comp : Component) (container : Handle)
    (w : World) (g1 : Graph)
    (hbefore : LifecycleManager.callHook fns fuel (comp.hooks LifecycleHook.beforeMount)
      w.graph = Outcome.ok g1) :
    (Renderer.mount fns fuel comp container w).world.renderer =
      Renderer.logged (Call.hook LifecycleHook.mounted)
        (Renderer.mountNode (comp.render { w with graph := g1 }).1 container
          (Renderer.logged Call.render
            (Renderer.logged (Call.hook LifecycleHook.beforeMount) w.renderer))) := by
  simp only [Renderer.mount, hbefore, Component.render]
  split <;> rfl

theorem logged_calls (c : Call) (r : Renderer) :
    (Renderer.logged c r).platform.calls = r.platform.calls ++ [c] := rfl

theorem mountNode_registers (v : VNode) (container : Handle) (r : Renderer) :
    (Renderer.mountNode v container r).platform.calls =
        r.platform.calls ++ v.depthFirstCalls r.platform.next ++
          [Call.appendChild container r.platform.next] ∧
      (Renderer.logged (Call.hook LifecycleHook.mounted)
        (Renderer.mountNode v container r)).nodeToElement v.addr = some r.platform.next ∧
      (Renderer.logged (Call.hook LifecycleHook.mounted)
        (Renderer.mountNode v container r)).elementToNode r.platform.next = some (some v) := by
  have hfst := createDOMElement_fst v r.platform
  have hbuilt := (createDOMElement_depthFirst v r.platform).1
  refine ⟨?_, ?_, ?_⟩
  · simp only [Renderer.mountNode, Platform.appendChild, hbuilt, hfst]
  · simp only [Renderer.logged, Renderer.mountNode, hfst, Function.update_same]
  · simp only [Renderer.logged, Renderer.mountNode, hfst, Function.update_same]

/-- C26, mount attaches and registers. Let the before-mount callbacks return,
`n` be the root node `render` returns and `h` the first fresh handle of the
platform. Then `createDOMElement(n)` returns `h`, and the log of `mount` is the
earlier log, the hook and the `render` call, the depth-first construction of the
subtree of `n` at `h`, then `appendChild(container, h)`, then the hook
`mounted`; `appendChild(container, h)` occurs exactly once in it; and
afterwards `n` maps to `h` and `h` maps to `n`. -/
theorem mount_attaches_and_registers (fns : EffId → Cmd) (fuel : Nat) (comp : Component)
    (container : Handle) (w : World) (g1 : Graph)
    (hbefore : LifecycleManager.callHook fns fuel (comp.hooks LifecycleHook.beforeMount)
      w.graph = Outcome.ok g1) :
    (Renderer.createDOMElement (comp.render { w with graph := g1 }).1
      (Renderer.logged Call.render
        (Renderer.logged (Call.hook LifecycleHook.beforeMount) w.renderer)).platform).1 =
      w.renderer.platform.next ∧
    (Renderer.mount fns fuel comp container w).world.renderer.platform.calls =
      w.renderer.platform.calls ++
        ([Call.hook LifecycleHook.beforeMount, Call.render] ++
          (comp.render { w with graph := g1 }).1.depthFirstCalls w.renderer.platform.next ++
          [Call.appendChild container w.renderer.platform.next,
            Call.hook LifecycleHook.mounted]) ∧
    ([Call.hook LifecycleHook.beforeMount, Call.render] ++
        (comp.render { w with graph := g1 }).1.depthFirstCalls w.renderer.platform.next ++
        [Call.appendChild container w.renderer.platform.next,
          Call.hook LifecycleHook.mounted]).count
      (Call.appendChild container w.renderer.platform.next) = 1 ∧
    (Renderer.mount fns fuel comp container w).world.renderer.nodeToElement
      (comp.render { w with graph := g1 }).1.addr = some w.renderer.platform.next ∧
    (Renderer.mount fns fuel comp container w).world.renderer.elementToNode
      w.renderer.platform.next = some (some (comp.render { w with graph := g1 }).1) := by
  rw [mount_renderer fns fuel comp container w g1 hbefore]
  obtain ⟨hcalls, hn2e, he2n⟩ := mountNode_registers (comp.render { w with graph := g1 }).1
    container
    (Renderer.logged Call.render
      (Renderer.logged (Call.hook LifecycleHook.beforeMount) w.renderer))
  have hnext : (Renderer.logged Call.render
      (Renderer.logged (Call.hook LifecycleHook.beforeMount) w.renderer)).platform.next =
      w.renderer.platform.next := rfl
  have hlog : (Renderer.logged Call.render
      (Renderer.logged (Call.hook LifecycleHook.beforeMount) w.renderer)).platform.calls =
      w.renderer.platform.calls ++ [Call.hook LifecycleHook.beforeMount, Call.render] := by
    simp [Renderer.logged]
  rw [hnext] at hcalls hn2e he2n
  rw [hlog] at hcalls
  refine ⟨createDOMElement_fst _ _, ?_, ?_, hn2e, he2n⟩
  · rw [logged_calls, hcalls]
    simp only [List.append_assoc, List.cons_append, List.nil_append, List.singleton_append]
  · have hzero : List.count (Call.appendChild container w.renderer.platform.next)
        ((comp.render { w with graph := g1 }).1.depthFirstCalls w.renderer.platform.next) = 0 := by
      apply List.count_eq_zero_of_not_mem
      intro hmem
      exact Nat.lt_irrefl _ (depthFirstCalls_appended _ _ _ _ hmem)
    simp [List.count_append, List.count_cons, hzero]

theorem mount_attaches_and_registers_witness :
    (Renderer.mount watcherFns 1 counterComponent 1 World.init).isOk = true ∧
    (Renderer.mount watcherFns 1 counterComponent 1 World.init).world.renderer.platform.calls =
      World.init.renderer.platform.calls ++
        ([Call.hook LifecycleHook.beforeMount, Call.render] ++
          (counterComponent.render { World.init with graph := World.init.graph }).1.depthFirstCalls
            World.init.renderer.platform.next ++
          [Call.appendChild 1 World.init.renderer.platform.next,
            Call.hook LifecycleHook.mounted]) ∧
    (Renderer.mount watcherFns 1 counterComponent 1 World.init).world.renderer.nodeToElement 1 =
      some 2 :=
  ⟨by decide,
    (mount_attaches_and_registers watcherFns 1 counterComponent 1 World.init World.init.graph
      rfl).2.1,
    (mount_attaches_and_registers watcherFns 1 counterComponent 1 World.init World.init.graph
      rfl).2.2.2.1⟩

/-! ## The calls a reconciliation can make -/

theorem adds_refl (Q : Call → Prop) (p : Platform) : Platform.Adds Q p p :=
  ⟨[], by simp, by simp⟩

theorem adds_trans {Q : Call → Prop} {p p1 p2 : Platform} (h1 : Platform.Adds Q p p1)
    (h2 : Platform.Adds Q p1 p2) : Platform.Adds Q p p2 := by
  obtain ⟨s1, e1, q1⟩ := h1
  obtain ⟨s2, e2, q2⟩ := h2
  refine ⟨s1 ++ s2, by rw [e2, e1, List.append_assoc], ?_⟩
  intro c hc
  rcases List.mem_append.1 hc with h | h
  · exact q1 c h
  · exact q2 c h

theorem adds_one {Q : Call → Prop} {p p1 : Platform} (c : Call)
    (h : p1.calls = p.calls ++ [c]) (hq : Q c) : Platform.Adds Q p p1 :=
  ⟨[c], h, by intro c1 hc1; rw [List.mem_singleton.1 hc1]; exact hq⟩

theorem childAt_mem (l : List VNode) (idx : Int) (c : VNode) (h : childAt l idx = some c) :
    c ∈ l := by
  unfold childAt at h
  split at h
  · exact List.get?_mem h
  · cases h

theorem addrs_of_mem (c : VNode) (cs : List VNode) (hc : c ∈ cs) (a : Nat) (ha : a ∈ c.addrs) :
    a ∈ VNode.addrsList cs := by
  induction cs with
  | nil => cases hc
  | cons d ds ih =>
    unfold VNode.addrsList
    rcases List.mem_cons.1 hc with h | h
    · subst h; exact List.mem_append_left _ ha
    · exact List.mem_append_right _ (ih h)

theorem addr_mem_addrs (v : VNode) : v.addr ∈ v.addrs := by
  cases v with
  | mk addr tag key props children text =>
    unfold VNode.addrs
    exact List.mem_cons_self _ _

theorem addrs_children (v : VNode) (a : Nat) (ha : a ∈ VNode.addrsList v.children) :
    a ∈ v.addrs := by
  cases v with
  | mk addr tag key props children text =>
    unfold VNode.addrs
    exact List.mem_cons_of_mem _ ha

mutual
theorem depthFirstCalls_rules (Q : Call → Prop) (K : Handle → Prop) (N : Nat)
    (rules : CallRules Q K N) :
    ∀ (v : VNode) (x : Handle), N ≤ x → ∀ c, c ∈ v.depthFirstCalls x → Q c
  | .mk _ tag _ props children text, x, hx, c, hc => by
    unfold VNode.depthFirstCalls at hc
    by_cases htag : tag = ""
    · simp only [htag, if_true, List.mem_singleton] at hc
      subst hc
      exact rules.createTextNode _ _ hx
    · simp only [htag, if_false, List.mem_cons, List.mem_append, List.mem_map] at hc
      rcases hc with hc | ⟨kv, _, hc⟩ | hc
      · subst hc; exact rules.createElement _ _ hx
      · subst hc; exact rules.setAttribute _ _ _
      · exact depthFirstChildren_rules Q K N rules x children (x + 1) (Nat.le_succ_of_le hx) c hc
theorem depthFirstChildren_rules (Q : Call → Prop) (K : Handle → Prop) (N : Nat)
    (rules : CallRules Q K N) :
    ∀ (parent : Handle) (cs : List VNode) (x : Handle), N ≤ x →
      ∀ c, c ∈ VNode.depthFirstChildren parent cs x → Q c
  | _, [], _, _, c, hc => by simp [VNode.depthFirstChildren] at hc
  | parent, child :: rest, x, hx, c, hc => by
    unfold VNode.depthFirstChildren at hc
    simp only [List.mem_append, List.mem_cons] at hc
    rcases hc with hc | hc | hc
    · exact depthFirstCalls_rules Q K N rules child x hx c hc
    · subst hc; exact rules.appendChild _ _ hx
    · exact depthFirstChildren_rules Q K N rules parent rest (x + VNode.builtCount child)
        (Nat.le_trans hx (Nat.le_add_right _ _)) c hc
end

theorem createDOMElement_rules {Q : Call → Prop} {K : Handle → Prop} {N : Nat}
    (rules : CallRules Q K N) (v : VNode) (p : Platform) (hN : N ≤ p.next) :
    Platform.Adds Q p (Renderer.createDOMElement v p).2 ∧
      N ≤ (Renderer.createDOMElement v p).2.next := by
  obtain ⟨h1, h2⟩ := createDOMElement_depthFirst v p
  refine ⟨⟨_, h1, depthFirstCalls_rules Q K N rules v p.next hN⟩, ?_⟩
  rw [h2]
  exact Nat.le_trans hN (Nat.le_add_right _ _)

theorem foldl_next (f : Platform → String × String → Platform)
    (hf : ∀ acc kv, (f acc kv).next = acc.next) (l : List (String × String)) (q : Platform) :
    (l.foldl f q).next = q.next := by
  induction l generalizing q with
  | nil => rfl
  | cons kv rest ih => rw [List.foldl_cons, ih, hf]

theorem updateDOMElement_next (element : Handle) (oldProps newProps : List (String × String))
    (p : Platform) : (Renderer.updateDOMElement element oldProps newProps p).next = p.next := by
  unfold Renderer.updateDOMElement
  simp only
  rw [foldl_next, foldl_next]
  · intro acc kv
    dsimp only
    split <;> rfl
  · intro acc kv
    dsimp only
    split
    · rfl
    · split <;> rfl

theorem updateDOMElement_rules {Q : Call → Prop} {K : Handle → Prop} {N : Nat}
    (rules : CallRules Q K N) (element : Handle) (oldProps newProps : List (String × String))
    (p : Platform) :
    Platform.Adds Q p (Renderer.updateDOMElement element oldProps newProps p) := by
  refine ⟨_, updateDOMElement_calls element oldProps newProps p, ?_⟩
  intro c hc
  simp only [List.mem_append, List.mem_map] at hc
  rcases hc with ⟨kv, _, hc⟩ | ⟨kv, _, hc⟩
  · subst hc; exact rules.removeAttribute _ _
  · subst hc; exact rules.setAttribute _ _ _

theorem elementOf_keeps {Q : Call → Prop} {K : Handle → Prop} {N : Nat}
    (rules : CallRules Q K N) (A : Nat → Prop) (node : VNode) (r : Renderer)
    (hkeep : Renderer.Keeps A K N r) :
    Renderer.Keeps A K N (Renderer.elementOf node r).2 ∧
      (A node.addr → K (Renderer.elementOf node r).1) := by
  unfold Renderer.elementOf
  cases hmap : r.nodeToElement node.addr with
  | some h => exact ⟨hkeep, fun hA => hkeep.2 _ _ hA hmap⟩
  | none =>
    refine ⟨⟨hkeep.1, ?_⟩, fun _ => rules.null⟩
    intro a x hA hx
    simp only [Function.update_apply] at hx
    split at hx
    · cases hx; exact rules.null
    · exact hkeep.2 a x hA hx

theorem appendRemaining_rules {Q : Call → Prop} {K : Handle → Prop} {N : Nat}
    (rules : CallRules Q K N) (A : Nat → Prop) (newChildren : List VNode) (container : Handle)
    (n : Nat) (idx : Int) (r : Renderer) (hkeep : Renderer.Keeps A K N r) :
    Renderer.Keeps A K N (Renderer.appendRemaining newChildren container n idx r).renderer ∧
      Platform.Adds Q r.platform
        (Renderer.appendRemaining newChildren container n idx r).renderer.platform := by
  induction n generalizing idx r with
  | zero => exact ⟨hkeep, adds_refl _ _⟩
  | succ n ih =>
    rw [Renderer.appendRemaining]
    cases hc : childAt newChildren idx with
    | none => exact ⟨hkeep, adds_refl _ _⟩
    | some newChild =>
      simp only
      obtain ⟨hadd, hnext⟩ := createDOMElement_rules rules newChild r.platform hkeep.1
      obtain ⟨k2, a2⟩ := ih (idx + 1)
        { r with
          platform := Platform.appendChild container
            (Renderer.createDOMElement newChild r.platform).1
            (Renderer.createDOMElement newChild r.platform).2 }
        ⟨hnext, hkeep.2⟩
      refine ⟨k2, adds_trans (adds_trans hadd ?_) a2⟩
      refine adds_one (Call.appendChild container (Renderer.createDOMElement newChild r.platform).1)
        rfl (rules.appendChild _ _ ?_)
      rw [createDOMElement_fst]
      exact hkeep.1

theorem removeRemaining_rules {Q : Call → Prop} {K : Handle → Prop} {N : Nat}
    (rules : CallRules Q K N) (A : Nat → Prop) (oldChildren : List VNode) (container : Handle)
    (hA : ∀ c, c ∈ oldChildren → A c.addr)
    (n : Nat) (idx : Int) (r : Renderer) (hkeep : Renderer.Keeps A K N r) :
    Renderer.Keeps A K N (Renderer.removeRemaining oldChildren container n idx r).renderer ∧
      Platform.Adds Q r.platform
        (Renderer.removeRemaining oldChildren container n idx r).renderer.platform := by
  induction n generalizing idx r with
  | zero => exact ⟨hkeep, adds_refl _ _⟩
  | succ n ih =>
    rw [Renderer.removeRemaining]
    cases hc : childAt oldChildren idx with
    | none => exact ⟨hkeep, adds_refl _ _⟩
    | some oldChild =>
      simp only
      obtain ⟨hk1, hK⟩ := elementOf_keeps rules A oldChild r hkeep
      obtain ⟨k2, a2⟩ := ih (idx + 1)
        { (Renderer.elementOf oldChild r).2 with
          platform := Platform.removeChild container (Renderer.elementOf oldChild r).1
            (Renderer.elementOf oldChild r).2.platform }
        ⟨hk1.1, hk1.2⟩
      refine ⟨k2, adds_trans ?_ a2⟩
      refine adds_one (Call.removeChild container (Renderer.elementOf oldChild r).1) ?_
        (rules.removeChild _ _ (hK (hA oldChild (childAt_mem _ _ _ hc))))
      simp only [Platform.removeChild, elementOf_platform]

theorem patchChildrenLoop_rules {Q : Call → Prop} {K : Handle → Prop} {N : Nat}
    (A : Nat → Prop) (patchRec : VNode → VNode → Handle → Renderer → PatchOutcome)
    (oldChildren newChildren : List VNode) (container : Handle)
    (hrec : ∀ o n c r, o ∈ oldChildren → n ∈ newChildren → Renderer.Keeps A K N r →
      Renderer.Keeps A K N (patchRec o n c r).renderer ∧
        Platform.Adds Q r.platform (patchRec o n c r).renderer.platform)
    (fuel : Nat) (c : Cursors) (r : Renderer) (hkeep : Renderer.Keeps A K N r) :
    Renderer.Keeps A K N
        (Renderer.patchChildrenLoop patchRec oldChildren newChildren container fuel c r).renderer ∧
      Platform.Adds Q r.platform
        (Renderer.patchChildrenLoop patchRec oldChildren newChildren container
          fuel c r).renderer.platform := by
  induction fuel generalizing c r with
  | zero =>
    rw [Renderer.patchChildrenLoop]
    split <;> exact ⟨hkeep, adds_refl _ _⟩
  | succ n ih =>
    rw [Renderer.patchChildrenLoop]
    split
    · split
      · rename_i oldStartChild oldEndChild newStartChild newEndChild h1 h2 h3 h4
        split
        · obtain ⟨k1, a1⟩ := hrec oldStartChild newStartChild container r
            (childAt_mem _ _ _ h1) (childAt_mem _ _ _ h3) hkeep
          split
          · rename_i r1 hr1
            rw [hr1] at k1 a1
            obtain ⟨k2, a2⟩ := ih
              { c with oldStartIdx := c.oldStartIdx + 1, newStartIdx := c.newStartIdx + 1 } r1 k1
            exact ⟨k2, adds_trans a1 a2⟩
          · rename_i r1 hr1
            rw [hr1] at k1 a1
            exact ⟨k1, a1⟩
          · rename_i r1 hr1
            rw [hr1] at k1 a1
            exact ⟨k1, a1⟩
        · split
          · obtain ⟨k1, a1⟩ := hrec oldEndChild newEndChild container r
              (childAt_mem _ _ _ h2) (childAt_mem _ _ _ h4) hkeep
            split
            · rename_i r1 hr1
              rw [hr1] at k1 a1
              obtain ⟨k2, a2⟩ := ih
                { c with oldEndIdx := c.oldEndIdx - 1, newEndIdx := c.newEndIdx - 1 } r1 k1
              exact ⟨k2, adds_trans a1 a2⟩
            · rename_i r1 hr1
              rw [hr1] at k1 a1
              exact ⟨k1, a1⟩
            · rename_i r1 hr1
              rw [hr1] at k1 a1
              exact ⟨k1, a1⟩
          · exact ih c r hkeep
      · exact ⟨hkeep, adds_refl _ _⟩
    · exact ⟨hkeep, adds_refl _ _⟩

theorem adds_from_elementOf {Q : Call → Prop} (node : VNode) (r : Renderer) (p1 : Platform)
    (h : Platform.Adds Q (Renderer.elementOf node r).2.platform p1) :
    Platform.Adds Q r.platform p1 := by
  obtain ⟨s, e, q⟩ := h
  exact ⟨s, by rw [e, elementOf_platform], q⟩

theorem patchChildren_rules {Q : Call → Prop} {K : Handle → Prop} {N : Nat}
    (rules : CallRules Q K N) (A : Nat → Prop)
    (patchRec : VNode → VNode → Handle → Renderer → PatchOutcome) (fuel : Nat)
    (oldNode newNode : VNode) (container : Handle) (r : Renderer)
    (hrec : ∀ o n c r, o ∈ oldNode.children → n ∈ newNode.children → Renderer.Keeps A K N r →
      Renderer.Keeps A K N (patchRec o n c r).renderer ∧
        Platform.Adds Q r.platform (patchRec o n c r).renderer.platform)
    (hA : ∀ c, c ∈ oldNode.children → A c.addr) (hkeep : Renderer.Keeps A K N r) :
    Renderer.Keeps A K N
        (Renderer.patchChildren patchRec fuel oldNode newNode container r).renderer ∧
      Platform.Adds Q r.platform
        (Renderer.patchChildren patchRec fuel oldNode newNode container r).renderer.platform := by
  unfold Renderer.patchChildren
  simp only
  obtain ⟨k1, a1⟩ := patchChildrenLoop_rules A patchRec oldNode.children newNode.children
    container hrec fuel
    { oldStartIdx := 0, oldEndIdx := (oldNode.children.length : Int) - 1,
      newStartIdx := 0, newEndIdx := (newNode.children.length : Int) - 1 } r hkeep
  cases hloop : Renderer.patchChildrenLoop patchRec oldNode.children newNode.children container
      fuel (Cursors.mk 0 ((oldNode.children.length : Int) - 1) 0
        ((newNode.children.length : Int) - 1)) r with
  | ok c r1 =>
    rw [hloop] at k1 a1
    simp only
    obtain ⟨k2, a2⟩ := appendRemaining_rules rules A newNode.children container
      (c.newEndIdx - c.newStartIdx + 1).toNat c.newStartIdx r1 k1
    cases happ : Renderer.appendRemaining newNode.children container
        (c.newEndIdx - c.newStartIdx + 1).toNat c.newStartIdx r1 with
    | ok r2 =>
      rw [happ] at k2 a2
      simp only
      obtain ⟨k3, a3⟩ := removeRemaining_rules rules A oldNode.children container hA
        (c.oldEndIdx - c.oldStartIdx + 1).toNat c.oldStartIdx r2 k2
      exact ⟨k3, adds_trans a1 (adds_trans a2 a3)⟩
    | timeout r2 =>
      rw [happ] at k2 a2
      exact ⟨k2, adds_trans a1 a2⟩
    | outOfRange r2 =>
      rw [happ] at k2 a2
      exact ⟨k2, adds_trans a1 a2⟩
  | timeout c r1 =>
    rw [hloop] at k1 a1
    exact ⟨k1, a1⟩
  | outOfRange r1 =>
    rw [hloop] at k1 a1
    exact ⟨k1, a1⟩

theorem patch_rules {Q : Call → Prop} {K : Handle → Prop} {N : Nat}
    (rules : CallRules Q K N) (A : Nat → Prop) (fuel : Nat) :
    ∀ (oldNode newNode : VNode) (container : Handle) (r : Renderer),
      (∀ a, a ∈ oldNode.addrs → A a) → (∀ a, a ∈ newNode.addrs → A a) →
      Renderer.Keeps A K N r →
      Renderer.Keeps A K N (Renderer.patch fuel oldNode newNode container r).renderer ∧
        Platform.Adds Q r.platform
          (Renderer.patch fuel oldNode newNode container r).renderer.platform := by
  induction fuel with
  | zero =>
    intro oldNode newNode container r _ _ hkeep
    exact ⟨hkeep, adds_refl _ _⟩
  | succ n ih =>
    intro oldNode newNode container r hold hnew hkeep
    obtain ⟨hk1, hK⟩ := elementOf_keeps rules A oldNode r hkeep
    have hKold := hK (hold _ (addr_mem_addrs oldNode))
    rw [Renderer.patch]
    split
    · obtain ⟨hadd, hnext⟩ := createDOMElement_rules rules newNode
        (Renderer.elementOf oldNode r).2.platform hk1.1
      have hfresh : N ≤ (Renderer.createDOMElement newNode
          (Renderer.elementOf oldNode r).2.platform).1 := by
        rw [createDOMElement_fst]; exact hk1.1
      refine ⟨⟨hnext, ?_⟩, ?_⟩
      · intro a x hA hx
        simp only [PatchOutcome.renderer, Function.update_apply] at hx
        split at hx
        · cases hx; exact rules.fresh _ hfresh
        · split at hx
          · cases hx
          · exact hk1.2 a x hA hx
      · refine adds_trans (adds_from_elementOf _ _ _ hadd) (adds_trans (adds_one _ rfl
          (rules.insertBefore container _ _ hfresh hKold)) (adds_one _ rfl
            (rules.removeChild container _ hKold)))
    · have hk2 : Renderer.Keeps A K N
          { (Renderer.elementOf oldNode r).2 with
            platform := Renderer.updateDOMElement (Renderer.elementOf oldNode r).1
              oldNode.props newNode.props (Renderer.elementOf oldNode r).2.platform } :=
        ⟨by simp only [updateDOMElement_next]; exact hk1.1, hk1.2⟩
      have ha2 := updateDOMElement_rules rules (Renderer.elementOf oldNode r).1
        oldNode.props newNode.props (Renderer.elementOf oldNode r).2.platform
      obtain ⟨k3, a3⟩ := patchChildren_rules rules A (Renderer.patch n) n oldNode newNode
        (Renderer.elementOf oldNode r).1 _
        (fun o c1 c r1 ho hc hk =>
          ih o c1 c r1
            (fun a ha => hold a (addrs_children oldNode a (addrs_of_mem o _ ho a ha)))
            (fun a ha => hnew a (addrs_children newNode a (addrs_of_mem c1 _ hc a ha))) hk)
        (fun c hc => hold _ (addrs_children oldNode _
          (addrs_of_mem c _ hc _ (addr_mem_addrs c)))) hk2
      have ha3 := adds_from_elementOf _ _ _ (adds_trans ha2 a3)
      simp only
      split
      · rename_i r2 hr2
        rw [hr2] at k3 ha3
        refine ⟨⟨k3.1, ?_⟩, ha3⟩
        intro a x hA hx
        simp only [PatchOutcome.renderer, Function.update_apply] at hx
        split at hx
        · cases hx; exact hKold
        · exact k3.2 a x hA hx
      · exact ⟨k3, ha3⟩

theorem replaces_rules (h : Handle) (N : Nat) (hnz : h ≠ 0) (hlive : h < N) :
    CallRules (fun c => c.replaces h = false) (fun x => x ≠ h) N where
  null := fun e => hnz e.symm
  fresh := fun x hx e => Nat.lt_irrefl h (by rw [e] at hx; exact Nat.lt_of_lt_of_le hlive hx)
  createElement := fun tag x hx => by
    have hne : x ≠ h := fun e => Nat.lt_irrefl h (by rw [e] at hx; exact Nat.lt_of_lt_of_le hlive hx)
    simp [Call.replaces, hne]
  createTextNode := fun text x hx => by
    have hne : x ≠ h := fun e => Nat.lt_irrefl h (by rw [e] at hx; exact Nat.lt_of_lt_of_le hlive hx)
    simp [Call.replaces, hne]
  setAttribute := fun _ _ _ => rfl
  removeAttribute := fun _ _ => rfl
  appendChild := fun _ _ _ => rfl
  insertBefore := fun p n ref hn href => by
    have hne : n ≠ h := fun e => Nat.lt_irrefl h (by rw [e] at hn; exact Nat.lt_of_lt_of_le hlive hn)
    simp [Call.replaces, hne, href]
  removeChild := fun p c hc => by simp [Call.replaces, hc]

theorem patch_same_unfold (fuel : Nat) (oldNode newNode : VNode) (container h : Handle)
    (r : Renderer) (hmap : r.nodeToElement oldNode.addr = some h)
    (htag : oldNode.tag = newNode.tag) (hkey : oldNode.key = newNode.key) :
    Renderer.patch (fuel + 1) oldNode newNode container r =
      match Renderer.patchChildren (Renderer.patch fuel) fuel oldNode newNode h
          { r with
            platform := Renderer.updateDOMElement h oldNode.props newNode.props r.platform } with
      | .ok r2 =>
        .ok { r2 with
          nodeToElement := Function.update r2.nodeToElement newNode.addr (some h)
          elementToNode := Function.update r2.elementToNode h (some (some newNode)) }
      | o => o := by
  have hsame : Renderer.isSameVNode oldNode newNode = true := by
    simp [Renderer.isSameVNode, htag, hkey]
  rw [Renderer.patch]
  simp only [hsame, Bool.true_eq_false, if_false, elementOf_of_some oldNode r h hmap]

/-- Same-identity patch, in the runs that return. Let `oldNode` be mapped to the
handle `h` and `newNode` have the same tag and key. Whenever `patch` returns,
`newNode` maps to `h` and `h` maps to `newNode`; it returns when neither node
has children. When `h` is a live, non-null handle that no descendant of the two
nodes is mapped to, then whatever comes of the children, no call that `patch`
adds to the log creates `h`, inserts `h` or inserts before `h`
(`insertBefore`), or removes `h` from its parent (`removeChild`): the calls for
the node itself are the attribute diff on `h`. -/
theorem patch_reuses_element (fuel : Nat) (oldNode newNode : VNode) (container h : Handle)
    (r : Renderer) (hmap : r.nodeToElement oldNode.addr = some h)
    (htag : oldNode.tag = newNode.tag) (hkey : oldNode.key = newNode.key) :
    (∀ r1, Renderer.patch (fuel + 1) oldNode newNode container r = PatchOutcome.ok r1 →
      r1.nodeToElement newNode.addr = some h ∧ r1.elementToNode h = some (some newNode)) ∧
    (oldNode.children = [] → newNode.children = [] →
      (Renderer.patch (fuel + 1) oldNode newNode container r).isOk = true) ∧
    (h ≠ 0 → h < r.platform.next →
      (∀ a, a ∈ VNode.addrsList oldNode.children ++ VNode.addrsList newNode.children →
        r.nodeToElement a ≠ some h) →
      ∃ added,
        (Renderer.patch (fuel + 1) oldNode newNode container r).renderer.platform.calls =
          r.platform.calls ++ added ∧
        ∀ c, c ∈ added → c.replaces h = false) := by
  rw [patch_same_unfold fuel oldNode newNode container h r hmap htag hkey]
  refine ⟨?_, ?_, ?_⟩
  · intro r1 hr1
    split at hr1
    · cases hr1
      exact ⟨Function.update_same _ _ _, Function.update_same _ _ _⟩
    · rename_i o hne
      exact absurd hr1 (hne r1)
  · intro hold hnew
    cases fuel <;>
      simp [Renderer.patchChildren, hold, hnew, Renderer.patchChildrenLoop,
        Renderer.appendRemaining, Renderer.removeRemaining, PatchOutcome.isOk]
  · intro hnz hlive hdesc
    have rules := replaces_rules h r.platform.next hnz hlive
    have hk : Renderer.Keeps
        (fun a => a ∈ VNode.addrsList oldNode.children ++ VNode.addrsList newNode.children)
        (fun x => x ≠ h) r.platform.next
        { r with
          platform := Renderer.updateDOMElement h oldNode.props newNode.props r.platform } := by
      refine ⟨by simp only [updateDOMElement_next]; exact Nat.le_refl _, ?_⟩
      intro a x hA hx e
      rw [e] at hx
      exact hdesc a hA hx
    obtain ⟨_, a3⟩ := patchChildren_rules rules _ (Renderer.patch fuel) fuel oldNode newNode h _
      (fun o c1 c r1 ho hc hkeep =>
        patch_rules rules _ fuel o c1 c r1
          (fun a ha => List.mem_append_left _ (addrs_of_mem o _ ho a ha))
          (fun a ha => List.mem_append_right _ (addrs_of_mem c1 _ hc a ha)) hkeep)
      (fun c hc => List.mem_append_left _ (addrs_of_mem c _ hc _ (addr_mem_addrs c))) hk
    have ha := adds_trans
      (updateDOMElement_rules rules h oldNode.props newNode.props r.platform) a3
    split
    · rename_i r2 hr2
      rw [hr2] at ha
      exact ha
    · exact ha

theorem patch_reuses_element_witness :
    listTwoMounted.nodeToElement listTwo.addr = some 2 ∧
    (Renderer.patch 5 listTwo listThree 1 listTwoMounted).isOk = true ∧
    (Renderer.patch 5 listTwo listThree 1 listTwoMounted).renderer.nodeToElement
      listThree.addr = some 2 ∧
    (∃ added,
      (Renderer.patch 5 listTwo listThree 1 listTwoMounted).renderer.platform.calls =
        listTwoMounted.platform.calls ++ added ∧
      ∀ c, c ∈ added → c.replaces 2 = false) :=
  ⟨by decide, by decide,
    ((patch_reuses_element 4 listTwo listThree 1 2 listTwoMounted (by decide) rfl rfl).1
      (Renderer.patch 5 listTwo listThree 1 listTwoMounted).renderer rfl).1,
    (patch_reuses_element 4 listTwo listThree 1 2 listTwoMounted (by decide) rfl rfl).2.2
      (by decide) (by decide) (by decide)⟩

/-- C22, evaluated on the code. `<div><span/></div>` is mounted, its root mapped
to the handle `2`, and patched against `<div><p/></div>`, whose root has the
same tag and key. For no budget does `patch` return: the child pair fails the
identity test at both ends and the loop of `patchChildren` never moves a
cursor, so the two assignments after `patchChildren` are never executed. The
new root is left without an entry in `nodeToElement_`, and the handle `2`
still maps to the old root. -/
theorem same_identity_patch_never_remaps (fuel : Nat) :
    (Renderer.mountNode divSpan 1 freshRenderer).nodeToElement divSpan.addr = some 2 ∧
    Renderer.isSameVNode divSpan divP = true ∧
    (Renderer.patch fuel divSpan divP 1 (Renderer.mountNode divSpan 1 freshRenderer)).isOk =
      false ∧
    (Renderer.patch fuel divSpan divP 1
      (Renderer.mountNode divSpan 1 freshRenderer)).renderer.nodeToElement divP.addr = none ∧
    ((Renderer.patch fuel divSpan divP 1
      (Renderer.mountNode divSpan 1 freshRenderer)).renderer.elementToNode 2).map
        (Option.map VNode.addr) = some (some divSpan.addr) := by
  refine ⟨by decide, by decide, ?_⟩
  cases fuel with
  | zero => decide
  | succ n =>
    rw [patch_stuck divSpan divP 1 _
      (vnode 2 "span" none [] [] "") (vnode 2 "span" none [] [] "")
      (vnode 4 "p" none [] [] "") (vnode 4 "p" none [] [] "")
      (by decide) rfl rfl rfl rfl (by decide) (by decide) n]
    decide

/-! ## Lifecycle hooks around mount, update and unmount -/

theorem hookFree_rules : CallRules (fun c => c.isHook = false) (fun _ => True) 0 where
  null := trivial
  fresh := fun _ _ => trivial
  createElement := fun _ _ _ => rfl
  createTextNode := fun _ _ _ => rfl
  setAttribute := fun _ _ _ => rfl
  removeAttribute := fun _ _ => rfl
  appendChild := fun _ _ _ => rfl
  insertBefore := fun _ _ _ _ _ => rfl
  removeChild := fun _ _ _ => rfl

theorem patch_hookFree (fuel : Nat) (oldNode newNode : VNode) (container : Handle)
    (r : Renderer) :
    Platform.Adds (fun c => c.isHook = false) r.platform
      (Renderer.patch fuel oldNode newNode container r).renderer.platform :=
  (patch_rules hookFree_rules (fun _ => True) fuel oldNode newNode container r
    (fun _ _ => trivial) (fun _ _ => trivial) ⟨Nat.zero_le _, fun _ _ _ _ => trivial⟩).2

theorem nodeOf_platform (element : Handle) (r : Renderer) :
    (Renderer.nodeOf element r).2.platform = r.platform := by
  unfold Renderer.nodeOf
  split <;> rfl

theorem unmount_renderer (fns : EffId → Cmd) (fuel : Nat) (comp : Component) (w : World)
    (g1 : Graph)
    (hbefore : LifecycleManager.callHook fns fuel (comp.hooks LifecycleHook.beforeUnmount)
      w.graph = Outcome.ok g1) :
    (Renderer.unmount fns fuel comp w).world.renderer =
      Renderer.logged (Call.hook LifecycleHook.unmounted)
        (Renderer.unmountNode (comp.render { w with graph := g1 }).1
          (Renderer.logged Call.render
            (Renderer.logged (Call.hook LifecycleHook.beforeUnmount) w.renderer))) := by
  simp only [Renderer.unmount, hbefore, Component.render]
  split <;> rfl

theorem unmountNode_calls (v : VNode) (r : Renderer) :
    (Renderer.unmountNode v r).platform.calls =
      r.platform.calls ++
        [Call.getParentNode (Renderer.elementOf v r).1
            (Platform.getParentNode (Renderer.elementOf v r).1 r.platform).1,
          Call.removeChild (Platform.getParentNode (Renderer.elementOf v r).1 r.platform).1
            (Renderer.elementOf v r).1] := by
  simp [Renderer.unmountNode, Platform.removeChild, Platform.getParentNode, elementOf_platform]

theorem mount_bracket (fns : EffId → Cmd) (fuel : Nat) (comp : Component) (container : Handle)
    (w w1 : World) (h : Renderer.mount fns fuel comp container w = WorldOutcome.ok w1) :
    Bracketed LifecycleHook.beforeMount LifecycleHook.mounted w.renderer w1.renderer := by
  cases hb : LifecycleManager.callHook fns fuel (comp.hooks LifecycleHook.beforeMount)
      w.graph with
  | ok g1 =>
    have hr := mount_renderer fns fuel comp container w g1 hb
    rw [h] at hr
    obtain ⟨hcalls, _, _⟩ := mountNode_registers (comp.render { w with graph := g1 }).1 container
      (Renderer.logged Call.render
        (Renderer.logged (Call.hook LifecycleHook.beforeMount) w.renderer))
    refine ⟨Call.render ::
      ((comp.render { w with graph := g1 }).1.depthFirstCalls w.renderer.platform.next ++
        [Call.appendChild container w.renderer.platform.next]), _, hr, ?_, ?_⟩
    · rw [hcalls]
      simp [Renderer.logged]
    · intro c hc
      simp only [List.mem_cons, List.mem_append, List.mem_singleton, List.not_mem_nil,
        or_false] at hc
      rcases hc with hc | hc | hc
      · subst hc; rfl
      · exact depthFirstCalls_rules _ _ _ hookFree_rules _ _ (Nat.zero_le _) c hc
      · subst hc; rfl
  | raised err g1 => simp [Renderer.mount, hb] at h
  | timeout g1 => simp [Renderer.mount, hb] at h

theorem unmount_bracket (fns : EffId → Cmd) (fuel : Nat) (comp : Component)
    (w w1 : World) (h : Renderer.unmount fns fuel comp w = WorldOutcome.ok w1) :
    Bracketed LifecycleHook.beforeUnmount LifecycleHook.unmounted w.renderer w1.renderer := by
  cases hb : LifecycleManager.callHook fns fuel (comp.hooks LifecycleHook.beforeUnmount)
      w.graph with
  | ok g1 =>
    have hr := unmount_renderer fns fuel comp w g1 hb
    rw [h] at hr
    have hcalls := unmountNode_calls (comp.render { w with graph := g1 }).1
      (Renderer.logged Call.render
        (Renderer.logged (Call.hook LifecycleHook.beforeUnmount) w.renderer))
    refine ⟨Call.render ::
      [Call.getParentNode
          (Renderer.elementOf (comp.render { w with graph := g1 }).1
            (Renderer.logged Call.render
              (Renderer.logged (Call.hook LifecycleHook.beforeUnmount) w.renderer))).1
          (Platform.getParentNode
            (Renderer.elementOf (comp.render { w with graph := g1 }).1
              (Renderer.logged Call.render
                (Renderer.logged (Call.hook LifecycleHook.beforeUnmount) w.renderer))).1
            (Renderer.logged Call.render
              (Renderer.logged (Call.hook LifecycleHook.beforeUnmount)
                w.renderer)).platform).1,
        Call.removeChild
          (Platform.getParentNode
            (Renderer.elementOf (comp.render { w with graph := g1 }).1
              (Renderer.logged Call.render
                (Renderer.logged (Call.hook LifecycleHook.beforeUnmount) w.renderer))).1
            (Renderer.logged Call.render
              (Renderer.logged (Call.hook LifecycleHook.beforeUnmount)
                w.renderer)).platform).1
          (Renderer.elementOf (comp.render { w with graph := g1 }).1
            (Renderer.logged Call.render
              (Renderer.logged (Call.hook LifecycleHook.beforeUnmount) w.renderer))).1],
      _, hr, ?_, ?_⟩
    · rw [hcalls, logged_calls, logged_calls]
      simp only [List.append_assoc, List.singleton_append, List.cons_append, List.nil_append]
    · intro c hc
      simp only [List.mem_cons, List.mem_singleton, List.not_mem_nil, or_false] at hc
      rcases hc with hc | hc | hc <;> subst hc <;> rfl
  | raised err g1 => simp [Renderer.unmount, hb] at h
  | timeout g1 => simp [Renderer.unmount, hb] at h

theorem patch_hookFree_ok (fuel : Nat) (oldNode newNode : VNode) (container : Handle)
    (r r3 : Renderer) (h : Renderer.patch fuel oldNode newNode container r = PatchOutcome.ok r3) :
    Platform.Adds (fun c => c.isHook = false) r.platform r3.platform := by
  have hadd := patch_hookFree fuel oldNode newNode container r
  rw [h] at hadd
  exact hadd

theorem update_bracket (fns : EffId → Cmd) (fuel : Nat) (comp : Component)
    (w w1 : World) (h : Renderer.update fns fuel comp w = WorldOutcome.ok w1) :
    Bracketed LifecycleHook.beforeUpdate LifecycleHook.updated w.renderer w1.renderer := by
  unfold Renderer.update at h
  simp only at h
  split at h
  · rename_i g1 hb
    split at h
    · cases h
    · rename_i oldVNode hold
      split at h
      · rename_i r3 hp
        obtain ⟨added, hcalls, hfree⟩ := patch_hookFree_ok _ _ _ _ _ _ hp
        have hr : w1.renderer = Renderer.logged (Call.hook LifecycleHook.updated) r3 := by
          split at h
          · cases h; rfl
          · cases h
          · cases h
        refine ⟨Call.render :: Call.render :: added, r3, hr, ?_, ?_⟩
        · rw [hcalls]
          simp [Component.render, Renderer.logged, nodeOf_platform, elementOf_platform]
        · intro c hc
          simp only [List.mem_cons] at hc
          rcases hc with hc | hc | hc
          · subst hc; rfl
          · subst hc; rfl
          · exact hfree c hc
      · cases h
      · cases h
  · cases h
  · cases h

/-- Lifecycle bracketing of the operations that return. Whenever `mount`,
`update` or `unmount` returns,
the log it leaves is the earlier log, then its before-hook (`beforeMount`,
`beforeUpdate`, `beforeUnmount`), then the `render` and platform calls of the
operation, none of which is a hook, then its after-hook (`mounted`, `updated`,
`unmounted`) as the last entry; the caches are those the renderer had when the
after-hook was called. So each of the two hooks is called exactly once, the
first before any `render` or platform call, the second after the last platform
call and cache update. -/
theorem lifecycle_bracketing (fns : EffId → Cmd) (fuel : Nat) (comp : Component)
    (container : Handle) (w w1 : World) :
    (Renderer.mount fns fuel comp container w = WorldOutcome.ok w1 →
      Bracketed LifecycleHook.beforeMount LifecycleHook.mounted w.renderer w1.renderer) ∧
    (Renderer.update fns fuel comp w = WorldOutcome.ok w1 →
      Bracketed LifecycleHook.beforeUpdate LifecycleHook.updated w.renderer w1.renderer) ∧
    (Renderer.unmount fns fuel comp w = WorldOutcome.ok w1 →
      Bracketed LifecycleHook.beforeUnmount LifecycleHook.unmounted w.renderer w1.renderer) :=
  ⟨mount_bracket fns fuel comp container w w1, update_bracket fns fuel comp w w1,
    unmount_bracket fns fuel comp w w1⟩

theorem lifecycle_bracketing_witness :
    Bracketed LifecycleHook.beforeMount LifecycleHook.mounted World.init.renderer
      (Renderer.mount watcherFns 1 staticComponent 1 World.init).world.renderer ∧
    Bracketed LifecycleHook.beforeUpdate LifecycleHook.updated
      (Renderer.mount watcherFns 1 staticComponent 1 World.init).world.renderer
      (Renderer.update watcherFns 3 staticComponent
        (Renderer.mount watcherFns 1 staticComponent 1 World.init).world).world.renderer ∧
    Bracketed LifecycleHook.beforeUnmount LifecycleHook.unmounted
      (Renderer.mount watcherFns 1 staticComponent 1 World.init).world.renderer
      (Renderer.unmount watcherFns 3 staticComponent
        (Renderer.mount watcherFns 1 staticComponent 1 World.init).world).world.renderer ∧
    (Renderer.update watcherFns 3 staticComponent
      (Renderer.mount watcherFns 1 staticComponent 1 World.init).world).world.renderer.platform.calls =
      (Renderer.mount watcherFns 1 staticComponent 1 World.init).world.renderer.platform.calls ++
        [Call.hook LifecycleHook.beforeUpdate, Call.render, Call.render,
          Call.hook LifecycleHook.updated] :=
  ⟨(lifecycle_bracketing watcherFns 1 staticComponent 1 World.init
      (Renderer.mount watcherFns 1 staticComponent 1 World.init).world).1 rfl,
    (lifecycle_bracketing watcherFns 3 staticComponent 1
      (Renderer.mount watcherFns 1 staticComponent 1 World.init).world
      (Renderer.update watcherFns 3 staticComponent
        (Renderer.mount watcherFns 1 staticComponent 1 World.init).world).world).2.1 rfl,
    (lifecycle_bracketing watcherFns 3 staticComponent 1
      (Renderer.mount watcherFns 1 staticComponent 1 World.init).world
      (Renderer.unmount watcherFns 3 staticComponent
        (Renderer.mount watcherFns 1 staticComponent 1 World.init).world).world).2.2 rfl,
    by decide⟩

/-- C27, evaluated on the code. `counterComponent`, whose `render` allocates a
new tree on every call, is mounted: the log of `mount` is bracketed by
`beforeMount` and `mounted`. `update` on it, for every budget, calls the hook
`beforeUpdate` and `render` twice, then `patch` dereferences the null old node
(the lookup used the node of a new `render()` call): `update` does not return,
and the hook `updated` is called zero times, where the claim has it called
exactly once, after the last platform call. -/
theorem update_never_calls_updated (fuel : Nat) :
    counterMounted.renderer.platform.calls =
      [Call.hook LifecycleHook.beforeMount, Call.render, Call.createElement "p" 2,
        Call.createTextNode "zero" 3, Call.appendChild 2 3, Call.appendChild 1 2,
        Call.hook LifecycleHook.mounted] ∧
    (Renderer.update watcherFns fuel counterComponent counterMounted).isOk = false ∧
    (Renderer.update watcherFns fuel counterComponent counterMounted).isUndefined = true ∧
    (Renderer.update watcherFns fuel counterComponent
      counterMounted).world.renderer.platform.calls =
      counterMounted.renderer.platform.calls ++
        [Call.hook LifecycleHook.beforeUpdate, Call.render, Call.render] ∧
    (counterMounted.renderer.platform.calls ++
      [Call.hook LifecycleHook.beforeUpdate, Call.render, Call.render]).count
        (Call.hook LifecycleHook.beforeUpdate) = 1 ∧
    (counterMounted.renderer.platform.calls ++
      [Call.hook LifecycleHook.beforeUpdate, Call.render, Call.render]).count
        (Call.hook LifecycleHook.updated) = 0 :=
  ⟨by decide, rfl, rfl, rfl, by decide, by decide⟩

/-! ## Appending a child -/

theorem patchChildrenLoop_leading
    (patchRec : VNode → VNode → Handle → Renderer → PatchOutcome) (container : Handle)
    (tn : List VNode) (suf : List VNode) :
    ∀ (suf1 pre pre1 : List VNode) (r : Renderer) (fuel : Nat),
      pre.length = pre1.length → VNode.shapeList suf = VNode.shapeList suf1 →
      suf.length ≤ fuel →
      (∀ c, c ∈ suf → ∀ c1 r1, c.shape = c1.shape →
        ∃ r2, patchRec c c1 container r1 = PatchOutcome.ok r2 ∧ r2.platform = r1.platform) →
      ∃ r1, Renderer.patchChildrenLoop patchRec (pre ++ suf) (pre1 ++ (suf1 ++ tn)) container fuel
          { oldStartIdx := pre.length, oldEndIdx := ((pre ++ suf).length : Int) - 1,
            newStartIdx := pre.length,
            newEndIdx := ((pre1 ++ (suf1 ++ tn)).length : Int) - 1 } r =
          LoopOutcome.ok
            { oldStartIdx := (pre ++ suf).length, oldEndIdx := ((pre ++ suf).length : Int) - 1,
              newStartIdx := (pre ++ suf).length,
              newEndIdx := ((pre1 ++ (suf1 ++ tn)).length : Int) - 1 } r1 ∧
        r1.platform = r.platform := by
  induction suf with
  | nil =>
    intro suf1 pre pre1 r fuel hlen hshape _ _
    cases suf1 with
    | cons a t => simp [VNode.shapeList] at hshape
    | nil =>
      refine ⟨r, ?_, rfl⟩
      cases fuel <;> simp [Renderer.patchChildrenLoop]
  | cons a suf ih =>
    intro suf1 pre pre1 r fuel hlen hshape hfuel hrec
    cases suf1 with
    | nil => simp [VNode.shapeList] at hshape
    | cons a1 suf1 =>
      simp only [VNode.shapeList, List.cons.injEq] at hshape
      cases fuel with
      | zero => simp at hfuel
      | succ n =>
        obtain ⟨r2, hp, hplat⟩ := hrec a (List.mem_cons_self _ _) a1 r hshape.1
        obtain ⟨x, hx⟩ := childAt_last (pre ++ a :: suf) (by simp)
        obtain ⟨y, hy⟩ := childAt_last (pre1 ++ (a1 :: suf1 ++ tn)) (by simp)
        have hcond : ((pre.length : Int) ≤ ((pre ++ a :: suf).length : Int) - 1) ∧
            ((pre.length : Int) ≤ ((pre1 ++ (a1 :: suf1 ++ tn)).length : Int) - 1) := by
          simp only [List.length_append, List.length_cons]
          constructor <;> omega
        have hnew : childAt (pre1 ++ (a1 :: suf1 ++ tn)) (pre.length : Int) = some a1 := by
          rw [hlen]; exact childAt_append_length pre1 (suf1 ++ tn) a1
        rw [Renderer.patchChildrenLoop]
        simp only [hcond, and_self, if_true, childAt_append_length, hx, hy, hnew,
          isSameVNode_of_shape a a1 hshape.1, hp]
        have hih := ih suf1 (pre ++ [a]) (pre1 ++ [a1]) r2 n (by simp [hlen]) hshape.2
          (by simp at hfuel; omega)
          (fun c hc => hrec c (List.mem_cons_of_mem _ hc))
        simp only [List.append_assoc, List.singleton_append, List.length_append,
          List.length_singleton, List.length_cons, Nat.cast_add, Nat.cast_one,
          List.cons_append, List.nil_append, List.length_nil, Nat.cast_zero,
          zero_add] at hih ⊢
        obtain ⟨r3, h3, hplat3⟩ := hih
        exact ⟨r3, h3, hplat3.trans hplat⟩

theorem patch_append (oldNode newNode : VNode) (cs1 : List VNode) (n : VNode)
    (container h : Handle) (r : Renderer) (fuel : Nat)
    (hmap : r.nodeToElement oldNode.addr = some h)
    (htag : oldNode.tag = newNode.tag) (hkey : oldNode.key = newNode.key)
    (hprops : oldNode.props = newNode.props)
    (hchildren : newNode.children = cs1 ++ [n])
    (hshape : VNode.shapeList oldNode.children = VNode.shapeList cs1)
    (huniq : oldNode.uniqueProps) (hfuel : oldNode.size ≤ fuel) :
    ∃ r1, Renderer.patch fuel oldNode newNode container r = PatchOutcome.ok r1 ∧
      r1.platform = Platform.appendChild h (Renderer.createDOMElement n r.platform).1
        (Renderer.createDOMElement n r.platform).2 := by
  cases fuel with
  | zero => have := size_pos oldNode; omega
  | succ m =>
    rw [patch_same_unfold m oldNode newNode container h r hmap htag hkey]
    cases oldNode with
    | mk a t k p cs x =>
      cases newNode with
      | mk a1 t1 k1 p1 csn x1 =>
        simp only [VNode.props, VNode.children] at hprops hchildren hshape
        subst hprops
        subst hchildren
        simp only [VNode.size] at hfuel
        simp only [VNode.uniqueProps] at huniq
        have hlen := shapeList_length cs cs1 hshape
        have hloop := patchChildrenLoop_leading (Renderer.patch m) h [n] cs cs1 [] []
          { r with platform := Renderer.updateDOMElement h p p r.platform }
          m rfl hshape (by have := length_le_sizeList cs; omega)
          (fun c hc c1 r1 hs =>
            patch_same_shape c.size c c1 h r1 m (Nat.le_refl _) hs
              (uniqueProps_of_mem cs c huniq.2 hc)
              (by have := size_le_sizeList cs c hc; omega))
        obtain ⟨r2, h2, hplat2⟩ := hloop
        simp only [List.nil_append, List.length_nil, Nat.cast_zero] at h2
        have hz : (((cs1 ++ [n]).length : Int) - 1 - (cs.length : Int) + 1).toNat = 1 := by
          rw [hlen]; simp
        have hz1 : ((cs.length : Int) - 1 - (cs.length : Int) + 1).toNat = 0 := by simp
        have hchild : childAt (cs1 ++ [n]) (cs.length : Int) = some n := by
          rw [hlen]; exact childAt_append_length cs1 [] n
        simp only [Renderer.patchChildren, VNode.children, VNode.props, h2, hz, hz1,
          Renderer.appendRemaining, Renderer.removeRemaining, hchild]
        refine ⟨_, rfl, ?_⟩
        simp only
        rw [hplat2]
        simp only
        rw [updateDOMElement_self _ _ _ huniq.1]

/-- Append to a parent that has an entry in `nodeToElement_`, as the root given
to `mount` has. Let the parent `oldNode` be mapped to the handle `h`,
its attribute maps and those of its children `cs` have unique names, and
`newNode` have the same tag, key and attributes and the children `cs1` followed
by one node `n`, where `cs1` is structurally equal to `cs`. With a budget of at
least the size of `oldNode`, `patch` returns; the platform it leaves is the
earlier one with the subtree of `n` built and appended to `h`; the calls it adds
to the log are the depth-first construction of `n` at the first fresh handle
followed by one `appendChild(h, handle of n)`; and every handle these calls
mention is `h` or a fresh handle, so none is the handle of an existing child. -/
theorem patch_appends_one_child (oldNode newNode : VNode) (cs1 : List VNode) (n : VNode)
    (container h : Handle) (r : Renderer) (fuel : Nat)
    (hmap : r.nodeToElement oldNode.addr = some h)
    (htag : oldNode.tag = newNode.tag) (hkey : oldNode.key = newNode.key)
    (hprops : oldNode.props = newNode.props)
    (hchildren : newNode.children = cs1 ++ [n])
    (hshape : VNode.shapeList oldNode.children = VNode.shapeList cs1)
    (huniq : oldNode.uniqueProps) (hfuel : oldNode.size ≤ fuel) :
    (Renderer.patch fuel oldNode newNode container r).isOk = true ∧
    (Renderer.patch fuel oldNode newNode container r).renderer.platform =
      Platform.appendChild h (Renderer.createDOMElement n r.platform).1
        (Renderer.createDOMElement n r.platform).2 ∧
    (Renderer.patch fuel oldNode newNode container r).renderer.platform.calls =
      r.platform.calls ++
        (n.depthFirstCalls r.platform.next ++ [Call.appendChild h r.platform.next]) ∧
    (∀ c, c ∈ n.depthFirstCalls r.platform.next ++ [Call.appendChild h r.platform.next] →
      ∀ x, x ∈ c.handles → x = h ∨ r.platform.next ≤ x) := by
  obtain ⟨r1, h1, hplat⟩ := patch_append oldNode newNode cs1 n container h r fuel hmap htag hkey
    hprops hchildren hshape huniq hfuel
  rw [h1]
  refine ⟨rfl, hplat, ?_, ?_⟩
  · simp only [PatchOutcome.renderer]
    rw [hplat]
    simp only [Platform.appendChild, (createDOMElement_depthFirst n r.platform).1,
      createDOMElement_fst, List.append_assoc]
  · intro c hc x hx
    rcases List.mem_append.1 hc with hc | hc
    · exact Or.inr (depthFirstCalls_handles n r.platform.next c hc x hx)
    · rw [List.mem_singleton.1 hc] at hx
      simp only [Call.handles, List.mem_cons, List.mem_singleton, List.not_mem_nil,
        or_false] at hx
      rcases hx with hx | hx
      · exact Or.inl hx
      · exact Or.inr (Nat.le_of_eq hx.symm)

theorem patch_appends_one_child_witness :
    listTwoMounted.nodeToElement listTwo.addr = some 2 ∧
    listTwoMounted.platform.next = 5 ∧
    (Renderer.patch 3 listTwo listThree 1 listTwoMounted).isOk = true ∧
    (Renderer.patch 3 listTwo listThree 1 listTwoMounted).renderer.platform.calls =
      listTwoMounted.platform.calls ++
        ((vnode 9 "li" (some 3) [] [] "").depthFirstCalls listTwoMounted.platform.next ++
          [Call.appendChild 2 listTwoMounted.platform.next]) ∧
    (vnode 9 "li" (some 3) [] [] "").depthFirstCalls 5 = [Call.createElement "li" 5] :=
  ⟨by decide, by decide,
    (patch_appends_one_child listTwo listThree
      [vnode 7 "li" (some 1) [] [] "", vnode 8 "li" (some 2) [] [] ""]
      (vnode 9 "li" (some 3) [] [] "") 1 2 listTwoMounted 3 (by decide) rfl rfl rfl rfl rfl
      (by simp [listTwo, vnode, VNode.uniqueProps, VNode.uniquePropsList]) (by decide)).1,
    (patch_appends_one_child listTwo listThree
      [vnode 7 "li" (some 1) [] [] "", vnode 8 "li" (some 2) [] [] ""]
      (vnode 9 "li" (some 3) [] [] "") 1 2 listTwoMounted 3 (by decide) rfl rfl rfl rfl rfl
      (by simp [listTwo, vnode, VNode.uniqueProps, VNode.uniquePropsList]) (by decide)).2.2.1,
    by decide⟩

/-- C21, evaluated on the code. `<div><ul><li key=1/><li key=2/></ul></div>` is
mounted: the `<ul>`, a mounted parent with two keyed children, got the handle
`3`, and no entry in `nodeToElement_` (mount registers the root only). The tree
is patched against the same tree with a third `<li>` after the two. `patch`
returns; it built the new `<li>` (handle `6`) and called
`appendChild(nullptr, 6)`, the handle it read from `nodeToElement_[ul]`, rather
than `appendChild(3, 6)`: the `<ul>` of the platform tree still has two items.
When the `<ul>` is itself the root given to `mount`, the handle is found and
the call is `appendChild(2, 5)`. -/
theorem nested_append_targets_null_handle :
    nestedTwoMounted.platform.calls =
      [Call.createElement "div" 2, Call.createElement "ul" 3, Call.createElement "li" 4,
        Call.appendChild 3 4, Call.createElement "li" 5, Call.appendChild 3 5,
        Call.appendChild 2 3, Call.appendChild 1 2] ∧
    nestedTwoMounted.nodeToElement 2 = none ∧
    (Renderer.patch 4 nestedTwo nestedThree 1 nestedTwoMounted).isOk = true ∧
    (Renderer.patch 4 nestedTwo nestedThree 1 nestedTwoMounted).renderer.platform.calls =
      nestedTwoMounted.platform.calls ++ [Call.createElement "li" 6, Call.appendChild 0 6] ∧
    (Renderer.patch 4 nestedTwo nestedThree 1 nestedTwoMounted).renderer.platform.outline 5 1 =
      ["<div>", "[", "<div>", "[", "<ul>", "[", "<li>", "[", "]", "<li>", "[", "]", "]", "]",
        "]"] ∧
    (Renderer.patch 3 listTwo listThree 1 listTwoMounted).renderer.platform.calls =
      listTwoMounted.platform.calls ++ [Call.createElement "li" 5, Call.appendChild 2 5] ∧
    (Renderer.patch 3 listTwo listThree 1 listTwoMounted).renderer.platform.outline 5 1 =
      ["<div>", "[", "<ul>", "[", "<li>", "[", "]", "<li>", "[", "]", "<li>", "[", "]", "]",
        "]"] := by
  decide

/-! ## Entry points on a component that renders a fresh tree -/

/-- C23, evaluated on the code. `counterComponent`, whose `render` allocates a
new tree on every call, is mounted: its root node, at address `1`, maps to the
handle `2` and `2` maps back. `unmount` returns, but it looks the element up
with the node of a new `render()` call, which has no entry: it calls
`getParentNode(nullptr)` and `removeChild(nullptr, nullptr)`, erases the entry
it has just created, and leaves both entries of the mounted node in place and
the platform tree as it was. On `staticComponent`, whose `render` returns the
mounted node itself, both entries are gone after `unmount`. -/
theorem unmount_leaves_mapping :
    counterMounted.renderer.nodeToElement 1 = some 2 ∧
    (counterMounted.renderer.elementToNode 2).isSome = true ∧
    (Renderer.unmount watcherFns 1 counterComponent counterMounted).isOk = true ∧
    (Renderer.unmount watcherFns 1 counterComponent counterMounted).world.renderer.nodeToElement 1 =
      some 2 ∧
    ((Renderer.unmount watcherFns 1 counterComponent
      counterMounted).world.renderer.elementToNode 2).isSome = true ∧
    (Renderer.unmount watcherFns 1 counterComponent counterMounted).world.renderer.platform.calls =
      counterMounted.renderer.platform.calls ++
        [Call.hook LifecycleHook.beforeUnmount, Call.render, Call.getParentNode 0 0,
          Call.removeChild 0 0, Call.hook LifecycleHook.unmounted] ∧
    (Renderer.unmount watcherFns 1 counterComponent
      counterMounted).world.renderer.platform.outline 4 1 =
      counterMounted.renderer.platform.outline 4 1 ∧
    counterMounted.renderer.platform.outline 4 1 =
      ["<div>", "[", "<p>", "[", "#text zero", "[", "]", "]", "]"] ∧
    staticMounted.renderer.nodeToElement 1 = some 2 ∧
    (Renderer.unmount watcherFns 1 staticComponent staticMounted).world.renderer.nodeToElement 1 =
      none ∧
    ((Renderer.unmount watcherFns 1 staticComponent
      staticMounted).world.renderer.elementToNode 2).isSome = false := by
  decide

/-- C30, evaluated on the code. `counterComponent`, whose `render` allocates a
new tree on every call, is mounted with its root node at address `1`. `update`
looks the old node up with the node of a new `render()` call, at address `3`,
which has no entry: `nodeToElement_[...]` yields the null handle (and creates
an entry for address `3`), `elementToNode_[nullptr]` yields a null node, and
`patch` dereferences it. The log holds the hook and the two `render` calls
only: `patch` made no platform call and the hook `updated` was not reached. On
`staticComponent`, whose `render` returns the mounted node itself, `update`
returns. -/
theorem update_misses_mounted_tree :
    counterMounted.renderer.nodeToElement 1 = some 2 ∧
    counterMounted.nextAddr = 3 ∧
    (Renderer.update watcherFns 5 counterComponent counterMounted).isUndefined = true ∧
    (Renderer.update watcherFns 5 counterComponent counterMounted).world.renderer.platform.calls =
      counterMounted.renderer.platform.calls ++
        [Call.hook LifecycleHook.beforeUpdate, Call.render, Call.render] ∧
    (Renderer.update watcherFns 5 counterComponent counterMounted).world.renderer.nodeToElement 3 =
      some 0 ∧
    (Renderer.update watcherFns 5 staticComponent staticMounted).isOk = true := by
  decide

/-! ## Removal of surplus children and the handle cache -/

/-- C28, evaluated on the code. `<ul>` with two `<li>` is mounted: the second
`<li>`, the node `d` at address `3`, got the handle `4`, and no entry in
`nodeToElement_` (mount registers the root only). The tree is patched against a
`<ul>` with the first `<li>` only. `patch` returns; for `d` it called
`removeChild(2, nullptr)` rather than `removeChild(2, 4)`, so both `<li>`
elements are still in the platform tree; and `d`, which had no entry, now has
one, with the null handle. -/
theorem surplus_child_not_removed :
    listTwoMounted.platform.calls =
      [Call.createElement "ul" 2, Call.createElement "li" 3, Call.appendChild 2 3,
        Call.createElement "li" 4, Call.appendChild 2 4, Call.appendChild 1 2] ∧
    listTwoMounted.nodeToElement 3 = none ∧
    (Renderer.patch 3 listTwo listOne 1 listTwoMounted).isOk = true ∧
    (Renderer.patch 3 listTwo listOne 1 listTwoMounted).renderer.platform.calls =
      listTwoMounted.platform.calls ++ [Call.removeChild 2 0] ∧
    (Renderer.patch 3 listTwo listOne 1 listTwoMounted).renderer.platform.outline 4 1 =
      ["<div>", "[", "<ul>", "[", "<li>", "[", "]", "<li>", "[", "]", "]", "]"] ∧
    (Renderer.patch 3 listTwo listOne 1 listTwoMounted).renderer.nodeToElement 3 = some 0 := by
  decide

/-- C24, evaluated on the code. `<ul>` with two `<li>` is mounted: the root, at
address `1`, is the only node with an entry in `nodeToElement_`; the two mounted
children, at addresses `2` and `3`, have none. The tree is patched against a
`<ul>` with three `<li>` (addresses `6..9`), which replaces every old node by a
same-identity new node and appends one. Afterwards the replaced root still has
its entry, the replaced children have gained entries with the null handle, the
new children that took their place map to the null handle, and the appended
child, which is mounted, has no entry. Patching the mounted `<div>` of `spanA`
against a `<p>`, a different-identity replacement, does delete the entry. -/
theorem handle_cache_leaks :
    listTwoMounted.nodeToElement 1 = some 2 ∧
    listTwoMounted.nodeToElement 2 = none ∧
    listTwoMounted.nodeToElement 3 = none ∧
    (Renderer.patch 3 listTwo listThree 1 listTwoMounted).isOk = true ∧
    (Renderer.patch 3 listTwo listThree 1 listTwoMounted).renderer.nodeToElement 1 = some 2 ∧
    (Renderer.patch 3 listTwo listThree 1 listTwoMounted).renderer.nodeToElement 2 = some 0 ∧
    (Renderer.patch 3 listTwo listThree 1 listTwoMounted).renderer.nodeToElement 3 = some 0 ∧
    (Renderer.patch 3 listTwo listThree 1 listTwoMounted).renderer.nodeToElement 6 = some 2 ∧
    (Renderer.patch 3 listTwo listThree 1 listTwoMounted).renderer.nodeToElement 7 = some 0 ∧
    (Renderer.patch 3 listTwo listThree 1 listTwoMounted).renderer.nodeToElement 8 = some 0 ∧
    (Renderer.patch 3 listTwo listThree 1 listTwoMounted).renderer.nodeToElement 9 = none ∧
    (Renderer.mountNode spanA 1 freshRenderer).nodeToElement spanA.addr = some 2 ∧
    (Renderer.patch 1 spanA paragraph 1
      (Renderer.mountNode spanA 1 freshRenderer)).renderer.nodeToElement spanA.addr = none := by
  decide

/-! ## Patching a node that was never mounted -/

/-- C29 as stated fails. `paragraph` was never mounted and has no entry in
`nodeToElement_`. `patch(paragraph, spanA, 1)` returns normally: it builds the
new subtree, calls `insertBefore(1, 2, nullptr)` and `removeChild(1, nullptr)`,
and registers the new node, so it issued platform calls and changed both maps. -/
theorem patch_unmounted_node_counterexample :
    freshRenderer.nodeToElement paragraph.addr = none ∧
    freshRenderer.platform.calls = [] ∧
    (Renderer.patch 1 paragraph spanA 1 freshRenderer).isOk = true ∧
    (Renderer.patch 1 paragraph spanA 1 freshRenderer).renderer.platform.calls =
      [Call.createElement "div" 2, Call.createElement "span" 3, Call.setAttribute 3 "id" "a",
        Call.appendChild 2 3, Call.insertBefore 1 2 0, Call.removeChild 1 0] ∧
    freshRenderer.nodeToElement spanA.addr = none ∧
    (Renderer.patch 1 paragraph spanA 1 freshRenderer).renderer.nodeToElement spanA.addr =
      some 2 ∧
    (freshRenderer.elementToNode 2).isSome = false ∧
    ((Renderer.patch 1 paragraph spanA 1 freshRenderer).renderer.elementToNode 2).isSome =
      true := by
  decide

theorem elementOf_of_none (node : VNode) (r : Renderer)
    (hnone : r.nodeToElement node.addr = none) :
    Renderer.elementOf node r =
      (0, { r with nodeToElement := Function.update r.nodeToElement node.addr (some 0) }) := by
  simp [Renderer.elementOf, hnone]

/-- C29, amended. For every `oldNode` that has no entry in `nodeToElement_`,
`patch(oldNode, newNode, container)` checks nothing and reports no error: it
proceeds exactly as from the state in which `oldNode` is mapped to the null
handle. When `newNode` has a different tag or key it returns normally; the log
is the earlier log, the construction of the new subtree at the first fresh
handle `hNew`, `insertBefore(container, hNew, nullptr)` and
`removeChild(container, nullptr)`; and afterwards `newNode` maps to `hNew` and
`hNew` to `newNode`. -/
theorem patch_unmounted_node_proceeds (fuel : Nat) (oldNode newNode : VNode)
    (container : Handle) (r : Renderer) (hnone : r.nodeToElement oldNode.addr = none) :
    Renderer.patch (fuel + 1) oldNode newNode container r =
      Renderer.patch (fuel + 1) oldNode newNode container
        { r with nodeToElement := Function.update r.nodeToElement oldNode.addr (some 0) } ∧
    (oldNode.tag ≠ newNode.tag ∨ oldNode.key ≠ newNode.key →
      (Renderer.patch (fuel + 1) oldNode newNode container r).isOk = true ∧
      (Renderer.patch (fuel + 1) oldNode newNode container r).renderer.platform.calls =
        r.platform.calls ++
          (newNode.depthFirstCalls r.platform.next ++
            [Call.insertBefore container r.platform.next 0, Call.removeChild container 0]) ∧
      (Renderer.patch (fuel + 1) oldNode newNode container r).renderer.nodeToElement
        newNode.addr = some r.platform.next ∧
      (Renderer.patch (fuel + 1) oldNode newNode container r).renderer.elementToNode
        r.platform.next = some (some newNode)) := by
  have h1 := elementOf_of_none oldNode r hnone
  have h2 : Renderer.elementOf oldNode
      { r with nodeToElement := Function.update r.nodeToElement oldNode.addr (some 0) } =
      (0, { r with nodeToElement := Function.update r.nodeToElement oldNode.addr (some 0) }) :=
    elementOf_of_some oldNode _ 0 (Function.update_same _ _ _)
  refine ⟨?_, ?_⟩
  · rw [Renderer.patch, Renderer.patch, h1, h2]
  · intro hdiff
    have hsame : Renderer.isSameVNode oldNode newNode = false := by
      rcases hdiff with h | h <;> simp [Renderer.isSameVNode, h]
    have hfst := createDOMElement_fst newNode r.platform
    have hcalls := (createDOMElement_depthFirst newNode r.platform).1
    simp only [Renderer.patch, hsame, if_true, h1, PatchOutcome.isOk, PatchOutcome.renderer,
      hfst, Function.update_same, Platform.removeChild, Platform.insertBefore, hcalls,
      List.append_assoc, List.singleton_append, and_self]

theorem patch_unmounted_node_proceeds_witness :
    freshRenderer.nodeToElement paragraph.addr = none ∧
    (Renderer.patch 1 paragraph spanA 1 freshRenderer).isOk = true ∧
    (Renderer.patch 1 paragraph spanA 1 freshRenderer).renderer.nodeToElement spanA.addr =
      some freshRenderer.platform.next :=
  ⟨by decide,
    ((patch_unmounted_node_proceeds 0 paragraph spanA 1 freshRenderer (by decide)).2
      (Or.inl (by decide))).1,
    ((patch_unmounted_node_proceeds 0 paragraph spanA 1 freshRenderer (by decide)).2
      (Or.inl (by decide))).2.2.1⟩

/-! ## An effect that writes what it reads -/

theorem runEffect_count_mono (fns : EffId → Cmd) (fuel : Nat) (e1 e : EffId) (g : Graph) :
    runCount e g ≤ runCount e (runEffect fns fuel e1 g).graph :=
  runEffect_closed mono_stepClosed fns fuel e1 g e

theorem selfTrigger_other (n : Nat) (e : EffId) (g : Graph) (he : e ≠ 0) :
    (runEffect selfTriggerFns (n + 1) e g).isOk = true := by
  cases e with
  | zero => exact absurd rfl he
  | succ k => rfl

theorem forEachRun_selfTrigger (n : Nat)
    (ih : ∀ g, (runEffect selfTriggerFns n 0 g).finished = false ∧
      runCount 0 g + n ≤ runCount 0 (runEffect selfTriggerFns n 0 g).graph)
    (l : List EffId) (g : Graph) (hmem : 0 ∈ l) :
    (forEachRun (runEffect selfTriggerFns n) l g).finished = false ∧
      runCount 0 g + n ≤ runCount 0 (forEachRun (runEffect selfTriggerFns n) l g).graph := by
  induction l generalizing g with
  | nil => cases hmem
  | cons e t iht =>
    rw [forEachRun]
    by_cases he : e = 0
    · subst he
      obtain ⟨hfin, hcount⟩ := ih g
      cases hr : runEffect selfTriggerFns n 0 g with
      | ok g1 => rw [hr] at hfin; cases hfin
      | raised err g1 => rw [hr] at hfin; cases hfin
      | timeout g1 =>
        rw [hr] at hcount
        exact ⟨rfl, hcount⟩
    · have hmono := runEffect_count_mono selfTriggerFns n e 0 g
      have htail : 0 ∈ t := by
        rcases List.mem_cons.1 hmem with h | h
        · exact absurd h.symm he
        · exact h
      cases n with
      | zero => exact ⟨rfl, Nat.le_refl _⟩
      | succ m =>
        have hok := selfTrigger_other m e g he
        cases hr : runEffect selfTriggerFns (m + 1) e g with
        | ok g1 =>
          rw [hr] at hmono
          obtain ⟨h1, h2⟩ := iht g1 htail
          exact ⟨h1, Nat.le_trans (Nat.add_le_add_right hmono _) h2⟩
        | raised err g1 => rw [hr] at hok; cases hok
        | timeout g1 => rw [hr] at hok; cases hok

theorem selfTrigger_runs (n : Nat) :
    ∀ g, (runEffect selfTriggerFns n 0 g).finished = false ∧
      runCount 0 g + n ≤ runCount 0 (runEffect selfTriggerFns n 0 g).graph := by
  induction n with
  | zero => intro g; exact ⟨rfl, Nat.le_refl _⟩
  | succ n ih =>
    intro g
    have hactive : (Effect.install 0 (Effect.cleanup 0 g)).activeEffect = some 0 := rfl
    have htrack := track_of_some 0 0 (Effect.install 0 (Effect.cleanup 0 g)) hactive
    have hvalue : (DependencyTracker.track 0 (Effect.install 0 (Effect.cleanup 0 g))).value 0 ≠
        (Effect.install 0 (Effect.cleanup 0 g)).value 0 + 1 := by
      rw [htrack]
      simp
    have hsub : 0 ∈ (DependencyTracker.track 0
        (Effect.install 0 (Effect.cleanup 0 g))).subscribers 0 := by
      rw [htrack]
      simp only [Function.update_same]
      exact (mem_setInsert 0 0 _).2 (Or.inl rfl)
    have hcount : runCount 0 g + 1 =
        runCount 0
          { DependencyTracker.track 0 (Effect.install 0 (Effect.cleanup 0 g)) with
            value := Function.update
              (DependencyTracker.track 0 (Effect.install 0 (Effect.cleanup 0 g))).value 0
              ((Effect.install 0 (Effect.cleanup 0 g)).value 0 + 1)
            trace := (DependencyTracker.track 0
              (Effect.install 0 (Effect.cleanup 0 g))).trace ++ [Event.notify 0] } := by
      rw [htrack]
      simp [runCount, Effect.install, cleanup_trace, List.count_append, List.count_cons]
    obtain ⟨hfin, hle⟩ := forEachRun_selfTrigger n ih _ _ hsub
    rw [← hcount] at hle
    simp only [runEffect, Effect.run, selfTriggerFns, Cmd.exec, Expr.eval, Reactive.deref,
      Reactive.assign, if_pos hvalue, Dependency.notify]
    revert hfin hle
    cases forEachRun (runEffect selfTriggerFns n) _ _ with
    | ok g1 => intro hfin; cases hfin
    | raised err g1 => intro hfin; cases hfin
    | timeout g1 =>
      intro _ hle
      exact ⟨rfl, by simp only [Outcome.graph] at hle ⊢; omega⟩

/-- C31, self-triggering effect. Effect `0` with the wrapped function
`r = *r + 1` never returns from `run`, from any graph: for every nesting budget
the call runs out of it (it neither returns nor raises), and by then the
wrapped function has been entered once more per unit of budget. The read
subscribes the effect to `r`, the write stores a different value and notifies
`r`, whose snapshot holds the effect itself, and `run` is entered again with
nothing to stop it. -/
theorem self_triggering_effect_diverges (fuel : Nat) (g : Graph) :
    (runEffect selfTriggerFns fuel 0 g).finished = false ∧
    runCount 0 g + fuel ≤ runCount 0 (runEffect selfTriggerFns fuel 0 g).graph :=
  selfTrigger_runs fuel g

/-! ## The child indices of `patchChildren` -/

theorem childAt_of_range (l : List VNode) (idx : Int) (h0 : 0 ≤ idx) (h1 : idx < l.length) :
    ∃ c, childAt l idx = some c := by
  have hlt : idx.toNat < l.length := by omega
  refine ⟨l.get ⟨_, hlt⟩, ?_⟩
  simp only [childAt, h0, if_true]
  exact List.get?_eq_get hlt

theorem appendRemaining_inRange (newChildren : List VNode) (container : Handle) (n : Nat)
    (idx : Int) (r : Renderer) (h0 : 0 ≤ idx) (h1 : n = 0 ∨ idx + n ≤ newChildren.length) :
    (Renderer.appendRemaining newChildren container n idx r).isOutOfRange = false := by
  induction n generalizing idx r with
  | zero => rfl
  | succ n ih =>
    have h2 : idx + (n + 1 : Nat) ≤ newChildren.length := by
      rcases h1 with h | h
      · cases h
      · exact h
    obtain ⟨c, hc⟩ := childAt_of_range newChildren idx h0 (by push_cast at h2; omega)
    rw [Renderer.appendRemaining]
    simp only [hc]
    exact ih (idx + 1) _ (by omega) (Or.inr (by push_cast at h2 ⊢; omega))

theorem removeRemaining_inRange (oldChildren : List VNode) (container : Handle) (n : Nat)
    (idx : Int) (r : Renderer) (h0 : 0 ≤ idx) (h1 : n = 0 ∨ idx + n ≤ oldChildren.length) :
    (Renderer.removeRemaining oldChildren container n idx r).isOutOfRange = false := by
  induction n generalizing idx r with
  | zero => rfl
  | succ n ih =>
    have h2 : idx + (n + 1 : Nat) ≤ oldChildren.length := by
      rcases h1 with h | h
      · cases h
      · exact h
    obtain ⟨c, hc⟩ := childAt_of_range oldChildren idx h0 (by push_cast at h2; omega)
    rw [Renderer.removeRemaining]
    simp only [hc]
    exact ih (idx + 1) _ (by omega) (Or.inr (by push_cast at h2 ⊢; omega))

theorem patchChildrenLoop_inRange
    (patchRec : VNode → VNode → Handle → Renderer → PatchOutcome)
    (oldChildren newChildren : List VNode) (container : Handle)
    (hrec : ∀ o n c r, (patchRec o n c r).isOutOfRange = false)
    (fuel : Nat) (c : Cursors) (r : Renderer)
    (hin : Cursors.InRange oldChildren newChildren c) :
    LoopOutcome.InRange oldChildren newChildren
      (Renderer.patchChildrenLoop patchRec oldChildren newChildren container fuel c r) := by
  induction fuel generalizing c r with
  | zero =>
    rw [Renderer.patchChildrenLoop]
    split
    · trivial
    · exact hin
  | succ n ih =>
    obtain ⟨h1, h2, h3, h4⟩ := hin
    rw [Renderer.patchChildrenLoop]
    by_cases hcond : c.oldStartIdx ≤ c.oldEndIdx ∧ c.newStartIdx ≤ c.newEndIdx
    · obtain ⟨a1, ha1⟩ := childAt_of_range oldChildren c.oldStartIdx h1 (by omega)
      obtain ⟨a2, ha2⟩ := childAt_of_range oldChildren c.oldEndIdx (by omega) h2
      obtain ⟨a3, ha3⟩ := childAt_of_range newChildren c.newStartIdx h3 (by omega)
      obtain ⟨a4, ha4⟩ := childAt_of_range newChildren c.newEndIdx (by omega) h4
      simp only [hcond, and_self, if_true, ha1, ha2, ha3, ha4]
      by_cases hs : Renderer.isSameVNode a1 a3 = true
      · simp only [hs, if_true]
        have hr := hrec a1 a3 container r
        cases hp : patchRec a1 a3 container r with
        | ok r1 =>
          simp only
          exact ih _ r1 ⟨by simp only; omega, h2, by simp only; omega, h4⟩
        | timeout r1 => trivial
        | outOfRange r1 => rw [hp] at hr; cases hr
      · simp only [hs, if_false]
        by_cases he : Renderer.isSameVNode a2 a4 = true
        · simp only [he, if_true]
          have hr := hrec a2 a4 container r
          cases hp : patchRec a2 a4 container r with
          | ok r1 =>
            simp only
            exact ih _ r1 ⟨h1, by simp only; omega, h3, by simp only; omega⟩
          | timeout r1 => trivial
          | outOfRange r1 => rw [hp] at hr; cases hr
        · simp only [he, if_false]
          exact ih c r ⟨h1, h2, h3, h4⟩
    · simp only [hcond, if_false]
      exact ⟨h1, h2, h3, h4⟩

theorem patchChildren_inRange (patchRec : VNode → VNode → Handle → Renderer → PatchOutcome)
    (hrec : ∀ o n c r, (patchRec o n c r).isOutOfRange = false)
    (fuel : Nat) (oldNode newNode : VNode) (container : Handle) (r : Renderer) :
    (Renderer.patchChildren patchRec fuel oldNode newNode container r).isOutOfRange = false := by
  have hloop := patchChildrenLoop_inRange patchRec oldNode.children newNode.children container
    hrec fuel (Cursors.mk 0 ((oldNode.children.length : Int) - 1) 0
      ((newNode.children.length : Int) - 1)) r
    ⟨Int.le_refl 0, by simp only; omega, Int.le_refl 0, by simp only; omega⟩
  unfold Renderer.patchChildren
  simp only
  cases hl : Renderer.patchChildrenLoop patchRec oldNode.children newNode.children container
      fuel (Cursors.mk 0 ((oldNode.children.length : Int) - 1) 0
        ((newNode.children.length : Int) - 1)) r with
  | ok c r1 =>
    rw [hl] at hloop
    obtain ⟨h1, h2, h3, h4⟩ := hloop
    simp only
    have happ := appendRemaining_inRange newNode.children container
      (c.newEndIdx - c.newStartIdx + 1).toNat c.newStartIdx r1 h3 (by omega)
    cases ha : Renderer.appendRemaining newNode.children container
        (c.newEndIdx - c.newStartIdx + 1).toNat c.newStartIdx r1 with
    | ok r2 =>
      simp only
      exact removeRemaining_inRange oldNode.children container
        (c.oldEndIdx - c.oldStartIdx + 1).toNat c.oldStartIdx r2 h1 (by omega)
    | timeout r2 => rfl
    | outOfRange r2 => rw [ha] at happ; cases happ
  | timeout c r1 => rfl
  | outOfRange r1 => rw [hl] at hloop; exact hloop.elim

theorem patch_inRange (fuel : Nat) :
    ∀ (oldNode newNode : VNode) (container : Handle) (r : Renderer),
      (Renderer.patch fuel oldNode newNode container r).isOutOfRange = false := by
  induction fuel with
  | zero => intro _ _ _ _; rfl
  | succ n ih =>
    intro oldNode newNode container r
    rw [Renderer.patch]
    split
    · rfl
    · have hc := patchChildren_inRange (Renderer.patch n) ih n oldNode newNode
        (Renderer.elementOf oldNode r).1
        { (Renderer.elementOf oldNode r).2 with
          platform := Renderer.updateDOMElement (Renderer.elementOf oldNode r).1
            oldNode.props newNode.props (Renderer.elementOf oldNode r).2.platform }
      simp only
      split
      · rfl
      · rename_i o hne
        revert hc hne
        cases Renderer.patchChildren (Renderer.patch n) n oldNode newNode
            (Renderer.elementOf oldNode r).1 _ with
        | ok r2 => intro _ hne; exact absurd rfl (hne r2)
        | timeout r2 => intro _ _; rfl
        | outOfRange r2 => intro hc; cases hc

/-- C39, child-index safety. A read `children[idx]` is modelled by `childAt`,
which has a value exactly when `0 ≤ idx < size`, and a read outside the vector
ends the call as `outOfRange`. For every pair of nodes (child vectors of any
length, empty ones included), every state and every budget, neither `patch` nor
`patchChildren` ends that way: every index read by the main loop and the two
tail loops is within bounds; and when the main loop ends, its cursors are still
inside the two vectors. -/
theorem child_indices_in_range (fuel : Nat) (oldNode newNode : VNode) (container : Handle)
    (r : Renderer) :
    (∀ (l : List VNode) (idx : Int),
      (childAt l idx).isSome = true ↔ (0 ≤ idx ∧ idx < l.length)) ∧
    (Renderer.patch fuel oldNode newNode container r).isOutOfRange = false ∧
    (Renderer.patchChildren (Renderer.patch fuel) fuel oldNode newNode container
      r).isOutOfRange = false ∧
    LoopOutcome.InRange oldNode.children newNode.children
      (Renderer.patchChildrenLoop (Renderer.patch fuel) oldNode.children newNode.children
        container fuel
        (Cursors.mk 0 ((oldNode.children.length : Int) - 1) 0
          ((newNode.children.length : Int) - 1)) r) := by
  refine ⟨?_, patch_inRange fuel oldNode newNode container r,
    patchChildren_inRange (Renderer.patch fuel) (patch_inRange fuel) fuel oldNode newNode
      container r,
    patchChildrenLoop_inRange (Renderer.patch fuel) _ _ container (patch_inRange fuel) fuel _ r
      ⟨Int.le_refl 0, by simp only; omega, Int.le_refl 0, by simp only; omega⟩⟩
  intro l idx
  constructor
  · intro h
    unfold childAt at h
    by_cases h0 : 0 ≤ idx
    · simp only [h0, if_true] at h
      refine ⟨h0, ?_⟩
      have hlt : idx.toNat < l.length := by
        by_contra hge
        rw [List.get?_eq_none.2 (Nat.le_of_not_lt hge)] at h
        cases h
      omega
    · simp only [h0, if_false] at h
      cases h
  · rintro ⟨h0, h1⟩
    obtain ⟨c, hc⟩ := childAt_of_range l idx h0 h1
    rw [hc]
    rfl

/-! ## Text content of element nodes -/

/-- C33, text of element nodes. For a node with a non-empty tag,
`createDOMElement` does not depend on the node's `textContent`: the platform it
leaves and the handle it returns are those of the same node with an empty text.
The calls it adds are `createElement(tag)`, the `setAttribute` calls of the
node, then the construction of its children, so a `createTextNode` can only
come from a child. For a node built by `h(tag, text)` the only call is
`createElement(tag)`, and the element created has no child and no text. -/
theorem element_text_not_rendered (addr : Nat) (tag : String) (key : Option Nat)
    (props : List (String × String)) (children : List VNode) (text : String) (p : Platform)
    (htag : tag ≠ "") :
    Renderer.createDOMElement (vnode addr tag key props children text) p =
      Renderer.createDOMElement (vnode addr tag key props children "") p ∧
    (Renderer.createDOMElement (vnode addr tag key props children text) p).2.calls =
      p.calls ++
        (Call.createElement tag p.next ::
          (props.map (fun kv => Call.setAttribute p.next kv.1 kv.2) ++
            VNode.depthFirstChildren p.next children (p.next + 1))) ∧
    (Renderer.createDOMElement (Component.h addr tag text) p).2.calls =
      p.calls ++ [Call.createElement tag p.next] ∧
    ((Renderer.createDOMElement (Component.h addr tag text) p).2.nodes p.next).children = [] ∧
    ((Renderer.createDOMElement (Component.h addr tag text) p).2.nodes p.next).text = "" := by
  refine ⟨?_, ?_, ?_, ?_, ?_⟩
  · simp only [vnode, Renderer.createDOMElement, htag, if_false]
  · rw [(createDOMElement_depthFirst _ p).1]
    simp only [vnode, VNode.depthFirstCalls, htag, if_false]
  · simp [Component.h, vnode, Renderer.createDOMElement, htag, Renderer.createChildren,
      Platform.createElement]
  · simp [Component.h, vnode, Renderer.createDOMElement, htag, Renderer.createChildren,
      Platform.createElement]
  · simp [Component.h, vnode, Renderer.createDOMElement, htag, Renderer.createChildren,
      Platform.createElement]

theorem element_text_not_rendered_witness :
    (Renderer.createDOMElement (Component.h 1 "div" "404 Not Found") (Platform.init 1)).2.calls =
      (Platform.init 1).calls ++ [Call.createElement "div" (Platform.init 1).next] ∧
    ((Renderer.createDOMElement (Component.h 1 "div" "404 Not Found")
      (Platform.init 1)).2.nodes (Platform.init 1).next).children = [] ∧
    (Renderer.createDOMElement (Component.h 1 "div" "404 Not Found")
      (Platform.init 1)).2.outline 4 2 = ["<div>", "[", "]"] :=
  ⟨(element_text_not_rendered 1 "div" none [] [] "404 Not Found" (Platform.init 1)
      (by decide)).2.2.1,
    (element_text_not_rendered 1 "div" none [] [] "404 Not Found" (Platform.init 1)
      (by decide)).2.2.2.1,
    by decide⟩

/-! ## Text changes -/

theorem patch_text_only (oldNode newNode : VNode) (container : Handle) (r : Renderer)
    (fuel : Nat) (htag : oldNode.tag = newNode.tag) (hkey : oldNode.key = newNode.key)
    (hprops : oldNode.props = newNode.props)
    (hchildren : VNode.shapeList oldNode.children = VNode.shapeList newNode.children)
    (huniq : oldNode.uniqueProps) (hfuel : oldNode.size ≤ fuel) :
    ∃ r1, Renderer.patch fuel oldNode newNode container r = PatchOutcome.ok r1 ∧
      r1.platform = r.platform := by
  have hsame : Renderer.isSameVNode oldNode newNode = true := by
    simp [Renderer.isSameVNode, htag, hkey]
  cases oldNode with
  | mk a t k p cs x =>
    cases newNode with
    | mk a1 t1 k1 p1 cs1 x1 =>
      simp only [VNode.props, VNode.children] at hprops hchildren
      subst hprops
      simp only [VNode.size] at hfuel
      simp only [VNode.uniqueProps] at huniq
      cases fuel with
      | zero => omega
      | succ m =>
        have hlen := shapeList_length cs cs1 hchildren
        have hloop := patchChildrenLoop_same_shape (Renderer.patch m)
          (Renderer.elementOf (VNode.mk a t k p cs x) r).1 cs cs1 [] []
          { (Renderer.elementOf (VNode.mk a t k p cs x) r).2 with
            platform := Renderer.updateDOMElement
              (Renderer.elementOf (VNode.mk a t k p cs x) r).1
              p p (Renderer.elementOf (VNode.mk a t k p cs x) r).2.platform }
          m rfl hchildren (by have := length_le_sizeList cs; omega)
          (fun c hc c1 r1 hs =>
            patch_same_shape c.size c c1 _ r1 m (Nat.le_refl _) hs
              (uniqueProps_of_mem cs c huniq.2 hc)
              (by have := size_le_sizeList cs c hc; omega))
        obtain ⟨r2, h2, hplat2⟩ := hloop
        simp only [List.nil_append, List.length_nil, Nat.cast_zero] at h2
        have hz : ((cs1.length : Int) - 1 - (cs.length : Int) + 1).toNat = 0 := by
          rw [hlen]; simp
        have hz1 : ((cs.length : Int) - 1 - (cs.length : Int) + 1).toNat = 0 := by simp
        simp only [Renderer.patch, hsame, Bool.true_eq_false, if_false, Renderer.patchChildren,
          VNode.children, VNode.props, h2, hz, hz1, Renderer.appendRemaining,
          Renderer.removeRemaining]
        refine ⟨_, rfl, ?_⟩
        simp only
        rw [hplat2]
        simp only
        rw [updateDOMElement_self _ _ _ huniq.1, elementOf_platform]

/-- C34, text changes. Let `oldNode` and `newNode` have the same tag, key and
attributes (with unique names, in the children too) and structurally equal
children, whatever their `textContent`; in particular two text nodes with
different contents. With a budget of at least the size of `oldNode`, `patch`
returns and leaves the platform exactly as it was: no call is added to the log
and every platform node, the text of the mapped one included, is unchanged. -/
theorem text_change_not_patched (oldNode newNode : VNode) (container : Handle) (r : Renderer)
    (fuel : Nat) (htag : oldNode.tag = newNode.tag) (hkey : oldNode.key = newNode.key)
    (hprops : oldNode.props = newNode.props)
    (hchildren : VNode.shapeList oldNode.children = VNode.shapeList newNode.children)
    (huniq : oldNode.uniqueProps) (hfuel : oldNode.size ≤ fuel) :
    (Renderer.patch fuel oldNode newNode container r).isOk = true ∧
    (Renderer.patch fuel oldNode newNode container r).renderer.platform = r.platform ∧
    (Renderer.patch fuel oldNode newNode container r).renderer.platform.calls =
      r.platform.calls ∧
    (∀ h, ((Renderer.patch fuel oldNode newNode container r).renderer.platform.nodes h).text =
      (r.platform.nodes h).text) := by
  obtain ⟨r1, h1, hplat⟩ := patch_text_only oldNode newNode container r fuel htag hkey hprops
    hchildren huniq hfuel
  rw [h1]
  simp only [PatchOutcome.renderer, PatchOutcome.isOk, hplat]
  exact ⟨trivial, trivial, trivial, fun _ => trivial⟩

theorem text_change_not_patched_witness :
    (Renderer.mountNode (vnode 1 "" none [] [] "hello") 1 freshRenderer).platform.outline 4 1 =
      ["<div>", "[", "#text hello", "[", "]", "]"] ∧
    (Renderer.patch 1 (vnode 1 "" none [] [] "hello") (vnode 2 "" none [] [] "world") 1
      (Renderer.mountNode (vnode 1 "" none [] [] "hello") 1 freshRenderer)).isOk = true ∧
    (Renderer.patch 1 (vnode 1 "" none [] [] "hello") (vnode 2 "" none [] [] "world") 1
      (Renderer.mountNode (vnode 1 "" none [] [] "hello") 1 freshRenderer)).renderer.platform =
      (Renderer.mountNode (vnode 1 "" none [] [] "hello") 1 freshRenderer).platform :=
  ⟨by decide,
    (text_change_not_patched (vnode 1 "" none [] [] "hello") (vnode 2 "" none [] [] "world") 1
      (Renderer.mountNode (vnode 1 "" none [] [] "hello") 1 freshRenderer) 1 rfl rfl rfl rfl
      (by simp [vnode, VNode.uniqueProps, VNode.uniquePropsList]) (by decide)).1,
    (text_change_not_patched (vnode 1 "" none [] [] "hello") (vnode 2 "" none [] [] "world") 1
      (Renderer.mountNode (vnode 1 "" none [] [] "hello") 1 freshRenderer) 1 rfl rfl rfl rfl
      (by simp [vnode, VNode.uniqueProps, VNode.uniquePropsList]) (by decide)).2.1⟩

/-! ## The tokenizer always ends -/

theorem scanNumber_suffix (hasDecimal : Bool) (l : List Char) :
    (ExpressionParser.scanNumber hasDecimal l).2 <:+ l := by
  induction l generalizing hasDecimal with
  | nil => exact List.suffix_refl _
  | cons c cs ih =>
    rw [ExpressionParser.scanNumber]
    split
    · exact List.IsSuffix.trans (ih _) (List.suffix_cons c cs)
    · exact List.suffix_refl _

theorem scanWhile_suffix (p : Char → Bool) (l : List Char) :
    (ExpressionParser.scanWhile p l).2 <:+ l := by
  induction l with
  | nil => exact List.suffix_refl _
  | cons c cs ih =>
    rw [ExpressionParser.scanWhile]
    split
    · exact List.IsSuffix.trans ih (List.suffix_cons c cs)
    · exact List.suffix_refl _

theorem scanString_suffix (quote : Char) (n : Nat) :
    ∀ l : List Char, l.length ≤ n → (ExpressionParser.scanString quote l).2 <:+ l := by
  induction n with
  | zero =>
    intro l hl
    cases l with
    | nil => exact List.suffix_refl _
    | cons c cs => simp at hl
  | succ n ih =>
    intro l hl
    match l with
    | [] => exact List.suffix_refl _
    | [c] =>
      rw [ExpressionParser.scanString]
      split
      · exact List.suffix_refl _
      · exact List.nil_suffix
    | c :: d :: ds =>
      rw [ExpressionParser.scanString]
      simp only [List.length_cons] at hl
      split
      · exact List.suffix_refl _
      · split
        · exact List.IsSuffix.trans (ih ds (by omega))
            (List.IsSuffix.trans (List.suffix_cons d ds) (List.suffix_cons c (d :: ds)))
        · exact List.IsSuffix.trans (ih (d :: ds) (by simp only [List.length_cons]; omega))
            (List.suffix_cons c (d :: ds))

theorem tokenizeStep_suffix (c : Char) (cs rest : List Char) (token : Option Token)
    (h : ExpressionParser.tokenizeStep c cs = StepOutcome.next rest token) : rest <:+ cs := by
  unfold ExpressionParser.tokenizeStep at h
  split at h
  · cases h; exact List.suffix_refl _
  · split at h
    · rename_i hd
      cases h
      rw [ExpressionParser.scanNumber]
      simp only [hd, Bool.true_or, if_true]
      exact scanNumber_suffix _ cs
    · split at h
      · rename_i hi
        cases h
        have hp : ExpressionParser.isIdentifierPart c = true := by
          simp [ExpressionParser.isIdentifierPart, hi]
        rw [ExpressionParser.scanWhile]
        simp only [hp, if_true]
        exact scanWhile_suffix _ cs
      · split at h
        · cases h
          exact List.IsSuffix.trans (List.drop_suffix 1 _) (scanString_suffix c cs.length cs
            (Nat.le_refl _))
        · split at h
          · rename_i ho
            cases h
            rw [ExpressionParser.scanWhile]
            simp only [ho, if_true]
            exact scanWhile_suffix _ cs
          · split at h
            · cases h; exact List.suffix_refl _
            · cases h

theorem tokenizeLoop_ends (fuel : Nat) :
    ∀ (cs : List Char) (tokens : List Token), cs.length ≤ fuel →
      (ExpressionParser.tokenizeLoop fuel cs tokens).isTimeout = false := by
  induction fuel with
  | zero =>
    intro cs tokens hl
    cases cs with
    | nil => rfl
    | cons c t => simp at hl
  | succ n ih =>
    intro cs tokens hl
    cases cs with
    | nil => rfl
    | cons c t =>
      rw [ExpressionParser.tokenizeLoop]
      cases hs : ExpressionParser.tokenizeStep c t with
      | next rest token =>
        simp only
        have hsuf := tokenizeStep_suffix c t rest token hs
        exact ih rest _ (Nat.le_trans hsuf.length_le (by simpa using hl))
      | invalid bad => rfl

theorem tokenizeLoop_budget (fuel1 : Nat) :
    ∀ (fuel2 : Nat) (cs : List Char) (tokens : List Token), cs.length ≤ fuel1 →
      cs.length ≤ fuel2 →
      ExpressionParser.tokenizeLoop fuel1 cs tokens =
        ExpressionParser.tokenizeLoop fuel2 cs tokens := by
  induction fuel1 with
  | zero =>
    intro fuel2 cs tokens hl _
    cases cs with
    | nil => cases fuel2 <;> rfl
    | cons c t => simp at hl
  | succ n ih =>
    intro fuel2 cs tokens h1 h2
    cases cs with
    | nil => cases fuel2 <;> rfl
    | cons c t =>
      cases fuel2 with
      | zero => simp at h2
      | succ m =>
        rw [ExpressionParser.tokenizeLoop, ExpressionParser.tokenizeLoop]
        cases hs : ExpressionParser.tokenizeStep c t with
        | next rest token =>
          simp only
          have hsuf := (tokenizeStep_suffix c t rest token hs).length_le
          exact ih m rest _ (Nat.le_trans hsuf (by simpa using h1))
            (Nat.le_trans hsuf (by simpa using h2))
        | invalid bad => rfl

theorem tokenizeStep_tokenChar (c : Char) (cs : List Char)
    (hc : ExpressionParser.isTokenChar c = true) :
    ∃ rest token, ExpressionParser.tokenizeStep c cs = StepOutcome.next rest token := by
  unfold ExpressionParser.tokenizeStep
  unfold ExpressionParser.isTokenChar at hc
  by_cases h1 : isspace c = true
  · simp only [h1, if_true]; exact ⟨_, _, rfl⟩
  · by_cases h2 : isdigit c = true
    · simp only [h1, h2, if_true, if_false]; exact ⟨_, _, rfl⟩
    · by_cases h3 : ExpressionParser.isIdentifierStart c = true
      · simp only [h1, h2, h3, if_true, if_false]; exact ⟨_, _, rfl⟩
      · by_cases h4 : ExpressionParser.isQuote c = true
        · simp only [h1, h2, h3, h4, if_true, if_false]; exact ⟨_, _, rfl⟩
        · by_cases h5 : ExpressionParser.isOperator c = true
          · simp only [h1, h2, h3, h4, h5, if_true, if_false]; exact ⟨_, _, rfl⟩
          · by_cases h6 : ExpressionParser.isPunctuation c = true
            · simp only [h1, h2, h3, h4, h5, h6, if_true, if_false]; exact ⟨_, _, rfl⟩
            · simp [h1, h2, h3, h4, h5, h6] at hc

theorem tokenizeLoop_tokenChars (fuel : Nat) :
    ∀ (cs : List Char) (tokens : List Token), cs.length ≤ fuel →
      (∀ c, c ∈ cs → ExpressionParser.isTokenChar c = true) →
      (ExpressionParser.tokenizeLoop fuel cs tokens).isOk = true := by
  induction fuel with
  | zero =>
    intro cs tokens hl _
    cases cs with
    | nil => rfl
    | cons c t => simp at hl
  | succ n ih =>
    intro cs tokens hl hall
    cases cs with
    | nil => rfl
    | cons c t =>
      obtain ⟨rest, token, hs⟩ := tokenizeStep_tokenChar c t (hall c (List.mem_cons_self _ _))
      have hsuf := tokenizeStep_suffix c t rest token hs
      rw [ExpressionParser.tokenizeLoop, hs]
      simp only
      exact ih rest _ (Nat.le_trans hsuf.length_le (by simpa using hl))
        (fun x hx => hall x (List.mem_cons_of_mem _ (hsuf.subset hx)))

/-- C38, tokenizer totality. Every iteration of the outer loop of `tokenize`
either throws the invalid-character error or leaves strictly less input than it
found. So for every input one iteration per character is enough: `tokenize`
returns a token list or throws, it never runs out of iterations, and a larger
budget gives the same result. When every character of the input is whitespace,
a digit, a letter, `_`, `$`, a quote, an operator character or a punctuation
character, it returns a token list. -/
theorem tokenizer_totality (input : String) :
    (∀ c cs rest token,
      ExpressionParser.tokenizeStep c cs = StepOutcome.next rest token →
        rest.length < (c :: cs).length) ∧
    (ExpressionParser.tokenize input).isTimeout = false ∧
    (∀ fuel, input.length ≤ fuel →
      ExpressionParser.tokenizeLoop fuel input.toList [] = ExpressionParser.tokenize input) ∧
    ((∀ c, c ∈ input.toList → ExpressionParser.isTokenChar c = true) →
      (ExpressionParser.tokenize input).isOk = true) := by
  have hlen : input.toList.length = input.length := rfl
  refine ⟨?_, ?_, ?_, ?_⟩
  · intro c cs rest token h
    have hsuf := (tokenizeStep_suffix c cs rest token h).length_le
    simp only [List.length_cons]
    omega
  · exact tokenizeLoop_ends _ _ _ (Nat.le_of_eq hlen)
  · intro fuel hfuel
    exact tokenizeLoop_budget fuel input.length _ _ (by rw [hlen]; exact hfuel)
      (Nat.le_of_eq hlen)
  · intro hall
    exact tokenizeLoop_tokenChars _ _ _ (Nat.le_of_eq hlen) hall

theorem tokenizer_totality_witness :
    (∀ c, c ∈ "a1 + (b.c) 3.14".toList → ExpressionParser.isTokenChar c = true) ∧
    (ExpressionParser.tokenize "a1 + (b.c) 3.14").isOk = true ∧
    ExpressionParser.tokenize "a1 + (b.c) 3.14" =
      TokenizeOutcome.ok
        [{ type := .identifier, value := "a1" }, { type := .operator, value := "+" },
          { type := .punctuation, value := "(" }, { type := .identifier, value := "b" },
          { type := .punctuation, value := "." }, { type := .identifier, value := "c" },
          { type := .punctuation, value := ")" }, { type := .number, value := "3.14" }] ∧
    ExpressionParser.tokenize "a # b" = TokenizeOutcome.invalid '#' :=
  ⟨by decide, (tokenizer_totality "a1 + (b.c) 3.14").2.2.2 (by decide), by decide, by decide⟩

/-! ## Route matching -/

theorem matchSegments_plain (P : List PathSegment) :
    ∀ (Q : List PathSegment), (∀ p, p ∈ P → p.isCatchAll = false ∧ p.isOptional = false) →
      (Router.matchSegments P Q = true ↔
        P.length = Q.length ∧
          ∀ pq, pq ∈ P.zip Q → pq.1.isDynamic = false → pq.1.value = pq.2.value) := by
  induction P with
  | nil =>
    intro Q _
    cases Q with
    | nil => simp [Router.matchSegments]
    | cons q qs => simp [Router.matchSegments]
  | cons p ps ih =>
    intro Q hP
    obtain ⟨hcatch, hopt⟩ := hP p (List.mem_cons_self _ _)
    have hrest : ∀ x, x ∈ ps → x.isCatchAll = false ∧ x.isOptional = false :=
      fun x hx => hP x (List.mem_cons_of_mem _ hx)
    cases Q with
    | nil => simp [Router.matchSegments, hopt]
    | cons q qs =>
      rw [Router.matchSegments]
      simp only [hcatch, Bool.false_eq_true, if_false, hopt, List.length_cons,
        Nat.add_right_cancel_iff, List.zip_cons_cons, List.mem_cons, forall_eq_or_imp]
      by_cases hdyn : p.isDynamic = true
      · simp only [hdyn, if_true, Bool.true_eq_false, false_implies, true_and]
        exact ih qs hrest
      · have hdyn1 : p.isDynamic = false := by simpa using hdyn
        simp only [hdyn1, Bool.false_eq_true, if_false, true_implies]
        by_cases hv : p.value = q.value
        · simp only [hv, ne_eq, not_true_eq_false, if_false, true_and]
          exact ih qs hrest
        · simp [hv]

theorem parseSegment_static (segment : String) (h : Router.isStaticSegment segment = true) :
    Router.parseSegment segment =
      { value := segment, isDynamic := false, isOptional := false, isCatchAll := false } := by
  simp only [Router.isStaticSegment, Bool.and_eq_true, bne_iff_ne, ne_eq] at h
  rw [Router.parseSegment, if_neg h.1.1, if_neg h.1.2, if_neg h.2]

theorem parseSegment_param (segment : String) (h : Router.isParamSegment segment = true) :
    (Router.parseSegment segment).isDynamic = true ∧
      (Router.parseSegment segment).isCatchAll = false ∧
      (Router.parseSegment segment).isOptional = false ∧
      Router.isStaticSegment segment = false := by
  simp only [Router.isParamSegment, beq_iff_eq] at h
  rw [Router.parseSegment, if_pos h]
  refine ⟨rfl, rfl, rfl, ?_⟩
  simp [Router.isStaticSegment, h]

theorem parseSegment_plain (segment : String)
    (h : Router.isStaticSegment segment = true ∨ Router.isParamSegment segment = true) :
    (Router.parseSegment segment).isCatchAll = false ∧
      (Router.parseSegment segment).isOptional = false ∧
      ((Router.parseSegment segment).isDynamic = false ↔
        Router.isStaticSegment segment = true) ∧
      (Router.isStaticSegment segment = true →
        (Router.parseSegment segment).value = segment) := by
  rcases h with h | h
  · rw [parseSegment_static segment h]
    simp [h]
  · obtain ⟨h1, h2, h3, h4⟩ := parseSegment_param segment h
    simp [h1, h2, h3, h4]

/-- C35 as stated fails. The pattern `/users` has the one static segment
`users`; the path `/:users` has the one segment `:users`, which differs from
it. `matchRoute` is true all the same: the path goes through `parsePattern`
too, which reads `:users` as a parameter named `users`, and it is that name
that is compared with the static segment. The same happens with the paths
`/*users` and `/users?`. -/
theorem matchRoute_reference_counterexample :
    Router.segments "/users" = ["users"] ∧
    Router.isStaticSegment "users" = true ∧
    Router.segments "/:users" = [":users"] ∧
    "users" ≠ ":users" ∧
    Router.matchRoute "/users" "/:users" = true ∧
    Router.matchRoute "/users" "/*users" = true ∧
    Router.matchRoute "/users" "/users?" = true := by
  decide

/-- C35, amended. Let every non-empty segment of the pattern be a static
segment or a `:name` segment. Then `matchRoute(pattern, path)` is true exactly
when the path has as many non-empty segments as the pattern and every static
pattern segment equals the path segment at the same position as `parsePattern`
reads it (without a leading `:` or `*`, else without a trailing `?`). When the
path segments have no such mark, that is the path segment itself. Empty
segments are ignored on both sides. -/
theorem matchRoute_reference (pattern path : String)
    (hplain : ∀ seg, seg ∈ Router.segments pattern →
      Router.isStaticSegment seg = true ∨ Router.isParamSegment seg = true) :
    (Router.matchRoute pattern path = true ↔
      (Router.segments pattern).length = (Router.segments path).length ∧
        ∀ pq, pq ∈ (Router.segments pattern).zip (Router.segments path) →
          Router.isStaticSegment pq.1 = true → pq.1 = (Router.parseSegment pq.2).value) ∧
    ((∀ seg, seg ∈ Router.segments path → Router.isStaticSegment seg = true) →
      (Router.matchRoute pattern path = true ↔
        (Router.segments pattern).length = (Router.segments path).length ∧
          ∀ pq, pq ∈ (Router.segments pattern).zip (Router.segments path) →
            Router.isStaticSegment pq.1 = true → pq.1 = pq.2)) := by
  have hmain : Router.matchRoute pattern path = true ↔
      (Router.segments pattern).length = (Router.segments path).length ∧
        ∀ pq, pq ∈ (Router.segments pattern).zip (Router.segments path) →
          Router.isStaticSegment pq.1 = true → pq.1 = (Router.parseSegment pq.2).value := by
    unfold Router.matchRoute Router.parsePattern
    rw [matchSegments_plain _ _ (by
      intro p hp
      obtain ⟨seg, hseg, rfl⟩ := List.mem_map.1 hp
      obtain ⟨h1, h2, _, _⟩ := parseSegment_plain seg (hplain seg hseg)
      exact ⟨h1, h2⟩)]
    rw [List.length_map, List.length_map, List.zip_map]
    constructor
    · rintro ⟨hlen, hall⟩
      refine ⟨hlen, ?_⟩
      intro pq hpq hstatic
      obtain ⟨_, _, h3, h4⟩ := parseSegment_plain pq.1 (hplain pq.1 (List.of_mem_zip hpq).1)
      have := hall (Prod.map Router.parseSegment Router.parseSegment pq)
        (List.mem_map.2 ⟨pq, hpq, rfl⟩) (h3.2 hstatic)
      simp only [Prod.map_fst, Prod.map_snd] at this
      rw [← this]
      exact (h4 hstatic).symm
    · rintro ⟨hlen, hall⟩
      refine ⟨hlen, ?_⟩
      intro pq hpq hdyn
      obtain ⟨st, hst, rfl⟩ := List.mem_map.1 hpq
      obtain ⟨_, _, h3, h4⟩ := parseSegment_plain st.1 (hplain st.1 (List.of_mem_zip hst).1)
      simp only [Prod.map_fst, Prod.map_snd] at hdyn ⊢
      have hstatic := h3.1 hdyn
      rw [h4 hstatic]
      exact hall st hst hstatic
  refine ⟨hmain, ?_⟩
  intro hpath
  rw [hmain]
  constructor
  · rintro ⟨hlen, hall⟩
    refine ⟨hlen, ?_⟩
    intro pq hpq hstatic
    have := hall pq hpq hstatic
    rw [parseSegment_static pq.2 (hpath pq.2 (List.of_mem_zip hpq).2)] at this
    exact this
  · rintro ⟨hlen, hall⟩
    refine ⟨hlen, ?_⟩
    intro pq hpq hstatic
    rw [parseSegment_static pq.2 (hpath pq.2 (List.of_mem_zip hpq).2)]
    exact hall pq hpq hstatic

theorem matchRoute_reference_witness :
    (∀ seg, seg ∈ Router.segments "/users/:id" →
      Router.isStaticSegment seg = true ∨ Router.isParamSegment seg = true) ∧
    Router.matchRoute "/users/:id" "//users/42/" = true ∧
    ((Router.segments "/users/:id").length = (Router.segments "//users/42/").length ∧
      ∀ pq, pq ∈ (Router.segments "/users/:id").zip (Router.segments "//users/42/") →
        Router.isStaticSegment pq.1 = true → pq.1 = (Router.parseSegment pq.2).value) ∧
    Router.matchRoute "/users/:id" "/users" = false :=
  ⟨by decide, by decide,
    ((matchRoute_reference "/users/:id" "//users/42/" (by decide)).1).1 (by decide),
    by decide⟩

/-! ## Navigation guards -/

theorem runGuards_veto (oldRoute newRoute : Route) (before : List (Route → Route → Bool))
    (guard : Route → Route → Bool) (after : List (Route → Route → Bool))
    (hbefore : ∀ g, g ∈ before → g oldRoute newRoute = true)
    (hveto : guard oldRoute newRoute = false) (index : Nat) :
    Router.runGuards oldRoute newRoute (before ++ guard :: after) index =
      (false, List.range' index (before.length + 1)) := by
  induction before generalizing index with
  | nil => simp [Router.runGuards, hveto, List.range']
  | cons g rest ih =>
    have hg := hbefore g (List.mem_cons_self _ _)
    have hrest := ih (fun x hx => hbefore x (List.mem_cons_of_mem _ hx)) (index + 1)
    rw [List.cons_append, Router.runGuards]
    simp only [hg, if_true, hrest, List.length_cons]
    rfl

theorem runGuards_pass (oldRoute newRoute : Route) (guards : List (Route → Route → Bool))
    (hall : ∀ g, g ∈ guards → g oldRoute newRoute = true) (index : Nat) :
    Router.runGuards oldRoute newRoute guards index =
      (true, List.range' index guards.length) := by
  induction guards generalizing index with
  | nil => simp [Router.runGuards]
  | cons g rest ih =>
    have hg := hall g (List.mem_cons_self _ _)
    have hrest := ih (fun x hx => hall x (List.mem_cons_of_mem _ hx)) (index + 1)
    simp only [Router.runGuards, hg, if_true, hrest, List.length_cons]
    rw [List.range'_succ]

theorem first_veto (oldRoute newRoute : Route) (guards : List (Route → Route → Bool))
    (h : ∃ g, g ∈ guards ∧ g oldRoute newRoute = false) :
    ∃ before guard after, guards = before ++ guard :: after ∧
      (∀ g, g ∈ before → g oldRoute newRoute = true) ∧ guard oldRoute newRoute = false := by
  induction guards with
  | nil =>
    obtain ⟨g, hg, _⟩ := h
    cases hg
  | cons g rest ih =>
    by_cases hg : g oldRoute newRoute = true
    · obtain ⟨x, hx, hfalse⟩ := h
      have hx1 : x ∈ rest := by
        rcases List.mem_cons.1 hx with hx | hx
        · rw [hx, hg] at hfalse; cases hfalse
        · exact hx
      obtain ⟨before, guard, after, heq, hb, hv⟩ := ih ⟨x, hx1, hfalse⟩
      refine ⟨g :: before, guard, after, by rw [heq]; rfl, ?_, hv⟩
      intro y hy
      rcases List.mem_cons.1 hy with hy | hy
      · rw [hy]; exact hg
      · exact hb y hy
    · refine ⟨[], g, rest, rfl, ?_, by simpa using hg⟩
      intro x hx
      cases hx

theorem findRoute_first (routes : List Route) (path : String) (route : Route)
    (h : Router.findRoute routes path = some route) :
    ∃ pre suf, routes = pre ++ route :: suf ∧ Router.matchRoute route.path path = true ∧
      ∀ r, r ∈ pre → Router.matchRoute r.path path = false := by
  induction routes with
  | nil => cases h
  | cons r rest ih =>
    unfold Router.findRoute at h ih
    rw [List.find?_cons] at h
    by_cases hr : Router.matchRoute r.path path = true
    · simp only [hr] at h
      cases h
      exact ⟨[], rest, rfl, hr, fun _ hx => by cases hx⟩
    · have hr1 : Router.matchRoute r.path path = false := by simpa using hr
      simp only [hr1] at h
      obtain ⟨pre, suf, heq, hm, hpre⟩ := ih h
      refine ⟨r :: pre, suf, by rw [heq]; rfl, hm, ?_⟩
      intro x hx
      rcases List.mem_cons.1 hx with hx | hx
      · rw [hx]; exact hr1
      · exact hpre x hx

/-- C36, evaluated on the code. `push` never reaches its guards: its first
statement, `*currentRoute_`, calls `shared_from_this()` on a member that no
`shared_ptr` owns, and the exception `std::bad_weak_ptr` leaves `push` with
the router as it was, for every path and every router state. On a router at
`/` with two guards that both allow the navigation to `/users/7`, whose first
matching route is `user`, the claim has `currentPath` become `/users/7` and
`currentRoute` become `user`; the code raises, invokes no guard, and keeps the
path `/` and the route `home`. With a vetoing guard registered second, no
guard is invoked either. -/
theorem push_raises_before_guards (path : String) (router : Router) :
    Router.push path router = RouterOutcome.raised "std::bad_weak_ptr" router ∧
    (Router.findRoute openRouter.routes "/users/7").map Route.name = some "user" ∧
    Router.runGuards openRouter.currentRoute
      ((Router.findRoute openRouter.routes "/users/7").getD Route.default)
      openRouter.navigationGuards 0 = (true, [0, 1]) ∧
    (Router.push "/users/7" openRouter).error = some "std::bad_weak_ptr" ∧
    (Router.push "/users/7" openRouter).router.currentPath = "/" ∧
    (Router.push "/users/7" openRouter).router.currentRoute.name = "home" ∧
    (Router.push "/users/7" openRouter).router.guardCalls = [] ∧
    Router.runGuards guardedRouter.currentRoute
      ((Router.findRoute guardedRouter.routes "/users/7").getD Route.default)
      guardedRouter.navigationGuards 0 = (false, [0, 1]) ∧
    (Router.push "/users/7" guardedRouter).router.guardCalls = [] :=
  ⟨rfl, by decide, by decide, by decide, by decide, by decide, by decide, by decide,
    by decide⟩

/-! ## Directive names -/

/-- C32, evaluated on the code. The spelling `c-else-if` does not match the
regex of `Directive::parse`, whose name group `\w+` cannot hold the hyphen, so
the branch `name == "else-if"` is never reached and the directive comes back
as constructed, with its type never assigned, instead of `ELSE_IF`. The seven
other spellings give their enumerator, also with `:arg` and `.modifier`
suffixes, which give the argument and the flags. -/
theorem directive_else_if_not_parsed :
    matchDirectiveRegex "c-else-if".toList = none ∧
    (Directive.parse "c-else-if").type = none ∧
    Directive.typeOfName "else-if" = some DirectiveType.ELSE_IF ∧
    (Directive.parse "c-if").type = some DirectiveType.IF ∧
    (Directive.parse "c-else").type = some DirectiveType.ELSE ∧
    (Directive.parse "c-for").type = some DirectiveType.FOR ∧
    (Directive.parse "c-model").type = some DirectiveType.MODEL ∧
    (Directive.parse "c-on").type = some DirectiveType.ON ∧
    (Directive.parse "c-bind").type = some DirectiveType.BIND ∧
    (Directive.parse "c-show").type = some DirectiveType.SHOW ∧
    Directive.parse "c-on:click.stop.prevent" =
      { type := some DirectiveType.ON, arg := "click",
        modifiers := { stop := true, prevent := true } } ∧
    Directive.parse "c-bind:class" = { type := some DirectiveType.BIND, arg := "class" } ∧
    Directive.parse "c-model.once" =
      { type := some DirectiveType.MODEL, modifiers := { once := true } } := by
  decide

/-! ## The node stack of the template parser -/

/-- C37, evaluated on the code. The closing tag `</template>` matches the
implicit root and pops it, which leaves the stack empty. A text or an opening
tag after it makes `parse` call `nodeStack.top()` on the empty stack, where no
`TemplateParseError` is thrown: the emptiness test of the closing-tag branch is
missing there. Only another closing tag is rejected, as is the end of the
input. A well-nested input returns the root `template`. -/
theorem template_root_pop_reads_empty_stack :
    (TemplateParser.parse "</template>x").isEmptyTop = true ∧
    (TemplateParser.parse "</template><div>").isEmptyTop = true ∧
    (TemplateParser.parse "</template><br>").isEmptyTop = true ∧
    (TemplateParser.parse "</template>x</template>").isEmptyTop = true ∧
    (TemplateParser.parse "</template></template>").message =
      some "Mismatched closing tag: template" ∧
    (TemplateParser.parse "</template>").message = some "Unclosed tags in template" ∧
    (TemplateParser.parse "<div>").message = some "Unclosed tags in template" ∧
    (TemplateParser.parse "</div>").message = some "Mismatched closing tag: div" ∧
    TemplateParser.parse "<div class=a>hi<br></div>!" =
      ParseOutcome.returned
        (TemplateNode.element "template"
          [TemplateNode.element "div" [TemplateNode.text "hi", TemplateNode.element "br" []],
            TemplateNode.text "!"]) := by
  refine ⟨by decide, by decide, by decide, by decide, by decide, by decide, by decide,
    by decide, rfl⟩

end CppVue
